import Mathlib

/-!
Football league simulation: embedding of `main.go`.

The Go program keeps one mutable `League` whose `Teams` field is a slice of
pointers to `Team` objects.  The embedding keeps the pointer structure: team
objects live in a `heap` addressed by natural numbers and `League.Teams` is the
list of addresses, in storage order.  This matters because `GetTable` sorts
`l.Teams` in place while callers hold team pointers and iterate over the slice.

Modelling conventions:

* Go `int` is `Int`.  The statistics updater, which adds goal values taken from a
  request, computes in 64-bit two's-complement arithmetic (`wrap64`); week numbers and
  strengths stay within a few hundred of zero in every state the program builds.
* `float64` is `ℚ` with exact arithmetic, except that a float division by zero is
  spelled out where the program can perform one.
* The random source is a stream of draws, threaded through the operations.
* A nil-pointer dereference aborts the operation: the result is `none`.
* `sort.Slice` is the insertion sort that the Go library runs on slices of at most
  twelve elements; the library's treatment of longer slices is not modelled.
* Of the HTTP handlers only the effect on the league is kept; request decoding and
  response encoding are left out.
-/

namespace Football

/-! ## Data model -/

/-- The struct `TeamStats`. -/
structure TeamStats where
  Played : Int
  Won : Int
  Drawn : Int
  Lost : Int
  GoalsFor : Int
  GoalsAgainst : Int
  GoalDiff : Int
  Points : Int
deriving DecidableEq, Repr, Inhabited

/-- The struct `Team`. -/
structure Team where
  Name : String
  Strength : Int
  BaseStrength : Int
  Stats : TeamStats
deriving DecidableEq, Repr, Inhabited

/-- The struct `Match`. -/
structure Match where
  Week : Int
  HomeTeam : String
  AwayTeam : String
  HomeGoals : Int
  AwayGoals : Int
  Played : Bool
  Result : String
deriving DecidableEq, Repr, Inhabited

/-- Team objects addressed by pointer; a `*Team` is an address. -/
abbrev Heap := Nat → Team

/-- The struct `League`; `Teams` holds the `*Team` pointers in storage order. -/
structure League where
  heap : Heap
  Teams : List Nat
  Matches : List Match
  CurrentWeek : Int
  TotalWeeks : Int
  MatchesPerWeek : Int

/-- The stream of values returned by successive `rand.Float64()` calls. -/
abbrev Rng := Nat → ℚ

/-- Assignment through a team pointer: `*p = t`. -/
def store (h : Heap) (p : Nat) (t : Team) : Heap :=
  fun q => if q = p then t else h q

/-! ## Statistics updater -/

/-- Two's-complement wrap-around of Go's `int`, 64 bits wide on the platforms the
server is built for: the representative of `x` modulo `2^64` in the range from `-2^63`
to `2^63 - 1`. -/
def wrap64 (x : Int) : Int :=
  (x + 9223372036854775808) % 18446744073709551616 - 9223372036854775808

/-- `Team.UpdateStats`; every `++`, `+=` and `-` wraps around at 64 bits. -/
def UpdateStats (t : Team) (goalsFor goalsAgainst : Int) (result : String) : Team :=
  let played := wrap64 (t.Stats.Played + 1)
  let gf := wrap64 (t.Stats.GoalsFor + goalsFor)
  let ga := wrap64 (t.Stats.GoalsAgainst + goalsAgainst)
  let s : TeamStats :=
    { t.Stats with Played := played, GoalsFor := gf, GoalsAgainst := ga,
                   GoalDiff := wrap64 (gf - ga) }
  if result = "W" then
    { t with Stats := { s with Won := wrap64 (s.Won + 1), Points := wrap64 (s.Points + 3) } }
  else if result = "D" then
    { t with Stats := { s with Drawn := wrap64 (s.Drawn + 1), Points := wrap64 (s.Points + 1) } }
  else if result = "L" then
    { t with Stats := { s with Lost := wrap64 (s.Lost + 1) } }
  else
    { t with Stats := s }

/-- `Team.reverseMatchResult`; every `--`, `-=` and `-` wraps around at 64 bits. -/
def reverseMatchResult (t : Team) (goalsFor goalsAgainst : Int) : Team :=
  let played := wrap64 (t.Stats.Played - 1)
  let gf := wrap64 (t.Stats.GoalsFor - goalsFor)
  let ga := wrap64 (t.Stats.GoalsAgainst - goalsAgainst)
  let s : TeamStats :=
    { t.Stats with Played := played, GoalsFor := gf, GoalsAgainst := ga,
                   GoalDiff := wrap64 (gf - ga) }
  if goalsFor > goalsAgainst then
    { t with Stats := { s with Won := wrap64 (s.Won - 1), Points := wrap64 (s.Points - 3) } }
  else if goalsFor < goalsAgainst then
    { t with Stats := { s with Lost := wrap64 (s.Lost - 1) } }
  else
    { t with Stats := { s with Drawn := wrap64 (s.Drawn - 1), Points := wrap64 (s.Points - 1) } }


/-! ## Match outcome simulator -/

/-- One trial `rand.Float64() < float64(num)/float64(den)*0.4`.  With `den = 0` the float
quotient is `+Inf`, `-Inf` or `NaN`, and the comparison holds only for `+Inf`. -/
def goalScored (draw : ℚ) (num den : Int) : Bool :=
  if den = 0 then decide (0 < num)
  else decide (draw < (num : ℚ) / (den : ℚ) * (2 / 5))

/-- `simulateMatchResult`: six rounds, each drawing once for the home side and once
for the away side; returns the goals and the rest of the random stream. -/
def simulateMatchResult (homeTeam awayTeam : Team) (rng : Rng) : Int × Int × Rng :=
  let homeAdvantage : Int := 5
  let homeStrength := homeTeam.Strength + homeAdvantage
  let totalStrength := homeStrength + awayTeam.Strength
  let goals := (List.range 6).foldl (fun (g : Int × Int) i =>
    let g1 := if goalScored (rng (2 * i)) homeStrength totalStrength then (g.1 + 1, g.2) else g
    if goalScored (rng (2 * i + 1)) awayTeam.Strength totalStrength then (g1.1, g1.2 + 1)
    else g1) (0, 0)
  (goals.1, goals.2, fun n => rng (n + 12))

/-- The text written by `fmt.Sprintf("%s %d-%d %s", ...)`. -/
def resultText (home : String) (homeGoals awayGoals : Int) (away : String) : String :=
  home ++ " " ++ toString homeGoals ++ "-" ++ toString awayGoals ++ " " ++ away

/-- The three-way outcome label chosen at the call sites of `UpdateStats`. -/
def outcomeLabel (goalsFor goalsAgainst : Int) : String :=
  if goalsFor > goalsAgainst then "W" else if goalsFor < goalsAgainst then "L" else "D"

/-- The statistics part of `PlayMatch` and of the edit handler: one comparison of the
two scores, then the home team is updated and after it the away team, both through
their pointers. -/
def applyResult (h : Heap) (homeTeam awayTeam : Nat) (homeGoals awayGoals : Int) : Heap :=
  if homeGoals > awayGoals then
    let h1 := store h homeTeam (UpdateStats (h homeTeam) homeGoals awayGoals "W")
    store h1 awayTeam (UpdateStats (h1 awayTeam) awayGoals homeGoals "L")
  else if homeGoals < awayGoals then
    let h1 := store h homeTeam (UpdateStats (h homeTeam) homeGoals awayGoals "L")
    store h1 awayTeam (UpdateStats (h1 awayTeam) awayGoals homeGoals "W")
  else
    let h1 := store h homeTeam (UpdateStats (h homeTeam) homeGoals awayGoals "D")
    store h1 awayTeam (UpdateStats (h1 awayTeam) awayGoals homeGoals "D")

/-- `Match.PlayMatch`; a nil team pointer is `none` and dereferencing it in the
simulator aborts the call. -/
def PlayMatch (m : Match) (h : Heap) (homeTeam awayTeam : Option Nat) (rng : Rng) :
    Option (Match × Heap × Rng) :=
  if m.Played then some (m, h, rng)
  else
    match homeTeam, awayTeam with
    | some hp, some ap =>
      let r := simulateMatchResult (h hp) (h ap) rng
      let homeGoals := r.1
      let awayGoals := r.2.1
      let m1 : Match :=
        { m with HomeGoals := homeGoals, AwayGoals := awayGoals, Played := true,
                 Result := resultText m.HomeTeam homeGoals awayGoals m.AwayTeam }
      some (m1, applyResult h hp ap homeGoals awayGoals, r.2.2)
    | _, _ => none

/-! ## Standings calculator -/

/-- The comparison closure passed to `sort.Slice` in `GetTable`. -/
def tableLess (a b : Team) : Bool :=
  if a.Stats.Points ≠ b.Stats.Points then decide (a.Stats.Points > b.Stats.Points)
  else if a.Stats.GoalDiff ≠ b.Stats.GoalDiff then decide (a.Stats.GoalDiff > b.Stats.GoalDiff)
  else decide (a.Stats.GoalsFor > b.Stats.GoalsFor)

/-- Inner loop of Go's insertion sort, on the already ordered prefix kept in reverse
(nearest neighbour first): the new element moves left past every neighbour it is
`less` than. -/
def sinkLeft {α : Type} (less : α → α → Bool) (x : α) : List α → List α
  | [] => [x]
  | y :: rest => if less x y then y :: sinkLeft less x rest else x :: y :: rest

/-- `sort.Slice` as the Go library executes it on slices of at most twelve elements
(the league has four teams): insertion sort from left to right.  On longer slices the
library takes other paths, which are not part of the repository and are not modelled;
there this definition stands for them only as a sort by the same comparison. -/
def sortSlice {α : Type} (less : α → α → Bool) (xs : List α) : List α :=
  (xs.foldl (fun sortedRev x => sinkLeft less x sortedRev) []).reverse

/-- `League.GetTable`: sorts `l.Teams` in place and returns the sorted pointers. -/
def GetTable (l : League) : League × List Nat :=
  let sorted := sortSlice (fun p q => tableLess (l.heap p) (l.heap q)) l.Teams
  ({ l with Teams := sorted }, sorted)

/-- The search loop of `getTeamByName`; `none` is the nil pointer. -/
def findTeam (h : Heap) (name : String) : List Nat → Option Nat
  | [] => none
  | p :: rest => if (h p).Name = name then some p else findTeam h name rest

/-- `League.getTeamByName`. -/
def getTeamByName (l : League) (name : String) : Option Nat :=
  findTeam l.heap name l.Teams

/-- The scan of `getTeamPosition` over the table, `i` being the loop index. -/
def positionIn (h : Heap) (teamName : String) : List Nat → Int → Int
  | [], _ => 4
  | p :: rest, i => if (h p).Name = teamName then i + 1 else positionIn h teamName rest (i + 1)

/-- `League.getTeamPosition`; the call to `GetTable` reorders `l.Teams`. -/
def getTeamPosition (l : League) (teamName : String) : League × Int :=
  let r := GetTable l
  (r.1, positionIn r.1.heap teamName r.2 0)

/-! ## Strength adapter -/

/-- The performance bands of `UpdateTeamStrength`, an if/else-if chain in the order
of the source. -/
def performanceChange (pointsPerGame : ℚ) : Int :=
  if pointsPerGame ≥ 5 / 2 then 2
  else if pointsPerGame ≥ 2 then 1
  else if pointsPerGame ≤ 1 then -2
  else if pointsPerGame ≤ 3 / 2 then -1
  else 0

/-- The `switch currentPosition` of `UpdateTeamStrength`. -/
def positionChange (currentPosition : Int) : Int :=
  if currentPosition = 1 then 1
  else if currentPosition = 4 then -1
  else 0

/-- The two limit steps of `UpdateTeamStrength`: first around the base strength, then
the range 1 to 100. -/
def limitStrength (newStrength baseStrength : Int) : Int :=
  let minStrength := baseStrength - 15
  let maxStrength := baseStrength + 15
  let newStrength :=
    if newStrength < minStrength then minStrength
    else if newStrength > maxStrength then maxStrength
    else newStrength
  if newStrength < 1 then 1
  else if newStrength > 100 then 100
  else newStrength

/-- `League.UpdateTeamStrength` for the team object at address `team`. -/
def UpdateTeamStrength (l : League) (team : Nat) : League :=
  let t := l.heap team
  if t.Stats.Played = 0 then l
  else
    let pointsPerGame : ℚ := (t.Stats.Points : ℚ) / (t.Stats.Played : ℚ)
    let r := getTeamPosition l t.Name
    let l1 := r.1
    let currentPosition := r.2
    let strengthChange : Int := performanceChange pointsPerGame + positionChange currentPosition
    let newStrength := limitStrength (t.Strength + strengthChange) t.BaseStrength
    { l1 with heap := store l1.heap team { l1.heap team with Strength := newStrength } }

/-! ## Championship predictor -/

/-- A Go `map[string]float64`, as its entries with pairwise different keys. -/
abbrev ScoreMap := List (String × ℚ)

/-- Map assignment `m[k] = v`: overwrites the entry of `k` or adds one. -/
def mapSet : ScoreMap → String → ℚ → ScoreMap
  | [], k, v => [(k, v)]
  | (k1, v1) :: rest, k, v => if k1 = k then (k, v) :: rest else (k1, v1) :: mapSet rest k v

/-- Map lookup. -/
def mapGet : ScoreMap → String → Option ℚ
  | [], _ => none
  | (k1, v1) :: rest, k => if k1 = k then some v1 else mapGet rest k

/-- The `switch position` of `PredictChampionship`. -/
def positionBonus (position : Int) : ℚ :=
  if position = 1 then 20
  else if position = 2 then 10
  else if position = 3 then 0
  else if position = 4 then -10
  else 0

/-- The raw score `PredictChampionship` computes for one team, given the position
returned by `getTeamPosition`. -/
def teamScore (l : League) (t : Team) (position : Int) : ℚ :=
  let score : ℚ := (t.Stats.Points : ℚ) * 10
  let score := score + (t.Stats.GoalDiff : ℚ) * 2
  let score :=
    if t.Stats.Played > 0 then score + (t.Stats.Points : ℚ) / (t.Stats.Played : ℚ) * 15
    else score
  let score := score + (t.Strength : ℚ) * 1
  let score := score + positionBonus position
  let remainingMatches := (l.TotalWeeks - l.CurrentWeek) * 2
  if remainingMatches > 0 then score + ((remainingMatches * 3 : Int) : ℚ) * (3 / 10)
  else score

/-- One iteration of the scoring loop of `PredictChampionship`, with the league,
`teamScores` and `totalScore` as loop state.  The iteration reads the pointer stored at
its index at that moment; `getTeamPosition` reorders `l.Teams`. -/
def scoreStep (acc : League × ScoreMap × ℚ) (i : Nat) : League × ScoreMap × ℚ :=
  match acc.1.Teams.get? i with
  | some team =>
    let t := acc.1.heap team
    let r := getTeamPosition acc.1 t.Name
    let score := teamScore r.1 t r.2
    (r.1, mapSet acc.2.1 t.Name score, acc.2.2 + score)
  | none => acc

/-- The scoring loop of `PredictChampionship`: `for _, team := range l.Teams`, the
index running over the length fixed at loop entry. -/
def scoreLoop (l : League) : League × ScoreMap × ℚ :=
  (List.range l.Teams.length).foldl scoreStep (l, [], 0)

/-- The limits applied to one percentage: at least 1, at most 95. -/
def clampPercentage (x : ℚ) : ℚ :=
  if x < 1 then 1 else if x > 95 then 95 else x

/-- The conversion loop of `PredictChampionship`: one prediction per entry of
`teamScores`. -/
def toPercentages (teamScores : ScoreMap) (totalScore : ℚ) : ScoreMap :=
  teamScores.map (fun e =>
    (e.1, clampPercentage (if totalScore > 0 then e.2 / totalScore * 100 else 25)))

/-- The final pass of `PredictChampionship`: every entry divided by the total of all
entries when that total is positive. -/
def normalize (predictions : ScoreMap) : ScoreMap :=
  let total := (predictions.map (fun e => e.2)).sum
  if total > 0 then predictions.map (fun e => (e.1, e.2 / total * 100)) else predictions

/-- `League.PredictChampionship`: the league as the call leaves it and the returned map. -/
def PredictChampionship (l : League) : League × ScoreMap :=
  if l.CurrentWeek = 0 then
    (l, l.Teams.foldl (fun predictions team => mapSet predictions (l.heap team).Name 25) [])
  else
    let r := scoreLoop l
    (r.1, normalize (toPercentages r.2.1 r.2.2))

/-! ## Season controller -/

/-- What an operation hands back: the Go error (or handler failure) if any, and the
league as the operation left it. -/
structure Outcome where
  err : Option String
  league : League

/-- The match loop of `PlayNextWeek`, over the matches in slice order; `teams` is
`l.Teams`, which the loop does not change. -/
def playWeekMatches (teams : List Nat) (week : Int) :
    List Match → Heap → Rng → Option (List Match × Heap × Rng)
  | [], h, rng => some ([], h, rng)
  | m :: rest, h, rng =>
    if m.Week = week ∧ m.Played = false then
      match PlayMatch m h (findTeam h m.HomeTeam teams) (findTeam h m.AwayTeam teams) rng with
      | none => none
      | some (m1, h1, rng1) =>
        match playWeekMatches teams week rest h1 rng1 with
        | none => none
        | some (ms, h2, rng2) => some (m1 :: ms, h2, rng2)
    else
      match playWeekMatches teams week rest h rng with
      | none => none
      | some (ms, h2, rng2) => some (m :: ms, h2, rng2)

/-- The strength loop of `PlayNextWeek`: `for _, team := range l.Teams`.  The index
runs over the length fixed at loop entry and each iteration reads the pointer that
is stored at that index at that moment. -/
def updateStrengths (l : League) : League :=
  (List.range l.Teams.length).foldl (fun acc i =>
    match acc.Teams.get? i with
    | some team => UpdateTeamStrength acc team
    | none => acc) l

/-- `League.PlayNextWeek`. -/
def PlayNextWeek (l : League) (rng : Rng) : Option (Outcome × Rng) :=
  if l.CurrentWeek ≥ l.TotalWeeks then some (⟨some "season is complete", l⟩, rng)
  else
    let week := l.CurrentWeek + 1
    match playWeekMatches l.Teams week l.Matches l.heap rng with
    | none => none
    | some (ms, h, rng1) =>
      let l1 : League := { l with CurrentWeek := week, Matches := ms, heap := h }
      some (⟨none, updateStrengths l1⟩, rng1)

/-- The loop of `PlayAllMatches`, bounded by `fuel` iterations; `none` when a call
aborts or the bound is used up with the loop condition still true. -/
def playAllLoop : Nat → League → Rng → Option (League × Rng)
  | 0, l, rng => if l.CurrentWeek < l.TotalWeeks then none else some (l, rng)
  | fuel + 1, l, rng =>
    if l.CurrentWeek < l.TotalWeeks then
      match PlayNextWeek l rng with
      | none => none
      | some (o, rng1) => playAllLoop fuel o.league rng1
    else some (l, rng)

/-- `League.PlayAllMatches`: the loop runs at most `TotalWeeks - CurrentWeek` times. -/
def PlayAllMatches (l : League) (rng : Rng) : Option (League × Rng) :=
  playAllLoop (l.TotalWeeks - l.CurrentWeek).toNat l rng

/-- The two `reverseMatchResult` calls of the edit handler: the home team first, then
the away team, both through their pointers. -/
def retractResult (h : Heap) (homeTeam awayTeam : Nat) (homeGoals awayGoals : Int) : Heap :=
  let h1 := store h homeTeam (reverseMatchResult (h homeTeam) homeGoals awayGoals)
  store h1 awayTeam (reverseMatchResult (h1 awayTeam) awayGoals homeGoals)

/-- The body of the edit handler for the located match `m`: retract the stored score
if the match was played, store the new score, apply it.  A team name that resolves to
nil aborts the handler at the first use of the pointer. -/
def correctMatch (teams : List Nat) (m : Match) (h : Heap) (homeGoals awayGoals : Int) :
    Option (Match × Heap) :=
  let retracted : Option Heap :=
    if m.Played then
      match findTeam h m.HomeTeam teams, findTeam h m.AwayTeam teams with
      | some hp, some ap => some (retractResult h hp ap m.HomeGoals m.AwayGoals)
      | _, _ => none
    else some h
  match retracted with
  | none => none
  | some h2 =>
    let m1 : Match :=
      { m with HomeGoals := homeGoals, AwayGoals := awayGoals, Played := true,
               Result := resultText m.HomeTeam homeGoals awayGoals m.AwayTeam }
    match findTeam h2 m1.HomeTeam teams, findTeam h2 m1.AwayTeam teams with
    | some hp, some ap => some (m1, applyResult h2 hp ap homeGoals awayGoals)
    | _, _ => none

/-- Result of the search loop of the edit handler. -/
inductive EditResult where
  | notFound
  | aborted
  | updated (ms : List Match) (h : Heap)

/-- The search loop of `editMatchResult` over `league.Matches`: the first match with
the requested week, home team and away team is corrected and the loop returns. -/
def editLoop (teams : List Nat) (week : Int) (home away : String) (homeGoals awayGoals : Int) :
    List Match → Heap → EditResult
  | [], _ => EditResult.notFound
  | m :: rest, h =>
    if m.Week = week ∧ m.HomeTeam = home ∧ m.AwayTeam = away then
      match correctMatch teams m h homeGoals awayGoals with
      | none => EditResult.aborted
      | some (m1, h1) => EditResult.updated (m1 :: rest) h1
    else
      match editLoop teams week home away homeGoals awayGoals rest h with
      | EditResult.updated ms h1 => EditResult.updated (m :: ms) h1
      | r => r

/-- The handler `editMatchResult` after request decoding: the edit loop, then the
`GetTable` call made for the response; `Match not found` leaves the league as it was. -/
def editMatchResult (l : League) (week : Int) (home away : String)
    (homeGoals awayGoals : Int) : Option Outcome :=
  match editLoop l.Teams week home away homeGoals awayGoals l.Matches l.heap with
  | EditResult.notFound => some ⟨some "Match not found", l⟩
  | EditResult.aborted => none
  | EditResult.updated ms h =>
    some ⟨none, (GetTable { l with Matches := ms, heap := h }).1⟩

/-! ## Season initialisation -/

/-- The literal fixture table of `generateFixtures`. -/
def fixtureTable : List (Int × String × String × String × String) :=
  [ (1, "Chelsea", "Arsenal", "Manchester City", "Liverpool"),
    (2, "Arsenal", "Manchester City", "Liverpool", "Chelsea"),
    (3, "Chelsea", "Liverpool", "Manchester City", "Arsenal"),
    (4, "Arsenal", "Chelsea", "Liverpool", "Manchester City"),
    (5, "Manchester City", "Chelsea", "Liverpool", "Arsenal"),
    (6, "Arsenal", "Liverpool", "Chelsea", "Manchester City") ]

/-- A `Match` literal with only week, teams and `Played: false` set. -/
def newMatch (week : Int) (home away : String) : Match :=
  { Week := week, HomeTeam := home, AwayTeam := away, HomeGoals := 0, AwayGoals := 0,
    Played := false, Result := "" }

/-- `League.generateFixtures`: two matches appended per table row. -/
def generateFixtures (matches_ : List Match) : List Match :=
  fixtureTable.foldl (fun acc f =>
    (acc ++ [newMatch f.1 f.2.1 f.2.2.1]) ++ [newMatch f.1 f.2.2.2.1 f.2.2.2.2]) matches_

/-- The empty `TeamStats{}`. -/
def zeroStats : TeamStats :=
  { Played := 0, Won := 0, Drawn := 0, Lost := 0, GoalsFor := 0, GoalsAgainst := 0,
    GoalDiff := 0, Points := 0 }

/-- The four team objects allocated by `NewLeague`, at addresses 0 to 3. -/
def initialHeap : Heap := fun p =>
  match p with
  | 0 => { Name := "Chelsea", Strength := 80, BaseStrength := 80, Stats := zeroStats }
  | 1 => { Name := "Arsenal", Strength := 85, BaseStrength := 85, Stats := zeroStats }
  | 2 => { Name := "Manchester City", Strength := 82, BaseStrength := 82, Stats := zeroStats }
  | 3 => { Name := "Liverpool", Strength := 90, BaseStrength := 90, Stats := zeroStats }
  | _ => { Name := "", Strength := 0, BaseStrength := 0, Stats := zeroStats }

/-- `NewLeague`. -/
def NewLeague : League :=
  { heap := initialHeap, Teams := [0, 1, 2, 3], Matches := generateFixtures [],
    CurrentWeek := 0, TotalWeeks := 6, MatchesPerWeek := 2 }

/-! ## Specification vocabulary -/

/-- The two derived-field equations of a team record. -/
def StatsConsistent (t : Team) : Prop :=
  t.Stats.GoalDiff = t.Stats.GoalsFor - t.Stats.GoalsAgainst ∧
  t.Stats.Points = 3 * t.Stats.Won + t.Stats.Drawn

/-- Lexicographic `≥` on the triples `(Points, GoalDiff, GoalsFor)` of two teams. -/
def tripleGe (a b : Team) : Prop :=
  a.Stats.Points > b.Stats.Points ∨
  (a.Stats.Points = b.Stats.Points ∧
    (a.Stats.GoalDiff > b.Stats.GoalDiff ∨
      (a.Stats.GoalDiff = b.Stats.GoalDiff ∧ a.Stats.GoalsFor ≥ b.Stats.GoalsFor)))

/-- The match as the edit handler leaves it. -/
def correctedMatch (m : Match) (homeGoals awayGoals : Int) : Match :=
  { m with HomeGoals := homeGoals, AwayGoals := awayGoals, Played := true,
           Result := resultText m.HomeTeam homeGoals awayGoals m.AwayTeam }

/-- Names of all team objects are the same in two heaps. -/
def SameNames (h h2 : Heap) : Prop := ∀ p, (h2 p).Name = (h p).Name

/-- The key that identifies a match: week, home team, away team. -/
def matchKey (m : Match) : Int × String × String := (m.Week, m.HomeTeam, m.AwayTeam)

/-- The league states reachable from `NewLeague` through the operations the handlers
expose: round advances with any random stream, match corrections with any arguments,
and standings queries (`GetTable`, which is also all that `PredictChampionship` does
to the league). -/
inductive Reachable : League → Prop
  | fresh : Reachable NewLeague
  | advance {l : League} (rng : Rng) {o : Outcome} {rng2 : Rng} :
      Reachable l → PlayNextWeek l rng = some (o, rng2) → Reachable o.league
  | correct {l : League} (week : Int) (home away : String) (hg ag : Int) {o : Outcome} :
      Reachable l → editMatchResult l week home away hg ag = some o → Reachable o.league
  | table {l : League} : Reachable l → Reachable (GetTable l).1

/-- The second heap differs from the first at most in `Strength` fields. -/
def StrengthOnly (h h2 : Heap) : Prop :=
  ∀ p, (h2 p).Name = (h p).Name ∧ (h2 p).Stats = (h p).Stats ∧
    (h2 p).BaseStrength = (h p).BaseStrength

/-- The second league differs from the first at most in `Strength` fields and in the
order of `Teams`. -/
def Readjusted (l l2 : League) : Prop :=
  l2.Matches = l.Matches ∧ l2.CurrentWeek = l.CurrentWeek ∧ l2.TotalWeeks = l.TotalWeeks ∧
  l2.MatchesPerWeek = l.MatchesPerWeek ∧ l2.Teams.Perm l.Teams ∧ StrengthOnly l.heap l2.heap

/-- The match involves the team of that name, as home or away side. -/
def involves (name : String) (m : Match) : Bool :=
  decide (m.HomeTeam = name) || decide (m.AwayTeam = name)

/-- Number of matches involving the named team that are played. -/
def playedCount (name : String) (ms : List Match) : Int :=
  (ms.countP (fun m => involves name m && m.Played) : Nat)

/-- Number of matches involving the named team that are played and scheduled in a week
up to `week`. -/
def playedCountUpTo (week : Int) (name : String) (ms : List Match) : Int :=
  (ms.countP (fun m => involves name m && decide (m.Week ≤ week) && m.Played) : Nat)

/-- What never changes after `NewLeague`: team names, the set of team pointers, the
match keys and the number of weeks; and the range of the round counter. -/
structure Shape (l : League) : Prop where
  names : SameNames initialHeap l.heap
  teams : l.Teams.Perm [0, 1, 2, 3]
  keys : l.Matches.map matchKey = (generateFixtures []).map matchKey
  total : l.TotalWeeks = 6
  week : 0 ≤ l.CurrentWeek ∧ l.CurrentWeek ≤ 6

/-- The address `getTeamByName` finds for a name in the fresh league. -/
def teamAddress (name : String) : Option Nat := findTeam initialHeap name [0, 1, 2, 3]

/-- A match key names two different teams of the league and a week from 1 to 6. -/
def keyOk (k : Int × String × String) : Bool :=
  match teamAddress k.2.1, teamAddress k.2.2 with
  | some hp, some ap => decide (hp ≠ ap) && decide (1 ≤ k.1) && decide (k.1 ≤ 6)
  | _, _ => false

/-- Contribution of one match to the played count of the named team. -/
def playedBy (name : String) (m : Match) : Int :=
  if involves name m && m.Played then 1 else 0

/-! ## Sample states used to instantiate the theorems -/

/-- A random stream whose every draw is `1/5`. -/
def fifths : Rng := fun _ => 1 / 5

/-- The fresh league in the middle of the first `PlayNextWeek`: the round counter is
advanced and both week-one matches are resolved (with the draws of `fifths`:
Chelsea 0-0 Arsenal, Manchester City 0-6 Liverpool); the strength loop has not run. -/
def weekOneResolved : League :=
  match playWeekMatches NewLeague.Teams 1 NewLeague.Matches NewLeague.heap fifths with
  | some (ms, h, _) => { NewLeague with CurrentWeek := 1, Matches := ms, heap := h }
  | none => NewLeague

/-- The fresh league after the first match has been entered by hand as
Chelsea 2-1 Arsenal. -/
def chelseaWonByHand : League :=
  match editMatchResult NewLeague 1 "Chelsea" "Arsenal" 2 1 with
  | some o => o.league
  | none => NewLeague

/-- The fresh league after one `PlayNextWeek` with the draws of `fifths`. -/
def afterWeekOne : League :=
  match PlayNextWeek NewLeague fifths with
  | some (o, _) => o.league
  | none => NewLeague

/-- The league `afterWeekOne` with the first match then corrected to Chelsea 4-2 Arsenal. -/
def afterWeekOneCorrected : League :=
  match editMatchResult afterWeekOne 1 "Chelsea" "Arsenal" 4 2 with
  | some o => o.league
  | none => afterWeekOne

/-- The league after `PlayAllMatches` on the fresh league with the draws of `fifths`. -/
def finishedSeason : League :=
  match PlayAllMatches NewLeague fifths with
  | some (l, _) => l
  | none => NewLeague

/-- Points per game of a team record, as a rational. -/
def pointsPerGame (t : Team) : ℚ := (t.Stats.Points : ℚ) / (t.Stats.Played : ℚ)

/-- The performance bands in the order in which the specification lists them, read as
an if/else-if chain where the first match wins. -/
def specBandChain (ppg : ℚ) : Int :=
  if ppg ≥ 5 / 2 then 2
  else if ppg ≥ 2 then 1
  else if ppg ≤ 3 / 2 then -1
  else if ppg ≤ 1 then -2
  else 0

/-- The strength of a team lies in `[1, 100]` and within 15 of its base strength. -/
def StrengthInRange (t : Team) : Prop :=
  1 ≤ t.Strength ∧ t.Strength ≤ 100 ∧
  t.BaseStrength - 15 ≤ t.Strength ∧ t.Strength ≤ t.BaseStrength + 15

/-- Base strengths are those of the fresh league, and every team object with a base
strength in `[1, 100]` has its strength in range. -/
def RatingsOk (h : Heap) : Prop :=
  ∀ p, (h p).BaseStrength = (initialHeap p).BaseStrength ∧
    ((1 ≤ (h p).BaseStrength ∧ (h p).BaseStrength ≤ 100) → StrengthInRange (h p))

/-- The sort key of a team: `(Points, GoalDiff, GoalsFor)`. -/
def tripleOf (t : Team) : Int × Int × Int :=
  (t.Stats.Points, t.Stats.GoalDiff, t.Stats.GoalsFor)

/-- A league of five teams in which the second and the fourth have the same key. -/
def fiveTeams : League :=
  { heap := fun p =>
      { Name := "T" ++ toString p, Strength := 50, BaseStrength := 50,
        Stats := { zeroStats with Points := if p = 1 ∨ p = 3 then 4 else (p : Int) } },
    Teams := [0, 1, 2, 3, 4], Matches := [], CurrentWeek := 1, TotalWeeks := 6,
    MatchesPerWeek := 2 }

/-- Sum of a statistic over the teams of the league. -/
def teamTotal (f : Team → Int) (l : League) : Int :=
  (l.Teams.map (fun p => f (l.heap p))).sum

/-- Sum of a statistic over the team objects at the given addresses. -/
def cellTotal (f : Team → Int) (h : Heap) (cells : List Nat) : Int :=
  (cells.map (fun p => f (h p))).sum

/-- Goals for minus goals against. -/
def goalBalance (t : Team) : Int := t.Stats.GoalsFor - t.Stats.GoalsAgainst

/-- Wins minus losses. -/
def resultBalance (t : Team) : Int := t.Stats.Won - t.Stats.Lost

/-- The mirrored contributions cancel over the four team objects, as far as 64-bit
arithmetic can tell: the two balances are multiples of `2^64` and the draws are even. -/
def Balanced (h : Heap) : Prop :=
  cellTotal goalBalance h [0, 1, 2, 3] % 18446744073709551616 = 0 ∧
  cellTotal resultBalance h [0, 1, 2, 3] % 18446744073709551616 = 0 ∧
  (2 : Int) ∣ cellTotal (fun t => t.Stats.Drawn) h [0, 1, 2, 3]

/-- The `Teams` storage is in table order: each team's key is at least that of every
team stored after it. -/
def InTableOrder (l : League) : Prop :=
  l.Teams.Pairwise (fun p q => tripleGe (l.heap p) (l.heap q))

/-- The goals the named team scored and conceded in the match, if the match is played
and the team takes part in it (the home side is looked at first). -/
def scoreOf (name : String) (m : Match) : Option (Int × Int) :=
  if m.Played then
    if m.HomeTeam = name then some (m.HomeGoals, m.AwayGoals)
    else if m.AwayTeam = name then some (m.AwayGoals, m.HomeGoals)
    else none
  else none

/-- Contribution of one match to the wins of the named team. -/
def wonBy (name : String) (m : Match) : Int :=
  match scoreOf name m with
  | some (gf, ga) => if gf > ga then 1 else 0
  | none => 0

/-- Contribution of one match to the draws of the named team. -/
def drawnBy (name : String) (m : Match) : Int :=
  match scoreOf name m with
  | some (gf, ga) => if gf = ga then 1 else 0
  | none => 0

/-- Contribution of one match to the defeats of the named team. -/
def lostBy (name : String) (m : Match) : Int :=
  match scoreOf name m with
  | some (gf, ga) => if gf < ga then 1 else 0
  | none => 0

/-- Contribution of one match to the goals scored by the named team. -/
def goalsForBy (name : String) (m : Match) : Int :=
  match scoreOf name m with
  | some (gf, _) => gf
  | none => 0

/-- Contribution of one match to the goals conceded by the named team. -/
def goalsAgainstBy (name : String) (m : Match) : Int :=
  match scoreOf name m with
  | some (_, ga) => ga
  | none => 0

/-- Sum of a per-match contribution over a match list, as a mathematical integer. -/
def matchTotal (f : Match → Int) (ms : List Match) : Int := (ms.map f).sum

/-- The record `t` is the tally of the played matches of the list for the named team:
the four counters are the numbers of its played, won, drawn and lost matches, the two
goal totals are the sums of its goals reduced to 64 bits, `GoalDiff` is their 64-bit
difference and `Points` is three per win plus one per draw. -/
def Tallied (name : String) (ms : List Match) (t : Team) : Prop :=
  t.Stats.Played = playedCount name ms ∧
  t.Stats.Won = matchTotal (wonBy name) ms ∧
  t.Stats.Drawn = matchTotal (drawnBy name) ms ∧
  t.Stats.Lost = matchTotal (lostBy name) ms ∧
  t.Stats.GoalsFor = wrap64 (matchTotal (goalsForBy name) ms) ∧
  t.Stats.GoalsAgainst = wrap64 (matchTotal (goalsAgainstBy name) ms) ∧
  t.Stats.GoalDiff = wrap64 (t.Stats.GoalsFor - t.Stats.GoalsAgainst) ∧
  t.Stats.Points = 3 * t.Stats.Won + t.Stats.Drawn

/-- Each of the four team objects carries the tally of the match list. -/
def HeapTallied (h : Heap) (ms : List Match) : Prop :=
  ∀ p ∈ [0, 1, 2, 3], Tallied (initialHeap p).Name ms (h p)

/-- A value that a Go `int` can hold. -/
def InInt64 (x : Int) : Prop := -9223372036854775808 ≤ x ∧ x ≤ 9223372036854775807

/-- The fresh league after the first match has been entered by hand as
Chelsea 9223372036854775807 - -1 Arsenal: the largest 64-bit home score and an away
score of minus one. -/
def hugeScoreByHand : League :=
  match editMatchResult NewLeague 1 "Chelsea" "Arsenal" 9223372036854775807 (-1) with
  | some o => o.league
  | none => NewLeague

/-- The league after Chelsea 9223372036854775807-0 Arsenal has been entered by hand. -/
def oneHugeWinByHand : League :=
  match editMatchResult NewLeague 1 "Chelsea" "Arsenal" 9223372036854775807 0 with
  | some o => o.league
  | none => NewLeague

/-- The league after Chelsea 9223372036854775807-0 Arsenal and then
Liverpool 0-9223372036854775807 Chelsea have been entered by hand. -/
def twoHugeWinsByHand : League :=
  match editMatchResult oneHugeWinByHand 2 "Liverpool" "Chelsea" 0 9223372036854775807 with
  | some o => o.league
  | none => oneHugeWinByHand

/-- A league of five teams before its first round: the four teams of `NewLeague` and a
fifth one. -/
def fiveTeamsAtStart : League :=
  { heap := store initialHeap 4
      { Name := "Everton", Strength := 75, BaseStrength := 75, Stats := zeroStats },
    Teams := [0, 1, 2, 3, 4], Matches := [], CurrentWeek := 0, TotalWeeks := 6,
    MatchesPerWeek := 2 }

/-! ## Statistics updater: basic facts -/

theorem store_same (h : Heap) (p : Nat) (t : Team) : store h p t p = t := by
  simp [store]

theorem store_other (h : Heap) (p q : Nat) (t : Team) (hq : q ≠ p) : store h p t q = h q := by
  simp [store, hq]

theorem UpdateStats_name (t : Team) (gf ga : Int) (r : String) :
    (UpdateStats t gf ga r).Name = t.Name := by
  unfold UpdateStats; split_ifs <;> rfl

theorem reverseMatchResult_name (t : Team) (gf ga : Int) :
    (reverseMatchResult t gf ga).Name = t.Name := by
  unfold reverseMatchResult; split_ifs <;> rfl

theorem wrap64_range (x : Int) :
    -9223372036854775808 ≤ wrap64 x ∧ wrap64 x ≤ 9223372036854775807 := by
  unfold wrap64; omega

theorem wrap64_of_range (x : Int) (h1 : -9223372036854775808 ≤ x)
    (h2 : x ≤ 9223372036854775807) : wrap64 x = x := by
  unfold wrap64; omega

theorem wrap64_congruent (x : Int) : (wrap64 x - x) % 18446744073709551616 = 0 := by
  unfold wrap64; omega

theorem wrap64_add_left (a b : Int) : wrap64 (wrap64 a + b) = wrap64 (a + b) := by
  unfold wrap64; omega

theorem wrap64_sub_left (a b : Int) : wrap64 (wrap64 a - b) = wrap64 (a - b) := by
  unfold wrap64; omega

theorem outcomeLabel_cases (gf ga : Int) :
    (gf > ga ∧ outcomeLabel gf ga = "W") ∨ (gf < ga ∧ outcomeLabel gf ga = "L") ∨
      (gf = ga ∧ outcomeLabel gf ga = "D") := by
  unfold outcomeLabel
  rcases lt_trichotomy gf ga with h | h | h
  · right; left; exact ⟨h, by simp [h, not_lt.mpr (le_of_lt h)]⟩
  · right; right; exact ⟨h, by simp [h]⟩
  · left; exact ⟨h, by simp [h]⟩

/-! ## Standings calculator: the sort -/

theorem sinkLeft_perm {α : Type} (less : α → α → Bool) (x : α) (l : List α) :
    (sinkLeft less x l).Perm (x :: l) := by
  induction l with
  | nil => exact List.Perm.refl _
  | cons y rest ih =>
    unfold sinkLeft
    split_ifs
    · exact (List.Perm.cons y ih).trans (List.Perm.swap x y rest)
    · exact List.Perm.refl _

theorem foldl_sinkLeft_perm {α : Type} (less : α → α → Bool) (xs acc : List α) :
    (xs.foldl (fun sortedRev x => sinkLeft less x sortedRev) acc).Perm (xs.reverse ++ acc) := by
  induction xs generalizing acc with
  | nil => simp
  | cons x rest ih =>
    simp only [List.foldl_cons, List.reverse_cons, List.append_assoc, List.singleton_append]
    exact (ih _).trans (List.Perm.append_left _ (sinkLeft_perm less x acc))

theorem sortSlice_perm {α : Type} (less : α → α → Bool) (xs : List α) :
    (sortSlice less xs).Perm xs := by
  unfold sortSlice
  have h := foldl_sinkLeft_perm less xs []
  simp only [List.append_nil] at h
  exact (List.reverse_perm _).trans (h.trans (List.reverse_perm _))

theorem sinkLeft_pairwise {α : Type} (less : α → α → Bool)
    (hasymm : ∀ a b, less a b = true → less b a = false)
    (htrans : ∀ a b c, less a b = false → less b c = false → less a c = false)
    (x : α) (l : List α) (hl : l.Pairwise (fun y z => less y z = false)) :
    (sinkLeft less x l).Pairwise (fun y z => less y z = false) := by
  induction l with
  | nil => simp [sinkLeft]
  | cons y rest ih =>
    rw [List.pairwise_cons] at hl
    unfold sinkLeft
    split_ifs with hxy
    · rw [List.pairwise_cons]
      refine ⟨?_, ih hl.2⟩
      intro z hz
      rcases List.mem_cons.mp ((sinkLeft_perm less x rest).mem_iff.mp hz) with h | h
      · subst h; exact hasymm _ _ hxy
      · exact hl.1 z h
    · have hxy2 : less x y = false := by simpa using hxy
      rw [List.pairwise_cons]
      refine ⟨?_, List.pairwise_cons.mpr hl⟩
      intro z hz
      rcases List.mem_cons.mp hz with h | h
      · subst h; exact hxy2
      · exact htrans _ _ _ hxy2 (hl.1 z h)

theorem foldl_sinkLeft_pairwise {α : Type} (less : α → α → Bool)
    (hasymm : ∀ a b, less a b = true → less b a = false)
    (htrans : ∀ a b c, less a b = false → less b c = false → less a c = false)
    (xs acc : List α) (hacc : acc.Pairwise (fun y z => less y z = false)) :
    (xs.foldl (fun sortedRev x => sinkLeft less x sortedRev) acc).Pairwise
      (fun y z => less y z = false) := by
  induction xs generalizing acc with
  | nil => simpa using hacc
  | cons x rest ih =>
    simp only [List.foldl_cons]
    exact ih _ (sinkLeft_pairwise less hasymm htrans x acc hacc)

/-- The output of the insertion sort has no later element `less` than an earlier one. -/
theorem sortSlice_pairwise {α : Type} (less : α → α → Bool)
    (hasymm : ∀ a b, less a b = true → less b a = false)
    (htrans : ∀ a b c, less a b = false → less b c = false → less a c = false)
    (xs : List α) : (sortSlice less xs).Pairwise (fun a b => less b a = false) := by
  unfold sortSlice
  rw [List.pairwise_reverse]
  exact foldl_sinkLeft_pairwise less hasymm htrans xs [] List.Pairwise.nil

theorem tableLess_false_iff (a b : Team) : tableLess b a = false ↔ tripleGe a b := by
  unfold tableLess tripleGe
  split_ifs with h1 h2 <;> simp only [decide_eq_false_iff_not, ne_eq, not_not] at * <;>
    constructor <;> intro h <;> omega

theorem tableLess_asymm (a b : Team) (h : tableLess a b = true) : tableLess b a = false := by
  rw [tableLess_false_iff]
  have h2 : ¬ tableLess a b = false := by simp [h]
  rw [tableLess_false_iff] at h2
  unfold tripleGe at *
  omega

theorem tableLess_negTrans (a b c : Team) (h1 : tableLess a b = false)
    (h2 : tableLess b c = false) : tableLess a c = false := by
  rw [tableLess_false_iff] at *
  unfold tripleGe at *
  omega

/-- When the slice is already in table order the insertion sort moves nothing. -/
theorem foldl_sinkLeft_sorted {α : Type} (less : α → α → Bool) (xs acc : List α)
    (h : (acc.reverse ++ xs).Pairwise (fun a b => less b a = false)) :
    xs.foldl (fun sortedRev x => sinkLeft less x sortedRev) acc = xs.reverse ++ acc := by
  induction xs generalizing acc with
  | nil => simp
  | cons x rest ih =>
    have hstep : sinkLeft less x acc = x :: acc := by
      cases acc with
      | nil => rfl
      | cons y tl =>
        have hxy : less x y = false := by
          rw [List.pairwise_append] at h
          exact h.2.2 y (by simp) x (by simp)
        simp [sinkLeft, hxy]
    simp only [List.foldl_cons, hstep]
    rw [ih (x :: acc) (by simpa using h)]
    simp

theorem sortSlice_of_sorted {α : Type} (less : α → α → Bool) (xs : List α)
    (h : xs.Pairwise (fun a b => less b a = false)) : sortSlice less xs = xs := by
  unfold sortSlice
  rw [foldl_sinkLeft_sorted less xs [] (by simpa using h)]
  simp

/-- C7: for every league (every list of teams), the table returned by `GetTable` is
sorted non-increasing by `(Points, GoalDiff, GoalsFor)` compared lexicographically:
each team's triple is at least that of the team right after it. -/
theorem GetTable_sorted (l : League) :
    List.Chain' tripleGe ((GetTable l).2.map (GetTable l).1.heap) := by
  apply List.Pairwise.chain'
  rw [List.pairwise_map]
  have h := sortSlice_pairwise (fun p q => tableLess (l.heap p) (l.heap q))
    (fun a b => tableLess_asymm _ _) (fun a b c => tableLess_negTrans _ _ _) l.Teams
  refine h.imp ?_
  intro a b hab
  exact (tableLess_false_iff _ _).mp hab

/-- C8, as stated, fails: in the league with the first week's results applied,
`GetTable` changes the order of the league's own `Teams` storage. -/
theorem GetTable_reorders_storage :
    weekOneResolved.Teams = [0, 1, 2, 3] ∧ (GetTable weekOneResolved).1.Teams = [3, 0, 1, 2] ∧
    ¬ ∀ l : League, (GetTable l).1.Teams = l.Teams := by
  have h1 : weekOneResolved.Teams = [0, 1, 2, 3] := by decide!
  have h2 : (GetTable weekOneResolved).1.Teams = [3, 0, 1, 2] := by decide!
  refine ⟨h1, h2, fun h => ?_⟩
  have h3 := h weekOneResolved
  rw [h1, h2] at h3
  revert h3
  decide

/-- C8, amended: `GetTable` changes no team record, no match and none of the counters,
but sorts the league's `Teams` storage in place: afterwards `Teams` is the returned
table, a permutation of the previous storage, and it is the previous storage itself
when that was already in table order. -/
theorem GetTable_frame (l : League) :
    (GetTable l).1.heap = l.heap ∧ (GetTable l).1.Matches = l.Matches ∧
    (GetTable l).1.CurrentWeek = l.CurrentWeek ∧ (GetTable l).1.TotalWeeks = l.TotalWeeks ∧
    (GetTable l).1.MatchesPerWeek = l.MatchesPerWeek ∧
    (GetTable l).1.Teams = (GetTable l).2 ∧ (GetTable l).1.Teams.Perm l.Teams ∧
    (l.Teams.Pairwise (fun p q => tripleGe (l.heap p) (l.heap q)) →
      (GetTable l).1.Teams = l.Teams) := by
  refine ⟨rfl, rfl, rfl, rfl, rfl, rfl, sortSlice_perm _ _, ?_⟩
  intro h
  exact sortSlice_of_sorted _ _ (h.imp (fun hab => (tableLess_false_iff _ _).mpr hab))

/-- Instance of the amended C8 on the fresh league, whose storage is in table order. -/
theorem GetTable_frame_witness :
    NewLeague.Teams.Pairwise (fun p q => tripleGe (NewLeague.heap p) (NewLeague.heap q)) ∧
    (GetTable NewLeague).1.Teams = NewLeague.Teams := by
  have h : NewLeague.Teams.Pairwise
      (fun p q => tripleGe (NewLeague.heap p) (NewLeague.heap q)) := by
    simp [NewLeague, initialHeap, tripleGe, zeroStats]
  exact ⟨h, (GetTable_frame NewLeague).2.2.2.2.2.2.2 h⟩

/-! ## Pointer updates -/

theorem applyResult_home (h : Heap) (hp ap : Nat) (hg ag : Int) (hne : hp ≠ ap) :
    applyResult h hp ap hg ag hp = UpdateStats (h hp) hg ag (outcomeLabel hg ag) := by
  unfold applyResult
  rcases outcomeLabel_cases hg ag with ⟨hc, hl⟩ | ⟨hc, hl⟩ | ⟨hc, hl⟩
  · simp [hc, hl, store, hne]
  · simp [hc, hl, store, hne, not_lt.mpr (le_of_lt hc)]
  · subst hc; simp [hl, store, hne]

theorem applyResult_away (h : Heap) (hp ap : Nat) (hg ag : Int) (hne : hp ≠ ap) :
    applyResult h hp ap hg ag ap = UpdateStats (h ap) ag hg (outcomeLabel ag hg) := by
  unfold applyResult
  have hne2 : ap ≠ hp := fun e => hne e.symm
  rcases outcomeLabel_cases ag hg with ⟨hc, hl⟩ | ⟨hc, hl⟩ | ⟨hc, hl⟩
  · simp [hc, hl, store, hne2, not_lt.mpr (le_of_lt hc)]
  · simp [hc, hl, store, hne2]
  · subst hc; simp [hl, store, hne2]

theorem applyResult_other (h : Heap) (hp ap : Nat) (hg ag : Int) (q : Nat)
    (h1 : q ≠ hp) (h2 : q ≠ ap) : applyResult h hp ap hg ag q = h q := by
  unfold applyResult
  split_ifs <;> simp [store, h1, h2]

theorem retractResult_home (h : Heap) (hp ap : Nat) (hg ag : Int) (hne : hp ≠ ap) :
    retractResult h hp ap hg ag hp = reverseMatchResult (h hp) hg ag := by
  simp [retractResult, store, hne]

theorem retractResult_away (h : Heap) (hp ap : Nat) (hg ag : Int) (hne : hp ≠ ap) :
    retractResult h hp ap hg ag ap = reverseMatchResult (h ap) ag hg := by
  have hne2 : ap ≠ hp := fun e => hne e.symm
  simp [retractResult, store, hne2]

theorem retractResult_other (h : Heap) (hp ap : Nat) (hg ag : Int) (q : Nat)
    (h1 : q ≠ hp) (h2 : q ≠ ap) : retractResult h hp ap hg ag q = h q := by
  simp [retractResult, store, h1, h2]

theorem SameNames.self (h : Heap) : SameNames h h := fun _ => rfl

theorem SameNames.andThen {h1 h2 h3 : Heap} (a : SameNames h1 h2) (b : SameNames h2 h3) :
    SameNames h1 h3 := fun p => (b p).trans (a p)

theorem store_sameNames (h : Heap) (p : Nat) (t : Team) (ht : t.Name = (h p).Name) :
    SameNames h (store h p t) := by
  intro q
  by_cases hq : q = p
  · subst hq; simp [store, ht]
  · simp [store, hq]

theorem applyResult_sameNames (h : Heap) (hp ap : Nat) (hg ag : Int) :
    SameNames h (applyResult h hp ap hg ag) := by
  unfold applyResult
  split_ifs <;>
    exact (store_sameNames h hp _ (UpdateStats_name _ _ _ _)).andThen
      (store_sameNames _ ap _ (UpdateStats_name _ _ _ _))

theorem retractResult_sameNames (h : Heap) (hp ap : Nat) (hg ag : Int) :
    SameNames h (retractResult h hp ap hg ag) :=
  (store_sameNames h hp _ (reverseMatchResult_name _ _ _)).andThen
    (store_sameNames _ ap _ (reverseMatchResult_name _ _ _))

theorem findTeam_sameNames (h h2 : Heap) (hn : SameNames h h2) (n : String) (ts : List Nat) :
    findTeam h2 n ts = findTeam h n ts := by
  induction ts with
  | nil => rfl
  | cons p rest ih => simp [findTeam, hn p, ih]

/-! ## The edit handler -/

theorem correctMatch_resolved (teams : List Nat) (m : Match) (h : Heap) (hg ag : Int)
    (hp ap : Nat) (hh : findTeam h m.HomeTeam teams = some hp)
    (ha : findTeam h m.AwayTeam teams = some ap) :
    correctMatch teams m h hg ag =
      some (correctedMatch m hg ag,
        applyResult (if m.Played then retractResult h hp ap m.HomeGoals m.AwayGoals else h)
          hp ap hg ag) := by
  unfold correctMatch correctedMatch
  by_cases hpl : m.Played = true
  · have e1 := findTeam_sameNames h _ (retractResult_sameNames h hp ap m.HomeGoals m.AwayGoals)
    simp [hpl, hh, ha, e1]
  · simp [hpl, hh, ha]

theorem editLoop_notFound (teams : List Nat) (week : Int) (home away : String) (hg ag : Int)
    (ms : List Match) (h : Heap)
    (hms : ∀ x ∈ ms, ¬ (x.Week = week ∧ x.HomeTeam = home ∧ x.AwayTeam = away)) :
    editLoop teams week home away hg ag ms h = EditResult.notFound := by
  induction ms with
  | nil => rfl
  | cons x rest ih =>
    have hx := hms x (List.mem_cons_self _ _)
    have hr := ih (fun y hy => hms y (List.mem_cons_of_mem _ hy))
    simp [editLoop, hx, hr]

theorem editLoop_found (teams : List Nat) (week : Int) (home away : String) (hg ag : Int)
    (pre post : List Match) (m m1 : Match) (h h1 : Heap)
    (hpre : ∀ x ∈ pre, ¬ (x.Week = week ∧ x.HomeTeam = home ∧ x.AwayTeam = away))
    (hm : m.Week = week ∧ m.HomeTeam = home ∧ m.AwayTeam = away)
    (hc : correctMatch teams m h hg ag = some (m1, h1)) :
    editLoop teams week home away hg ag (pre ++ m :: post) h =
      EditResult.updated (pre ++ m1 :: post) h1 := by
  induction pre with
  | nil => simp [editLoop, hm, hc]
  | cons x rest ih =>
    have hx := hpre x (List.mem_cons_self _ _)
    have hr := ih (fun y hy => hpre y (List.mem_cons_of_mem _ hy))
    simp [editLoop, hx, hr]

theorem exists_first_split {α : Type} (P : α → Prop) (ms : List α) (hex : ∃ m ∈ ms, P m) :
    ∃ pre m post, ms = pre ++ m :: post ∧ (∀ x ∈ pre, ¬ P x) ∧ P m := by
  classical
  induction ms with
  | nil => obtain ⟨m, hm, _⟩ := hex; cases hm
  | cons x rest ih =>
    by_cases hx : P x
    · exact ⟨[], x, rest, rfl, by simp, hx⟩
    · obtain ⟨m, hm, hPm⟩ := hex
      rcases List.mem_cons.mp hm with e | hmem
      · subst e; exact absurd hPm hx
      · obtain ⟨pre, m2, post, e, hpre, hm2⟩ := ih ⟨m, hmem, hPm⟩
        refine ⟨x :: pre, m2, post, by simp [e], ?_, hm2⟩
        intro y hy
        rcases List.mem_cons.mp hy with e2 | hy2
        · subst e2; exact hx
        · exact hpre y hy2

/-- The edit handler on a league whose first match with the requested key is `m` and
whose two team names resolve. -/
theorem editMatchResult_found (l : League) (week : Int) (home away : String) (hg ag : Int)
    (pre post : List Match) (m : Match) (hp ap : Nat)
    (hms : l.Matches = pre ++ m :: post)
    (hpre : ∀ x ∈ pre, ¬ (x.Week = week ∧ x.HomeTeam = home ∧ x.AwayTeam = away))
    (hm : m.Week = week ∧ m.HomeTeam = home ∧ m.AwayTeam = away)
    (hh : getTeamByName l m.HomeTeam = some hp) (ha : getTeamByName l m.AwayTeam = some ap) :
    editMatchResult l week home away hg ag =
      some ⟨none, (GetTable { l with
        Matches := pre ++ correctedMatch m hg ag :: post,
        heap := applyResult
          (if m.Played then retractResult l.heap hp ap m.HomeGoals m.AwayGoals else l.heap)
          hp ap hg ag }).1⟩ := by
  unfold editMatchResult
  rw [hms, editLoop_found l.Teams week home away hg ag pre post m _ l.heap _ hpre hm
    (correctMatch_resolved l.Teams m l.heap hg ag hp ap hh ha)]

/-- C4: when the located match `m` is played and its two teams are distinct objects,
the correction to `(hg, ag)` leaves each of the two teams with its previous record,
the stored score retracted and the new score applied, and leaves every other team
alone; in particular a stored 2-1 corrected to 0-3 turns the home win into a loss and
the away loss into a win with `Played` unchanged for both: won -1, lost +1, points -3,
goals for -2, goals against +2 for the home team and the opposite for the away team,
each computed in Go's 64-bit `int` arithmetic (`wrap64`, the identity on every value
from `-2^63` to `2^63 - 1`). -/
theorem correction_reflects_only_new_score (l : League) (week : Int) (home away : String)
    (hg ag : Int) (pre post : List Match) (m : Match) (hp ap : Nat)
    (hms : l.Matches = pre ++ m :: post)
    (hpre : ∀ x ∈ pre, ¬ (x.Week = week ∧ x.HomeTeam = home ∧ x.AwayTeam = away))
    (hm : m.Week = week ∧ m.HomeTeam = home ∧ m.AwayTeam = away)
    (hplayed : m.Played = true)
    (hh : getTeamByName l m.HomeTeam = some hp) (ha : getTeamByName l m.AwayTeam = some ap)
    (hne : hp ≠ ap) :
    ∃ o, editMatchResult l week home away hg ag = some o ∧ o.err = none ∧
      o.league.heap hp =
        UpdateStats (reverseMatchResult (l.heap hp) m.HomeGoals m.AwayGoals) hg ag
          (outcomeLabel hg ag) ∧
      o.league.heap ap =
        UpdateStats (reverseMatchResult (l.heap ap) m.AwayGoals m.HomeGoals) ag hg
          (outcomeLabel ag hg) ∧
      (∀ q, q ≠ hp → q ≠ ap → o.league.heap q = l.heap q) ∧
      (m.HomeGoals = 2 → m.AwayGoals = 1 → hg = 0 → ag = 3 →
        ((o.league.heap hp).Stats.Played = wrap64 (l.heap hp).Stats.Played ∧
         (o.league.heap hp).Stats.Won = wrap64 ((l.heap hp).Stats.Won - 1) ∧
         (o.league.heap hp).Stats.Drawn = (l.heap hp).Stats.Drawn ∧
         (o.league.heap hp).Stats.Lost = wrap64 ((l.heap hp).Stats.Lost + 1) ∧
         (o.league.heap hp).Stats.Points = wrap64 ((l.heap hp).Stats.Points - 3) ∧
         (o.league.heap hp).Stats.GoalsFor = wrap64 ((l.heap hp).Stats.GoalsFor - 2) ∧
         (o.league.heap hp).Stats.GoalsAgainst = wrap64 ((l.heap hp).Stats.GoalsAgainst + 2)) ∧
        ((o.league.heap ap).Stats.Played = wrap64 (l.heap ap).Stats.Played ∧
         (o.league.heap ap).Stats.Won = wrap64 ((l.heap ap).Stats.Won + 1) ∧
         (o.league.heap ap).Stats.Drawn = (l.heap ap).Stats.Drawn ∧
         (o.league.heap ap).Stats.Lost = wrap64 ((l.heap ap).Stats.Lost - 1) ∧
         (o.league.heap ap).Stats.Points = wrap64 ((l.heap ap).Stats.Points + 3) ∧
         (o.league.heap ap).Stats.GoalsFor = wrap64 ((l.heap ap).Stats.GoalsFor + 2) ∧
         (o.league.heap ap).Stats.GoalsAgainst = wrap64 ((l.heap ap).Stats.GoalsAgainst - 2))) ∧
      (∀ x : Int, -9223372036854775808 ≤ x → x ≤ 9223372036854775807 → wrap64 x = x) := by
  have hhome : applyResult (retractResult l.heap hp ap m.HomeGoals m.AwayGoals) hp ap hg ag hp =
      UpdateStats (reverseMatchResult (l.heap hp) m.HomeGoals m.AwayGoals) hg ag
        (outcomeLabel hg ag) := by
    rw [applyResult_home _ _ _ _ _ hne, retractResult_home _ _ _ _ _ hne]
  have haway : applyResult (retractResult l.heap hp ap m.HomeGoals m.AwayGoals) hp ap hg ag ap =
      UpdateStats (reverseMatchResult (l.heap ap) m.AwayGoals m.HomeGoals) ag hg
        (outcomeLabel ag hg) := by
    rw [applyResult_away _ _ _ _ _ hne, retractResult_away _ _ _ _ _ hne]
  refine ⟨_, editMatchResult_found l week home away hg ag pre post m hp ap hms hpre hm hh ha,
    rfl, ?_, ?_, ?_, ?_, wrap64_of_range⟩
  · simpa [GetTable, hplayed] using hhome
  · simpa [GetTable, hplayed] using haway
  · intro q h1 h2
    simp only [GetTable, hplayed, if_true]
    rw [applyResult_other _ _ _ _ _ _ h1 h2, retractResult_other _ _ _ _ _ _ h1 h2]
  · intro e1 e2 e3 e4
    simp only [GetTable, hplayed, if_true]
    rw [hhome, haway, e1, e2, e3, e4]
    simp [UpdateStats, reverseMatchResult, outcomeLabel]
    unfold wrap64
    constructor <;> omega

/-- Instance of C4: in the league where Chelsea 2-1 Arsenal was entered, correcting
that match to 0-3. -/
theorem correction_reflects_only_new_score_witness :
    ∃ o, editMatchResult chelseaWonByHand 1 "Chelsea" "Arsenal" 0 3 = some o ∧ o.err = none ∧
      (o.league.heap 0).Stats.Won = wrap64 ((chelseaWonByHand.heap 0).Stats.Won - 1) ∧
      (o.league.heap 1).Stats.Won = wrap64 ((chelseaWonByHand.heap 1).Stats.Won + 1) := by
  obtain ⟨o, h1, h2, _, _, _, h3, _⟩ :=
    correction_reflects_only_new_score chelseaWonByHand 1 "Chelsea" "Arsenal" 0 3 []
      NewLeague.Matches.tail (correctedMatch (newMatch 1 "Chelsea" "Arsenal") 2 1) 0 1
      (by decide!) (by simp) (by decide) (by decide) (by decide!) (by decide!) (by decide)
  have h4 := h3 (by decide) (by decide) rfl rfl
  exact ⟨o, h1, h2, h4.1.2.1, h4.2.2.1⟩

/-- C10, as stated, fails: on the fresh league the correction of the first match to
`(-1, 0)` is accepted; Chelsea's record then has one match played and `-1` goals for,
and the match stores the score `-1`-`0` as played. -/
theorem negative_goals_accepted :
    (editMatchResult NewLeague 1 "Chelsea" "Arsenal" (-1) 0).map
        (fun o => (o.err, (o.league.heap 0).Stats.Played, (o.league.heap 0).Stats.GoalsFor)) =
      some (none, 1, -1) ∧
    (editMatchResult NewLeague 1 "Chelsea" "Arsenal" (-1) 0).map
        (fun o => o.league.Matches.map (fun m => (m.HomeGoals, m.AwayGoals, m.Played))) =
      some ((-1, 0, true) :: List.replicate 11 (0, 0, false)) := by
  exact ⟨by decide!, by decide!⟩

/-- C10, amended: the edit handler does not validate goal values.  For every league,
every requested key that some match has and whose two team names are in the league, and
all goal values (negative ones included), the correction succeeds: the first match with
that key stores the given goals and is marked played, and the score is applied to the
two teams.  The handler fails, leaving the league as it was, exactly when no match has
the requested week, home team and away team. -/
theorem correction_accepts_any_goals (l : League) (week : Int) (home away : String)
    (hg ag : Int) :
    ((∀ x ∈ l.Matches, ¬ (x.Week = week ∧ x.HomeTeam = home ∧ x.AwayTeam = away)) →
      editMatchResult l week home away hg ag = some ⟨some "Match not found", l⟩) ∧
    ((∃ x ∈ l.Matches, x.Week = week ∧ x.HomeTeam = home ∧ x.AwayTeam = away) →
      ∀ hp ap, getTeamByName l home = some hp → getTeamByName l away = some ap →
      ∃ o pre m post, editMatchResult l week home away hg ag = some o ∧ o.err = none ∧
        l.Matches = pre ++ m :: post ∧
        (∀ x ∈ pre, ¬ (x.Week = week ∧ x.HomeTeam = home ∧ x.AwayTeam = away)) ∧
        (m.Week = week ∧ m.HomeTeam = home ∧ m.AwayTeam = away) ∧
        o.league.Matches = pre ++ correctedMatch m hg ag :: post ∧
        (correctedMatch m hg ag).HomeGoals = hg ∧ (correctedMatch m hg ag).AwayGoals = ag ∧
        (correctedMatch m hg ag).Played = true ∧
        o.league.heap = applyResult
          (if m.Played then retractResult l.heap hp ap m.HomeGoals m.AwayGoals else l.heap)
          hp ap hg ag) := by
  constructor
  · intro hnone
    unfold editMatchResult
    rw [editLoop_notFound _ _ _ _ _ _ _ _ hnone]
  · intro hex hp ap hh ha
    obtain ⟨pre, m, post, hms, hpre, hm⟩ :=
      exists_first_split (fun x => x.Week = week ∧ x.HomeTeam = home ∧ x.AwayTeam = away)
        l.Matches hex
    have hh2 : getTeamByName l m.HomeTeam = some hp := by rw [hm.2.1]; exact hh
    have ha2 : getTeamByName l m.AwayTeam = some ap := by rw [hm.2.2]; exact ha
    exact ⟨_, pre, m, post,
      editMatchResult_found l week home away hg ag pre post m hp ap hms hpre hm hh2 ha2,
      rfl, hms, hpre, hm, rfl, rfl, rfl, rfl, rfl⟩

/-- Instance of the amended C10: the first fixture of the fresh league corrected to
`(-1, 0)`. -/
theorem correction_accepts_any_goals_witness :
    ∃ o pre m post, editMatchResult NewLeague 1 "Chelsea" "Arsenal" (-1) 0 = some o ∧
      o.err = none ∧ NewLeague.Matches = pre ++ m :: post ∧
      o.league.Matches = pre ++ correctedMatch m (-1) 0 :: post := by
  obtain ⟨o, pre, m, post, h1, h2, h3, _, _, h4, _⟩ :=
    (correction_accepts_any_goals NewLeague 1 "Chelsea" "Arsenal" (-1) 0).2
      ⟨newMatch 1 "Chelsea" "Arsenal", by decide, by decide⟩ 0 1 (by decide) (by decide)
  exact ⟨o, pre, m, post, h1, h2, h3, h4⟩

/-- C5: for every league with `CurrentWeek = TotalWeeks` and every random stream,
`PlayNextWeek` returns the error `season is complete` and the league (teams, their
order, matches, round counter) and the random stream are exactly as before. -/
theorem PlayNextWeek_season_complete (l : League) (rng : Rng)
    (h : l.CurrentWeek = l.TotalWeeks) :
    PlayNextWeek l rng = some (⟨some "season is complete", l⟩, rng) := by
  unfold PlayNextWeek
  simp [h]

/-- Instance of C5: one more round on the finished season. -/
theorem PlayNextWeek_season_complete_witness :
    finishedSeason.CurrentWeek = finishedSeason.TotalWeeks ∧
    PlayNextWeek finishedSeason fifths =
      some (⟨some "season is complete", finishedSeason⟩, fifths) :=
  ⟨by decide!, PlayNextWeek_season_complete finishedSeason fifths (by decide!)⟩

/-- C3 fails on the code: first round of the fresh league with Chelsea 0-0 Arsenal and
Manchester City 0-6 Liverpool.  One adjustment from the pre-round strengths would give
Liverpool (address 3, top of the table) 93 and Chelsea (address 0) 78; `PlayNextWeek`
leaves Liverpool at 90, never adjusted, and Chelsea at 76, adjusted twice. -/
theorem PlayNextWeek_skips_leader_and_repeats_first :
    ((UpdateTeamStrength weekOneResolved 3).heap 3).Strength = 93 ∧
    ((UpdateTeamStrength weekOneResolved 0).heap 0).Strength = 78 ∧
    (PlayNextWeek NewLeague fifths).map (fun r =>
        (r.1.err, (r.1.league.heap 3).Strength, (r.1.league.heap 0).Strength,
          (r.1.league.heap 3).Stats.Played, r.1.league.Teams)) =
      some (none, 90, 76, 1, [3, 0, 1, 2]) := by
  refine ⟨by decide!, by decide!, by decide!⟩

/-! ## Frame of the strength adapter -/

theorem StrengthOnly.idle (h : Heap) : StrengthOnly h h := fun _ => ⟨rfl, rfl, rfl⟩

theorem StrengthOnly.followedBy {h1 h2 h3 : Heap} (a : StrengthOnly h1 h2) (b : StrengthOnly h2 h3) :
    StrengthOnly h1 h3 := fun p =>
  ⟨(b p).1.trans (a p).1, (b p).2.1.trans (a p).2.1, (b p).2.2.trans (a p).2.2⟩

theorem Readjusted.unchanged (l : League) : Readjusted l l :=
  ⟨rfl, rfl, rfl, rfl, List.Perm.refl _, StrengthOnly.idle _⟩

theorem Readjusted.compose {l1 l2 l3 : League} (a : Readjusted l1 l2) (b : Readjusted l2 l3) :
    Readjusted l1 l3 :=
  ⟨b.1.trans a.1, b.2.1.trans a.2.1, b.2.2.1.trans a.2.2.1, b.2.2.2.1.trans a.2.2.2.1,
    b.2.2.2.2.1.trans a.2.2.2.2.1, a.2.2.2.2.2.followedBy b.2.2.2.2.2⟩

theorem GetTable_readjusted (l : League) : Readjusted l (GetTable l).1 :=
  ⟨rfl, rfl, rfl, rfl, sortSlice_perm _ _, StrengthOnly.idle _⟩

theorem UpdateTeamStrength_readjusted (l : League) (team : Nat) :
    Readjusted l (UpdateTeamStrength l team) := by
  unfold UpdateTeamStrength
  by_cases hp : (l.heap team).Stats.Played = 0
  · simp only [hp, if_true]; exact Readjusted.unchanged l
  · simp only [hp, if_false]
    refine ⟨rfl, rfl, rfl, rfl, sortSlice_perm _ _, ?_⟩
    intro p
    by_cases hq : p = team
    · subst hq; simp [store, getTeamPosition, GetTable]
    · simp [store, hq, getTeamPosition, GetTable]

theorem foldl_readjusted (f : League → Nat → League) (hf : ∀ acc i, Readjusted acc (f acc i))
    (is : List Nat) (l : League) : Readjusted l (is.foldl f l) := by
  induction is generalizing l with
  | nil => exact Readjusted.unchanged l
  | cons i rest ih => exact (hf l i).compose (ih (f l i))

theorem updateStrengths_readjusted (l : League) : Readjusted l (updateStrengths l) := by
  unfold updateStrengths
  apply foldl_readjusted
  intro acc i
  cases acc.Teams.get? i with
  | none => exact Readjusted.unchanged acc
  | some team => exact UpdateTeamStrength_readjusted acc team

/-! ## The match loop of a round -/

theorem PlayMatch_unplayed (m : Match) (h : Heap) (hp ap : Nat) (rng : Rng)
    (hm : m.Played = false) :
    PlayMatch m h (some hp) (some ap) rng =
      some (correctedMatch m (simulateMatchResult (h hp) (h ap) rng).1
              (simulateMatchResult (h hp) (h ap) rng).2.1,
            applyResult h hp ap (simulateMatchResult (h hp) (h ap) rng).1
              (simulateMatchResult (h hp) (h ap) rng).2.1,
            (simulateMatchResult (h hp) (h ap) rng).2.2) := by
  simp [PlayMatch, hm, correctedMatch]

theorem PlayMatch_inv (m : Match) (h : Heap) (ho ao : Option Nat) (rng : Rng)
    (m1 : Match) (h1 : Heap) (rng1 : Rng) (hm : m.Played = false)
    (hr : PlayMatch m h ho ao rng = some (m1, h1, rng1)) :
    ∃ hp ap hg ag, ho = some hp ∧ ao = some ap ∧ m1 = correctedMatch m hg ag ∧
      h1 = applyResult h hp ap hg ag := by
  cases ho with
  | none => simp [PlayMatch, hm] at hr
  | some hp =>
    cases ao with
    | none => simp [PlayMatch, hm] at hr
    | some ap =>
      rw [PlayMatch_unplayed m h hp ap rng hm] at hr
      simp only [Option.some.injEq, Prod.mk.injEq] at hr
      exact ⟨hp, ap, _, _, rfl, rfl, hr.1.symm, hr.2.1.symm⟩

/-- One iteration of the match loop, read backwards from a successful run. -/
theorem playWeekMatches_cons_inv (teams : List Nat) (week : Int) (m : Match)
    (rest : List Match) (h : Heap) (rng : Rng) (ms2 : List Match) (h2 : Heap) (rng2 : Rng)
    (hr : playWeekMatches teams week (m :: rest) h rng = some (ms2, h2, rng2)) :
    ∃ m1 h1 rng1 ms1, ms2 = m1 :: ms1 ∧
      playWeekMatches teams week rest h1 rng1 = some (ms1, h2, rng2) ∧
      ((m.Week = week ∧ m.Played = false ∧ ∃ hp ap hg ag,
          findTeam h m.HomeTeam teams = some hp ∧ findTeam h m.AwayTeam teams = some ap ∧
          m1 = correctedMatch m hg ag ∧ h1 = applyResult h hp ap hg ag) ∨
       (¬ (m.Week = week ∧ m.Played = false) ∧ m1 = m ∧ h1 = h)) := by
  unfold playWeekMatches at hr
  by_cases hc : m.Week = week ∧ m.Played = false
  · rw [if_pos hc] at hr
    cases hpm : PlayMatch m h (findTeam h m.HomeTeam teams) (findTeam h m.AwayTeam teams) rng with
    | none => rw [hpm] at hr; cases hr
    | some r =>
      obtain ⟨m1, h1, rng1⟩ := r
      rw [hpm] at hr
      simp only at hr
      cases hrest : playWeekMatches teams week rest h1 rng1 with
      | none => rw [hrest] at hr; cases hr
      | some r2 =>
        obtain ⟨ms1, h3, rng3⟩ := r2
        rw [hrest] at hr
        simp only [Option.some.injEq, Prod.mk.injEq] at hr
        obtain ⟨e1, e2, e3⟩ := hr
        subst e1 e2 e3
        obtain ⟨hp, ap, hg, ag, eh, ea, em, ehp⟩ := PlayMatch_inv m h _ _ rng m1 h1 rng1 hc.2 hpm
        exact ⟨m1, h1, rng1, ms1, rfl, hrest, Or.inl ⟨hc.1, hc.2, hp, ap, hg, ag, eh, ea, em, ehp⟩⟩
  · rw [if_neg hc] at hr
    cases hrest : playWeekMatches teams week rest h rng with
    | none => rw [hrest] at hr; cases hr
    | some r2 =>
      obtain ⟨ms1, h3, rng3⟩ := r2
      rw [hrest] at hr
      simp only [Option.some.injEq, Prod.mk.injEq] at hr
      obtain ⟨e1, e2, e3⟩ := hr
      subst e1 e2 e3
      exact ⟨m, h, rng, ms1, rfl, hrest, Or.inr ⟨hc, rfl, rfl⟩⟩

/-- A heap property kept by every score application is kept by the match loop. -/
theorem playWeekMatches_heap (Q : Heap → Prop)
    (hQ : ∀ h hp ap hg ag, Q h → Q (applyResult h hp ap hg ag))
    (teams : List Nat) (week : Int) (ms : List Match) :
    ∀ (h : Heap) (rng : Rng) (ms2 : List Match) (h2 : Heap) (rng2 : Rng),
      playWeekMatches teams week ms h rng = some (ms2, h2, rng2) → Q h → Q h2 := by
  induction ms with
  | nil =>
    intro h rng ms2 h2 rng2 hr hq
    simp only [playWeekMatches, Option.some.injEq, Prod.mk.injEq] at hr
    rw [← hr.2.1]; exact hq
  | cons m rest ih =>
    intro h rng ms2 h2 rng2 hr hq
    obtain ⟨m1, h1, rng1, ms1, _, hrest, hstep⟩ :=
      playWeekMatches_cons_inv teams week m rest h rng ms2 h2 rng2 hr
    rcases hstep with ⟨_, _, hp, ap, hg, ag, _, _, _, e⟩ | ⟨_, _, e⟩
    · exact ih h1 rng1 ms1 h2 rng2 hrest (e ▸ hQ h hp ap hg ag hq)
    · exact ih h1 rng1 ms1 h2 rng2 hrest (e ▸ hq)

/-- The match loop keeps every match key, never unplays a match and plays every match
of the given week. -/
theorem playWeekMatches_matches (teams : List Nat) (week : Int) (ms : List Match) :
    ∀ (h : Heap) (rng : Rng) (ms2 : List Match) (h2 : Heap) (rng2 : Rng),
      playWeekMatches teams week ms h rng = some (ms2, h2, rng2) →
      List.Forall₂ (fun m m1 => matchKey m1 = matchKey m ∧
        (m.Played = true → m1.Played = true) ∧ (m.Week = week → m1.Played = true)) ms ms2 := by
  induction ms with
  | nil =>
    intro h rng ms2 h2 rng2 hr
    simp only [playWeekMatches, Option.some.injEq, Prod.mk.injEq] at hr
    rw [← hr.1]; exact List.Forall₂.nil
  | cons m rest ih =>
    intro h rng ms2 h2 rng2 hr
    obtain ⟨m1, h1, rng1, ms1, e0, hrest, hstep⟩ :=
      playWeekMatches_cons_inv teams week m rest h rng ms2 h2 rng2 hr
    subst e0
    refine List.Forall₂.cons ?_ (ih h1 rng1 ms1 h2 rng2 hrest)
    rcases hstep with ⟨_, _, hp, ap, hg, ag, _, _, e, _⟩ | ⟨hc, e, _⟩
    · subst e
      exact ⟨rfl, fun _ => rfl, fun _ => rfl⟩
    · subst e
      refine ⟨rfl, fun hpl => hpl, fun hw => ?_⟩
      by_contra hnp
      exact hc ⟨hw, by simpa using hnp⟩

/-- The match loop completes when every team name of the matches resolves. -/
theorem playWeekMatches_succeeds (teams : List Nat) (week : Int) (ms : List Match) :
    ∀ (h : Heap) (rng : Rng),
      (∀ m ∈ ms, (∃ hp, findTeam h m.HomeTeam teams = some hp) ∧
        (∃ ap, findTeam h m.AwayTeam teams = some ap)) →
      ∃ ms2 h2 rng2, playWeekMatches teams week ms h rng = some (ms2, h2, rng2) := by
  induction ms with
  | nil => intro h rng _; exact ⟨[], h, rng, rfl⟩
  | cons m rest ih =>
    intro h rng hres
    obtain ⟨⟨hp, ehp⟩, ⟨ap, eap⟩⟩ := hres m (List.mem_cons_self _ _)
    have hrest : ∀ h1, SameNames h h1 → ∀ x ∈ rest,
        (∃ hp, findTeam h1 x.HomeTeam teams = some hp) ∧
        (∃ ap, findTeam h1 x.AwayTeam teams = some ap) := by
      intro h1 hn x hx
      rw [findTeam_sameNames h h1 hn, findTeam_sameNames h h1 hn]
      exact hres x (List.mem_cons_of_mem _ hx)
    unfold playWeekMatches
    by_cases hc : m.Week = week ∧ m.Played = false
    · rw [if_pos hc, ehp, eap, PlayMatch_unplayed m h hp ap rng hc.2]
      obtain ⟨ms2, h2, rng2, e⟩ := ih
        (applyResult h hp ap (simulateMatchResult (h hp) (h ap) rng).1
          (simulateMatchResult (h hp) (h ap) rng).2.1)
        (simulateMatchResult (h hp) (h ap) rng).2.2
        (hrest _ (applyResult_sameNames h hp ap _ _))
      dsimp only
      rw [e]
      exact ⟨_, _, _, rfl⟩
    · rw [if_neg hc]
      obtain ⟨ms2, h2, rng2, e⟩ := ih h rng (hrest h (SameNames.self h))
      rw [e]
      exact ⟨_, _, _, rfl⟩

/-! ## Reading successful operations backwards -/

theorem PlayNextWeek_inv (l : League) (rng : Rng) (o : Outcome) (rng2 : Rng)
    (hr : PlayNextWeek l rng = some (o, rng2)) :
    (l.TotalWeeks ≤ l.CurrentWeek ∧ o = ⟨some "season is complete", l⟩ ∧ rng2 = rng) ∨
    (l.CurrentWeek < l.TotalWeeks ∧ ∃ ms h,
      playWeekMatches l.Teams (l.CurrentWeek + 1) l.Matches l.heap rng = some (ms, h, rng2) ∧
      o = ⟨none, updateStrengths
        { l with CurrentWeek := l.CurrentWeek + 1, Matches := ms, heap := h }⟩) := by
  unfold PlayNextWeek at hr
  by_cases hc : l.CurrentWeek ≥ l.TotalWeeks
  · rw [if_pos hc] at hr
    simp only [Option.some.injEq, Prod.mk.injEq] at hr
    exact Or.inl ⟨hc, hr.1.symm, hr.2.symm⟩
  · rw [if_neg hc] at hr
    dsimp only at hr
    right
    refine ⟨not_le.mp hc, ?_⟩
    cases hpw : playWeekMatches l.Teams (l.CurrentWeek + 1) l.Matches l.heap rng with
    | none => rw [hpw] at hr; cases hr
    | some r =>
      obtain ⟨ms, h, rng1⟩ := r
      rw [hpw] at hr
      simp only [Option.some.injEq, Prod.mk.injEq] at hr
      obtain ⟨e1, e2⟩ := hr
      subst e2
      exact ⟨ms, h, rfl, e1.symm⟩

theorem correctMatch_inv (teams : List Nat) (m : Match) (h : Heap) (hg ag : Int)
    (m1 : Match) (h1 : Heap) (hr : correctMatch teams m h hg ag = some (m1, h1)) :
    ∃ hp ap, findTeam h m.HomeTeam teams = some hp ∧ findTeam h m.AwayTeam teams = some ap ∧
      m1 = correctedMatch m hg ag ∧
      h1 = applyResult (if m.Played then retractResult h hp ap m.HomeGoals m.AwayGoals else h)
        hp ap hg ag := by
  cases eh : findTeam h m.HomeTeam teams with
  | none =>
    exfalso
    unfold correctMatch at hr
    by_cases hpl : m.Played = true <;> simp [hpl, eh] at hr
  | some hp =>
    cases ea : findTeam h m.AwayTeam teams with
    | none =>
      exfalso
      unfold correctMatch at hr
      by_cases hpl : m.Played = true <;> simp [hpl, eh, ea] at hr
    | some ap =>
      rw [correctMatch_resolved teams m h hg ag hp ap eh ea] at hr
      simp only [Option.some.injEq, Prod.mk.injEq] at hr
      exact ⟨hp, ap, rfl, rfl, hr.1.symm, hr.2.symm⟩

theorem editLoop_updated_inv (teams : List Nat) (week : Int) (home away : String)
    (hg ag : Int) (ms : List Match) (h : Heap) (ms2 : List Match) (h2 : Heap)
    (hr : editLoop teams week home away hg ag ms h = EditResult.updated ms2 h2) :
    ∃ pre m post hp ap, ms = pre ++ m :: post ∧
      (∀ x ∈ pre, ¬ (x.Week = week ∧ x.HomeTeam = home ∧ x.AwayTeam = away)) ∧
      (m.Week = week ∧ m.HomeTeam = home ∧ m.AwayTeam = away) ∧
      findTeam h m.HomeTeam teams = some hp ∧ findTeam h m.AwayTeam teams = some ap ∧
      ms2 = pre ++ correctedMatch m hg ag :: post ∧
      h2 = applyResult (if m.Played then retractResult h hp ap m.HomeGoals m.AwayGoals else h)
        hp ap hg ag := by
  induction ms generalizing ms2 with
  | nil => simp [editLoop] at hr
  | cons x rest ih =>
    unfold editLoop at hr
    by_cases hc : x.Week = week ∧ x.HomeTeam = home ∧ x.AwayTeam = away
    · rw [if_pos hc] at hr
      cases hcm : correctMatch teams x h hg ag with
      | none => rw [hcm] at hr; cases hr
      | some r =>
        obtain ⟨m1, h1⟩ := r
        rw [hcm] at hr
        simp only [EditResult.updated.injEq] at hr
        obtain ⟨hp, ap, eh, ea, em, ehh⟩ := correctMatch_inv teams x h hg ag m1 h1 hcm
        refine ⟨[], x, rest, hp, ap, rfl, by simp, hc, eh, ea, ?_, ?_⟩
        · rw [← hr.1, em]; rfl
        · rw [← hr.2, ehh]
    · rw [if_neg hc] at hr
      cases hrest : editLoop teams week home away hg ag rest h with
      | notFound => rw [hrest] at hr; cases hr
      | aborted => rw [hrest] at hr; cases hr
      | updated ms3 h3 =>
        rw [hrest] at hr
        simp only [EditResult.updated.injEq] at hr
        obtain ⟨hr1, hr2⟩ := hr
        subst hr2
        obtain ⟨pre, m, post, hp, ap, e1, e2, e3, e4, e5, e6, e7⟩ := ih ms3 hrest
        refine ⟨x :: pre, m, post, hp, ap, by simp [e1], ?_, e3, e4, e5, ?_, e7⟩
        · intro y hy
          rcases List.mem_cons.mp hy with e | hy2
          · subst e; exact hc
          · exact e2 y hy2
        · rw [← hr1, e6]; rfl

theorem editMatchResult_inv (l : League) (week : Int) (home away : String) (hg ag : Int)
    (o : Outcome) (hr : editMatchResult l week home away hg ag = some o) :
    o.league = l ∨
    ∃ pre m post hp ap, l.Matches = pre ++ m :: post ∧
      (m.Week = week ∧ m.HomeTeam = home ∧ m.AwayTeam = away) ∧
      getTeamByName l m.HomeTeam = some hp ∧ getTeamByName l m.AwayTeam = some ap ∧
      o.league = (GetTable { l with
        Matches := pre ++ correctedMatch m hg ag :: post,
        heap := applyResult
          (if m.Played then retractResult l.heap hp ap m.HomeGoals m.AwayGoals else l.heap)
          hp ap hg ag }).1 := by
  unfold editMatchResult at hr
  cases hel : editLoop l.Teams week home away hg ag l.Matches l.heap with
  | notFound =>
    rw [hel] at hr
    simp only [Option.some.injEq] at hr
    exact Or.inl (by rw [← hr])
  | aborted => rw [hel] at hr; cases hr
  | updated ms h =>
    rw [hel] at hr
    simp only [Option.some.injEq] at hr
    obtain ⟨pre, m, post, hp, ap, e1, _, e3, e4, e5, e6, e7⟩ :=
      editLoop_updated_inv l.Teams week home away hg ag l.Matches l.heap ms h hel
    right
    refine ⟨pre, m, post, hp, ap, e1, e3, e4, e5, ?_⟩
    rw [← hr, e6, e7]

/-! ## Sample states that are reachable -/

theorem store_forall (Q : Team → Prop) (h : Heap) (p : Nat) (t : Team)
    (hh : ∀ q, Q (h q)) (ht : Q t) : ∀ q, Q (store h p t q) := by
  intro q
  by_cases hq : q = p
  · subst hq; rw [store_same]; exact ht
  · rw [store_other h p q t hq]; exact hh q

theorem afterWeekOne_reachable : Reachable afterWeekOne := by
  unfold afterWeekOne
  cases h : PlayNextWeek NewLeague fifths with
  | none => exact Reachable.fresh
  | some r =>
    obtain ⟨o, rng2⟩ := r
    exact Reachable.advance fifths Reachable.fresh h

theorem afterWeekOneCorrected_reachable : Reachable afterWeekOneCorrected := by
  unfold afterWeekOneCorrected
  cases h : editMatchResult afterWeekOne 1 "Chelsea" "Arsenal" 4 2 with
  | none => exact afterWeekOne_reachable
  | some o => exact Reachable.correct 1 "Chelsea" "Arsenal" 4 2 afterWeekOne_reachable h

/-! ## Reachable states: names, pointers and match keys -/

theorem findTeam_some (h : Heap) (n : String) (ts : List Nat) (p : Nat)
    (hf : findTeam h n ts = some p) : (h p).Name = n ∧ p ∈ ts := by
  induction ts with
  | nil => simp [findTeam] at hf
  | cons q rest ih =>
    unfold findTeam at hf
    by_cases hq : (h q).Name = n
    · rw [if_pos hq] at hf
      simp only [Option.some.injEq] at hf
      subst hf
      exact ⟨hq, List.mem_cons_self _ _⟩
    · rw [if_neg hq] at hf
      exact ⟨(ih hf).1, List.mem_cons_of_mem _ (ih hf).2⟩

theorem findTeam_perm (h : Heap) (n : String) (l1 l2 : List Nat) (hp : l1.Perm l2)
    (hinj : ∀ p ∈ l1, ∀ q ∈ l1, (h p).Name = (h q).Name → p = q) :
    findTeam h n l1 = findTeam h n l2 := by
  induction hp with
  | nil => rfl
  | cons x _ ih =>
    unfold findTeam
    rw [ih (fun p hp q hq => hinj p (List.mem_cons_of_mem _ hp) q (List.mem_cons_of_mem _ hq))]
  | swap x y l =>
    unfold findTeam findTeam
    by_cases hx : (h x).Name = n
    · by_cases hy : (h y).Name = n
      · have e : y = x := hinj y (by simp) x (by simp) (hy.trans hx.symm)
        simp [hx, e]
      · simp [hx, hy]
    · simp [hx]
  | trans p1 _ ih1 ih2 =>
    rw [ih1 hinj]
    exact ih2 (fun p hp q hq => hinj p (p1.mem_iff.mpr hp) q (p1.mem_iff.mpr hq))

theorem initialHeap_names_injective :
    ∀ p ∈ [0, 1, 2, 3], ∀ q ∈ [0, 1, 2, 3],
      (initialHeap p).Name = (initialHeap q).Name → p = q := by
  decide

/-- With the fixed names and the four pointers in any order, a name resolves to the
address it has in the fresh league. -/
theorem findTeam_shape (h : Heap) (teams : List Nat) (hn : SameNames initialHeap h)
    (hp : teams.Perm [0, 1, 2, 3]) (n : String) : findTeam h n teams = teamAddress n := by
  rw [findTeam_sameNames initialHeap h hn]
  apply findTeam_perm initialHeap n teams [0, 1, 2, 3] hp
  intro p hp1 q hq1
  exact initialHeap_names_injective p (hp.mem_iff.mp hp1) q (hp.mem_iff.mp hq1)

theorem fixture_keys_ok : ∀ k ∈ (generateFixtures []).map matchKey, keyOk k = true := by
  decide

theorem teamAddress_name : ∀ p ∈ [0, 1, 2, 3], teamAddress (initialHeap p).Name = some p := by
  decide

theorem keyOk_resolve (k : Int × String × String) (hk : keyOk k = true) :
    ∃ hp ap, teamAddress k.2.1 = some hp ∧ teamAddress k.2.2 = some ap ∧ hp ≠ ap ∧
      1 ≤ k.1 ∧ k.1 ≤ 6 := by
  unfold keyOk at hk
  cases e1 : teamAddress k.2.1 with
  | none => simp [e1] at hk
  | some hp =>
    cases e2 : teamAddress k.2.2 with
    | none => simp [e1, e2] at hk
    | some ap =>
      simp only [e1, e2, Bool.and_eq_true, decide_eq_true_eq] at hk
      exact ⟨hp, ap, rfl, rfl, hk.1.1, hk.1.2, hk.2⟩

theorem Shape.match_ok {l : League} (hs : Shape l) (m : Match) (hm : m ∈ l.Matches) :
    keyOk (matchKey m) = true := by
  apply fixture_keys_ok
  rw [← hs.keys]
  exact List.mem_map_of_mem matchKey hm

theorem Shape.resolve {l : League} (hs : Shape l) (m : Match) (hm : m ∈ l.Matches) :
    ∃ hp ap, findTeam l.heap m.HomeTeam l.Teams = some hp ∧
      findTeam l.heap m.AwayTeam l.Teams = some ap ∧ hp ≠ ap ∧ 1 ≤ m.Week ∧ m.Week ≤ 6 := by
  obtain ⟨hp, ap, e1, e2, e3, e4, e5⟩ := keyOk_resolve _ (hs.match_ok m hm)
  refine ⟨hp, ap, ?_, ?_, e3, e4, e5⟩
  · rw [findTeam_shape l.heap l.Teams hs.names hs.teams]; exact e1
  · rw [findTeam_shape l.heap l.Teams hs.names hs.teams]; exact e2

theorem forall2_keys (R : Match → Match → Prop) (hR : ∀ m m1, R m m1 → matchKey m1 = matchKey m)
    (ms ms2 : List Match) (hf : List.Forall₂ R ms ms2) :
    ms2.map matchKey = ms.map matchKey := by
  induction hf with
  | nil => rfl
  | cons hab _ ih => simp [hR _ _ hab, ih]

theorem NewLeague_shape : Shape NewLeague :=
  ⟨SameNames.self _, List.Perm.refl _, rfl, rfl, by decide⟩

theorem Readjusted.shape {l l2 : League} (hr : Readjusted l l2) (hs : Shape l) : Shape l2 := by
  obtain ⟨e1, e2, e3, _, e5, e6⟩ := hr
  refine ⟨fun p => ((e6 p).1).trans (hs.names p), e5.trans hs.teams, ?_, ?_, ?_⟩
  · rw [e1]; exact hs.keys
  · rw [e3]; exact hs.total
  · rw [e2]; exact hs.week

theorem reachable_shape (l : League) (hr : Reachable l) : Shape l := by
  induction hr with
  | fresh => exact NewLeague_shape
  | @advance l rng o rng2 _ hstep ih =>
    rcases PlayNextWeek_inv l rng o rng2 hstep with ⟨_, e, _⟩ | ⟨hlt, ms, h, hpw, e⟩
    · rw [e]; exact ih
    · rw [e]
      apply (updateStrengths_readjusted _).shape
      have hn : SameNames l.heap h :=
        playWeekMatches_heap (fun h2 => SameNames l.heap h2)
          (fun h2 hp ap hg ag hq => hq.andThen (applyResult_sameNames h2 hp ap hg ag))
          l.Teams (l.CurrentWeek + 1) l.Matches l.heap rng ms h rng2 hpw (SameNames.self _)
      have hk := forall2_keys _ (fun _ _ hab => hab.1) _ _
        (playWeekMatches_matches l.Teams (l.CurrentWeek + 1) l.Matches l.heap rng ms h rng2 hpw)
      have htot := ih.total
      have hw := ih.week
      refine ⟨ih.names.andThen hn, ih.teams, hk.trans ih.keys, ih.total, ?_⟩
      constructor
      · show 0 ≤ l.CurrentWeek + 1
        omega
      · show l.CurrentWeek + 1 ≤ 6
        omega
  | @correct l week home away hg ag o _ hstep ih =>
    rcases editMatchResult_inv l week home away hg ag o hstep with e | ⟨pre, m, post, hp, ap, hms, _, _, _, e⟩
    · rw [e]; exact ih
    · rw [e]
      apply (GetTable_readjusted _).shape
      refine ⟨?_, ih.teams, ?_, ih.total, ih.week⟩
      · apply ih.names.andThen
        show SameNames l.heap (applyResult _ hp ap hg ag)
        split_ifs
        · exact (retractResult_sameNames _ _ _ _ _).andThen (applyResult_sameNames _ _ _ _ _)
        · exact applyResult_sameNames _ _ _ _ _
      · show (pre ++ correctedMatch m hg ag :: post).map matchKey = _
        rw [← ih.keys, hms]
        simp [matchKey, correctedMatch]
  | @table l _ ih => exact (GetTable_readjusted l).shape ih

/-! ## Running the season to its end -/

theorem forall2_mem_right {α : Type} (R : α → α → Prop) (l1 l2 : List α)
    (hf : List.Forall₂ R l1 l2) : ∀ b ∈ l2, ∃ a ∈ l1, R a b := by
  induction hf with
  | nil => intro b hb; cases hb
  | cons hab _ ih =>
    intro b hb
    rcases List.mem_cons.mp hb with e | hb2
    · subst e; exact ⟨_, List.mem_cons_self _ _, hab⟩
    · obtain ⟨a, ha, hr⟩ := ih b hb2
      exact ⟨a, List.mem_cons_of_mem _ ha, hr⟩

/-- In a reachable league every match scheduled up to the current week is played. -/
theorem reachable_played_upto (l : League) (hr : Reachable l) :
    ∀ m ∈ l.Matches, m.Week ≤ l.CurrentWeek → m.Played = true := by
  induction hr with
  | fresh =>
    intro m hm hw
    obtain ⟨_, _, _, _, _, h1, _⟩ := NewLeague_shape.resolve m hm
    have h0 : NewLeague.CurrentWeek = 0 := rfl
    omega
  | @advance l rng o rng2 hreach hstep ih =>
    rcases PlayNextWeek_inv l rng o rng2 hstep with ⟨_, e, _⟩ | ⟨hlt, ms, h, hpw, e⟩
    · rw [e]; exact ih
    · rw [e]
      obtain ⟨e1, e2, _⟩ := updateStrengths_readjusted
        { l with CurrentWeek := l.CurrentWeek + 1, Matches := ms, heap := h }
      rw [e1, e2]
      intro m1 hm1 hw
      obtain ⟨m, hm, hk, hkeep, hplay⟩ := forall2_mem_right _ _ _
        (playWeekMatches_matches l.Teams (l.CurrentWeek + 1) l.Matches l.heap rng ms h rng2 hpw)
        m1 hm1
      have hweek : m1.Week = m.Week := congrArg Prod.fst hk
      by_cases hc : m.Week = l.CurrentWeek + 1
      · exact hplay hc
      · apply hkeep
        apply ih m hm
        have hw2 : m1.Week ≤ l.CurrentWeek + 1 := hw
        omega
  | @correct l week home away hg ag o _ hstep ih =>
    rcases editMatchResult_inv l week home away hg ag o hstep with e | ⟨pre, m, post, hp, ap, hms, _, _, _, e⟩
    · rw [e]; exact ih
    · rw [e]
      intro m1 hm1 hw
      have hm2 : m1 ∈ pre ++ correctedMatch m hg ag :: post := hm1
      rcases List.mem_append.mp hm2 with h1 | h1
      · exact ih m1 (by rw [hms]; exact List.mem_append_left _ h1) hw
      · rcases List.mem_cons.mp h1 with e2 | h2
        · rw [e2]; rfl
        · exact ih m1 (by rw [hms]; exact List.mem_append_right _ (List.mem_cons_of_mem _ h2)) hw
  | @table l _ ih => exact ih

/-- On a league of the fixed shape with rounds left, `PlayNextWeek` completes without
error and advances the round counter by one. -/
theorem PlayNextWeek_succeeds (l : League) (rng : Rng) (hs : Shape l)
    (hlt : l.CurrentWeek < l.TotalWeeks) :
    ∃ o rng2, PlayNextWeek l rng = some (o, rng2) ∧ o.err = none ∧
      o.league.CurrentWeek = l.CurrentWeek + 1 ∧ o.league.TotalWeeks = l.TotalWeeks := by
  obtain ⟨ms, h, rng2, hpw⟩ := playWeekMatches_succeeds l.Teams (l.CurrentWeek + 1) l.Matches
    l.heap rng (fun m hm => by
      obtain ⟨hp, ap, e1, e2, _⟩ := hs.resolve m hm
      exact ⟨⟨hp, e1⟩, ⟨ap, e2⟩⟩)
  have hnot : ¬ l.CurrentWeek ≥ l.TotalWeeks := not_le.mpr hlt
  refine ⟨⟨none, updateStrengths
    { l with CurrentWeek := l.CurrentWeek + 1, Matches := ms, heap := h }⟩, rng2, ?_, rfl, ?_, ?_⟩
  · unfold PlayNextWeek
    rw [if_neg hnot]
    dsimp only
    rw [hpw]
  · exact (updateStrengths_readjusted _).2.1
  · exact (updateStrengths_readjusted _).2.2.1

theorem playAllLoop_completes (fuel : Nat) :
    ∀ (l : League) (rng : Rng), Reachable l → (l.TotalWeeks - l.CurrentWeek).toNat ≤ fuel →
      ∃ l2 rng2, playAllLoop fuel l rng = some (l2, rng2) ∧ Reachable l2 ∧
        l2.TotalWeeks ≤ l2.CurrentWeek := by
  induction fuel with
  | zero =>
    intro l rng hr hfuel
    have hge : ¬ l.CurrentWeek < l.TotalWeeks := by omega
    exact ⟨l, rng, by simp [playAllLoop, hge], hr, not_lt.mp hge⟩
  | succ n ih =>
    intro l rng hr hfuel
    by_cases hlt : l.CurrentWeek < l.TotalWeeks
    · obtain ⟨o, rng1, hstep, _, hw, ht⟩ := PlayNextWeek_succeeds l rng (reachable_shape l hr) hlt
      obtain ⟨l2, rng2, hloop, hr2, hdone⟩ := ih o.league rng1 (Reachable.advance rng hr hstep)
        (by rw [hw, ht]; omega)
      refine ⟨l2, rng2, ?_, hr2, hdone⟩
      unfold playAllLoop
      rw [if_pos hlt, hstep]
      exact hloop
    · exact ⟨l, rng, by simp [playAllLoop, hlt], hr, not_lt.mp hlt⟩

/-- C6: for the fresh league built by `NewLeague` and every random stream,
`PlayAllMatches` terminates normally and leaves `CurrentWeek = TotalWeeks = 6` and every
one of the twelve matches with `Played = true`. -/
theorem PlayAllMatches_fresh_completes (rng : Rng) :
    ∃ l rng2, PlayAllMatches NewLeague rng = some (l, rng2) ∧
      l.CurrentWeek = l.TotalWeeks ∧ l.TotalWeeks = 6 ∧ l.Matches.length = 12 ∧
      ∀ m ∈ l.Matches, m.Played = true := by
  obtain ⟨l, rng2, hloop, hr, hdone⟩ :=
    playAllLoop_completes (NewLeague.TotalWeeks - NewLeague.CurrentWeek).toNat NewLeague rng
      Reachable.fresh (le_refl _)
  have hs := reachable_shape l hr
  have htot := hs.total
  have hw := hs.week
  have hlen : l.Matches.length = 12 := by
    have h1 := congrArg List.length hs.keys
    simpa [generateFixtures, fixtureTable] using h1
  refine ⟨l, rng2, hloop, by omega, htot, hlen, ?_⟩
  intro m hm
  apply reachable_played_upto l hr m hm
  obtain ⟨_, _, _, _, _, _, h6⟩ := hs.resolve m hm
  omega

/-! ## Reachable states: every record is the tally of the match list -/

theorem matchTotal_split (f : Match → Int) (pre post : List Match) (m : Match) :
    matchTotal f (pre ++ m :: post) = matchTotal f pre + f m + matchTotal f post := by
  unfold matchTotal
  simp [List.sum_append]
  ring

theorem playedCount_cons (n : String) (m : Match) (ms : List Match) :
    playedCount n (m :: ms) = playedBy n m + playedCount n ms := by
  unfold playedCount playedBy
  rw [List.countP_cons]
  split_ifs <;> push_cast <;> ring

theorem playedCount_append (n : String) (l1 l2 : List Match) :
    playedCount n (l1 ++ l2) = playedCount n l1 + playedCount n l2 := by
  unfold playedCount
  rw [List.countP_append]
  push_cast
  rfl

theorem playedCount_split (n : String) (pre post : List Match) (m : Match) :
    playedCount n (pre ++ m :: post) = playedCount n pre + playedBy n m + playedCount n post := by
  rw [playedCount_append, playedCount_cons]; ring

theorem playedCount_bounds (n : String) (ms : List Match) :
    0 ≤ playedCount n ms ∧ playedCount n ms ≤ ms.length := by
  unfold playedCount
  exact ⟨Int.natCast_nonneg _, by exact_mod_cast List.countP_le_length _⟩

theorem matchTotal_bounds (f : Match → Int) (hf : ∀ m, 0 ≤ f m ∧ f m ≤ 1) (ms : List Match) :
    0 ≤ matchTotal f ms ∧ matchTotal f ms ≤ ms.length := by
  induction ms with
  | nil => simp [matchTotal]
  | cons m rest ih =>
    have e : matchTotal f (m :: rest) = f m + matchTotal f rest := by simp [matchTotal]
    have := hf m
    rw [e]
    simp only [List.length_cons]
    push_cast
    omega

theorem wonBy_bounds (n : String) (m : Match) : 0 ≤ wonBy n m ∧ wonBy n m ≤ 1 := by
  unfold wonBy; split <;> [split_ifs <;> simp; simp]

theorem drawnBy_bounds (n : String) (m : Match) : 0 ≤ drawnBy n m ∧ drawnBy n m ≤ 1 := by
  unfold drawnBy; split <;> [split_ifs <;> simp; simp]

theorem lostBy_bounds (n : String) (m : Match) : 0 ≤ lostBy n m ∧ lostBy n m ≤ 1 := by
  unfold lostBy; split <;> [split_ifs <;> simp; simp]

theorem playedBy_of_scoreOf_none (n : String) (m : Match) (h : scoreOf n m = none) :
    playedBy n m = 0 := by
  unfold scoreOf at h
  unfold playedBy involves
  by_cases hpl : m.Played = true
  · by_cases h1 : m.HomeTeam = n
    · simp [hpl, h1] at h
    · by_cases h2 : m.AwayTeam = n
      · simp [hpl, h1, h2] at h
      · simp [h1, h2]
  · simp [hpl]

theorem playedBy_of_scoreOf_some (n : String) (m : Match) (s : Int × Int)
    (h : scoreOf n m = some s) : playedBy n m = 1 := by
  unfold scoreOf at h
  unfold playedBy involves
  by_cases hpl : m.Played = true
  · by_cases h1 : m.HomeTeam = n
    · simp [hpl, h1]
    · by_cases h2 : m.AwayTeam = n
      · simp [hpl, h2]
      · simp [hpl, h1, h2] at h
  · simp [hpl] at h

/-- Bounds on the four counters of a tallied record. -/
theorem Tallied.counters {n : String} {ms : List Match} {t : Team} (ht : Tallied n ms t) :
    (0 ≤ t.Stats.Played ∧ t.Stats.Played ≤ ms.length) ∧
    (0 ≤ t.Stats.Won ∧ t.Stats.Won ≤ ms.length) ∧
    (0 ≤ t.Stats.Drawn ∧ t.Stats.Drawn ≤ ms.length) ∧
    (0 ≤ t.Stats.Lost ∧ t.Stats.Lost ≤ ms.length) := by
  obtain ⟨h1, h2, h3, h4, _⟩ := ht
  rw [h1, h2, h3, h4]
  exact ⟨playedCount_bounds n ms, matchTotal_bounds _ (wonBy_bounds n) ms,
    matchTotal_bounds _ (drawnBy_bounds n) ms, matchTotal_bounds _ (lostBy_bounds n) ms⟩

/-- What `UpdateStats` writes into a record whose counters are far from the limits of
a 64-bit integer: the counters move by exact steps, the goal totals wrap around. -/
theorem UpdateStats_fields (t : Team) (gf ga : Int)
    (hP : 0 ≤ t.Stats.Played ∧ t.Stats.Played ≤ 12) (hW : 0 ≤ t.Stats.Won ∧ t.Stats.Won ≤ 12)
    (hD : 0 ≤ t.Stats.Drawn ∧ t.Stats.Drawn ≤ 12) (hL : 0 ≤ t.Stats.Lost ∧ t.Stats.Lost ≤ 12)
    (hpts : t.Stats.Points = 3 * t.Stats.Won + t.Stats.Drawn) :
    (UpdateStats t gf ga (outcomeLabel gf ga)).Stats =
      { Played := t.Stats.Played + 1,
        Won := t.Stats.Won + (if gf > ga then 1 else 0),
        Drawn := t.Stats.Drawn + (if gf = ga then 1 else 0),
        Lost := t.Stats.Lost + (if gf < ga then 1 else 0),
        GoalsFor := wrap64 (t.Stats.GoalsFor + gf),
        GoalsAgainst := wrap64 (t.Stats.GoalsAgainst + ga),
        GoalDiff := wrap64 (wrap64 (t.Stats.GoalsFor + gf) - wrap64 (t.Stats.GoalsAgainst + ga)),
        Points := 3 * (t.Stats.Won + (if gf > ga then 1 else 0)) +
          (t.Stats.Drawn + (if gf = ga then 1 else 0)) } := by
  have e1 : wrap64 (t.Stats.Played + 1) = t.Stats.Played + 1 :=
    wrap64_of_range _ (by omega) (by omega)
  have e2 : wrap64 (t.Stats.Won + 1) = t.Stats.Won + 1 := wrap64_of_range _ (by omega) (by omega)
  have e3 : wrap64 (t.Stats.Drawn + 1) = t.Stats.Drawn + 1 :=
    wrap64_of_range _ (by omega) (by omega)
  have e4 : wrap64 (t.Stats.Lost + 1) = t.Stats.Lost + 1 := wrap64_of_range _ (by omega) (by omega)
  have e5 : wrap64 (t.Stats.Points + 3) = t.Stats.Points + 3 :=
    wrap64_of_range _ (by omega) (by omega)
  have e6 : wrap64 (t.Stats.Points + 1) = t.Stats.Points + 1 :=
    wrap64_of_range _ (by omega) (by omega)
  rcases outcomeLabel_cases gf ga with ⟨hc, hl⟩ | ⟨hc, hl⟩ | ⟨hc, hl⟩
  · have hc2 : ¬ gf = ga := by omega
    have hc3 : ¬ gf < ga := by omega
    rw [hl]
    simp only [UpdateStats, if_pos hc, if_neg hc2, if_neg hc3, e1, e2, e5, if_true]
    simp only [TeamStats.mk.injEq, true_and, and_true]
    omega
  · have hc2 : ¬ gf = ga := by omega
    have hc3 : ¬ gf > ga := by omega
    rw [hl]
    simp [UpdateStats, hc, hc2, hc3, e1, e4]
    omega
  · have hc2 : ¬ gf < ga := by omega
    have hc3 : ¬ gf > ga := by omega
    rw [hl]
    simp [UpdateStats, hc, hc2, hc3, e1, e3, e6]
    omega

/-- What `reverseMatchResult` writes into a record whose counters are far from the limits
of a 64-bit integer. -/
theorem reverseMatchResult_fields (t : Team) (gf ga : Int)
    (hP : 0 ≤ t.Stats.Played ∧ t.Stats.Played ≤ 12) (hW : 0 ≤ t.Stats.Won ∧ t.Stats.Won ≤ 12)
    (hD : 0 ≤ t.Stats.Drawn ∧ t.Stats.Drawn ≤ 12) (hL : 0 ≤ t.Stats.Lost ∧ t.Stats.Lost ≤ 12)
    (hpts : t.Stats.Points = 3 * t.Stats.Won + t.Stats.Drawn) :
    (reverseMatchResult t gf ga).Stats =
      { Played := t.Stats.Played - 1,
        Won := t.Stats.Won - (if gf > ga then 1 else 0),
        Drawn := t.Stats.Drawn - (if gf = ga then 1 else 0),
        Lost := t.Stats.Lost - (if gf < ga then 1 else 0),
        GoalsFor := wrap64 (t.Stats.GoalsFor - gf),
        GoalsAgainst := wrap64 (t.Stats.GoalsAgainst - ga),
        GoalDiff := wrap64 (wrap64 (t.Stats.GoalsFor - gf) - wrap64 (t.Stats.GoalsAgainst - ga)),
        Points := 3 * (t.Stats.Won - (if gf > ga then 1 else 0)) +
          (t.Stats.Drawn - (if gf = ga then 1 else 0)) } := by
  have e1 : wrap64 (t.Stats.Played - 1) = t.Stats.Played - 1 :=
    wrap64_of_range _ (by omega) (by omega)
  have e2 : wrap64 (t.Stats.Won - 1) = t.Stats.Won - 1 := wrap64_of_range _ (by omega) (by omega)
  have e3 : wrap64 (t.Stats.Drawn - 1) = t.Stats.Drawn - 1 :=
    wrap64_of_range _ (by omega) (by omega)
  have e4 : wrap64 (t.Stats.Lost - 1) = t.Stats.Lost - 1 := wrap64_of_range _ (by omega) (by omega)
  have e5 : wrap64 (t.Stats.Points - 3) = t.Stats.Points - 3 :=
    wrap64_of_range _ (by omega) (by omega)
  have e6 : wrap64 (t.Stats.Points - 1) = t.Stats.Points - 1 :=
    wrap64_of_range _ (by omega) (by omega)
  rcases lt_trichotomy gf ga with hc | hc | hc
  · have hc2 : ¬ gf = ga := by omega
    have hc3 : ¬ gf > ga := by omega
    simp [reverseMatchResult, hc, hc2, hc3, e1, e4]
    omega
  · have hc2 : ¬ gf < ga := by omega
    have hc3 : ¬ gf > ga := by omega
    simp [reverseMatchResult, hc, hc2, hc3, e1, e3, e6]
    omega
  · have hc2 : ¬ gf = ga := by omega
    have hc3 : ¬ gf < ga := by omega
    simp [reverseMatchResult, hc, hc2, hc3, e1, e2, e5]
    omega

/-- Replacing a match in which the team has no score by one in which it has the score
`(gf, ga)`, and applying that score to the team's tally, gives the tally of the new list. -/
theorem Tallied.apply {n : String} {pre post : List Match} {m m1 : Match} {t : Team}
    {gf ga : Int} (ht : Tallied n (pre ++ m :: post) t)
    (hlen : (pre ++ m :: post).length ≤ 12)
    (h0 : scoreOf n m = none) (h1 : scoreOf n m1 = some (gf, ga)) :
    Tallied n (pre ++ m1 :: post) (UpdateStats t gf ga (outcomeLabel gf ga)) := by
  have hlen2 : ((pre ++ m :: post).length : Int) ≤ 12 := by exact_mod_cast hlen
  obtain ⟨⟨c1, c2⟩, ⟨c3, c4⟩, ⟨c5, c6⟩, ⟨c7, c8⟩⟩ := ht.counters
  obtain ⟨t1, t2, t3, t4, t5, t6, t7, t8⟩ := ht
  have hf := UpdateStats_fields t gf ga ⟨c1, by omega⟩ ⟨c3, by omega⟩ ⟨c5, by omega⟩
    ⟨c7, by omega⟩ t8
  have p0 := playedBy_of_scoreOf_none n m h0
  have p1 := playedBy_of_scoreOf_some n m1 _ h1
  rw [playedCount_split, p0] at t1
  rw [matchTotal_split] at t2 t3 t4 t5 t6
  simp only [wonBy, drawnBy, lostBy, goalsForBy, goalsAgainstBy, h0] at t2 t3 t4 t5 t6
  unfold Tallied
  rw [hf, playedCount_split, p1, matchTotal_split, matchTotal_split, matchTotal_split,
    matchTotal_split, matchTotal_split]
  simp only [wonBy, drawnBy, lostBy, goalsForBy, goalsAgainstBy, h1]
  refine ⟨by omega, by omega, by omega, by omega, ?_, ?_, trivial, trivial⟩
  · rw [t5, wrap64_add_left]; congr 1; ring
  · rw [t6, wrap64_add_left]; congr 1; ring

/-- Replacing a match in which the team has the score `(gf, ga)` by one in which it has
no score, and retracting that score from the team's tally, gives the tally of the new
list. -/
theorem Tallied.retract {n : String} {pre post : List Match} {m m1 : Match} {t : Team}
    {gf ga : Int} (ht : Tallied n (pre ++ m :: post) t)
    (hlen : (pre ++ m :: post).length ≤ 12)
    (h0 : scoreOf n m = some (gf, ga)) (h1 : scoreOf n m1 = none) :
    Tallied n (pre ++ m1 :: post) (reverseMatchResult t gf ga) := by
  have hlen2 : ((pre ++ m :: post).length : Int) ≤ 12 := by exact_mod_cast hlen
  obtain ⟨⟨c1, c2⟩, ⟨c3, c4⟩, ⟨c5, c6⟩, ⟨c7, c8⟩⟩ := ht.counters
  obtain ⟨t1, t2, t3, t4, t5, t6, t7, t8⟩ := ht
  have hf := reverseMatchResult_fields t gf ga ⟨c1, by omega⟩ ⟨c3, by omega⟩ ⟨c5, by omega⟩
    ⟨c7, by omega⟩ t8
  have p0 := playedBy_of_scoreOf_some n m _ h0
  have p1 := playedBy_of_scoreOf_none n m1 h1
  rw [playedCount_split, p0] at t1
  rw [matchTotal_split] at t2 t3 t4 t5 t6
  simp only [wonBy, drawnBy, lostBy, goalsForBy, goalsAgainstBy, h0] at t2 t3 t4 t5 t6
  unfold Tallied
  rw [hf, playedCount_split, p1, matchTotal_split, matchTotal_split, matchTotal_split,
    matchTotal_split, matchTotal_split]
  simp only [wonBy, drawnBy, lostBy, goalsForBy, goalsAgainstBy, h1]
  refine ⟨by omega, by omega, by omega, by omega, ?_, ?_, trivial, trivial⟩
  · rw [t5, wrap64_sub_left]; congr 1; ring
  · rw [t6, wrap64_sub_left]; congr 1; ring

/-- Replacing a match by one in which the team has the same score, or none in both,
leaves the team's tally what it was. -/
theorem Tallied.keep {n : String} {pre post : List Match} {m m1 : Match} {t : Team}
    (ht : Tallied n (pre ++ m :: post) t) (h01 : scoreOf n m1 = scoreOf n m) :
    Tallied n (pre ++ m1 :: post) t := by
  have p01 : playedBy n m1 = playedBy n m := by
    cases hs : scoreOf n m with
    | none => rw [playedBy_of_scoreOf_none n m hs, playedBy_of_scoreOf_none n m1 (h01.trans hs)]
    | some s =>
      rw [playedBy_of_scoreOf_some n m s hs, playedBy_of_scoreOf_some n m1 s (h01.trans hs)]
  unfold Tallied at ht ⊢
  rw [playedCount_split, matchTotal_split, matchTotal_split, matchTotal_split, matchTotal_split,
    matchTotal_split] at ht ⊢
  simp only [wonBy, drawnBy, lostBy, goalsForBy, goalsAgainstBy, h01, p01]
  exact ht

/-- A name that resolves to the address `a` is the name of the team object at `p`
exactly when `p` is `a`. -/
theorem teamAddress_eq_iff (name : String) (a p : Nat) (hmem : p ∈ [0, 1, 2, 3])
    (e : teamAddress name = some a) : name = (initialHeap p).Name ↔ p = a := by
  constructor
  · intro hn
    have hp := teamAddress_name p hmem
    rw [← hn, e] at hp
    exact (Option.some.inj hp).symm
  · intro hpa
    subst hpa
    exact (findTeam_some _ _ _ _ e).1.symm

/-- The score of the team object at `p` in a match whose two names resolve to the
different addresses `hp` and `ap`. -/
theorem scoreOf_resolved (m : Match) (hp ap p : Nat) (hmem : p ∈ [0, 1, 2, 3])
    (eh : teamAddress m.HomeTeam = some hp) (ea : teamAddress m.AwayTeam = some ap) :
    scoreOf (initialHeap p).Name m =
      if m.Played then
        if p = hp then some (m.HomeGoals, m.AwayGoals)
        else if p = ap then some (m.AwayGoals, m.HomeGoals)
        else none
      else none := by
  have i1 := teamAddress_eq_iff m.HomeTeam hp p hmem eh
  have i2 := teamAddress_eq_iff m.AwayTeam ap p hmem ea
  unfold scoreOf
  by_cases c1 : p = hp
  · simp [c1, i1.mpr c1]
  · by_cases c2 : p = ap
    · have n1 : ¬ m.HomeTeam = (initialHeap p).Name := fun e => c1 (i1.mp e)
      rw [if_neg n1, if_pos (i2.mpr c2), if_neg c1, if_pos c2]
    · have n1 : ¬ m.HomeTeam = (initialHeap p).Name := fun e => c1 (i1.mp e)
      have n2 : ¬ m.AwayTeam = (initialHeap p).Name := fun e => c2 (i2.mp e)
      rw [if_neg n1, if_neg n2, if_neg c1, if_neg c2]

/-- Applying a score to the two teams of an unplayed match, and storing it in the
match, keeps the tallies. -/
theorem HeapTallied.applyScore {h : Heap} {pre post : List Match} {m : Match}
    (ht : HeapTallied h (pre ++ m :: post)) (hlen : (pre ++ m :: post).length ≤ 12)
    (hp ap : Nat) (hg ag : Int) (hunpl : m.Played = false)
    (eh : teamAddress m.HomeTeam = some hp) (ea : teamAddress m.AwayTeam = some ap)
    (hne : hp ≠ ap) :
    HeapTallied (applyResult h hp ap hg ag) (pre ++ correctedMatch m hg ag :: post) := by
  intro p hmem
  have s0 : scoreOf (initialHeap p).Name m = none := by
    rw [scoreOf_resolved m hp ap p hmem eh ea]; simp [hunpl]
  have s1 := scoreOf_resolved (correctedMatch m hg ag) hp ap p hmem eh ea
  by_cases c1 : p = hp
  · subst c1
    rw [applyResult_home h p ap hg ag hne]
    apply (ht p hmem).apply hlen s0
    rw [s1]; simp [correctedMatch]
  · by_cases c2 : p = ap
    · subst c2
      rw [applyResult_away h hp p hg ag hne]
      apply (ht p hmem).apply hlen s0
      rw [s1]; simp [correctedMatch, c1]
    · rw [applyResult_other h hp ap hg ag p c1 c2]
      apply (ht p hmem).keep
      rw [s0, s1]; simp [c1, c2]

/-- Retracting the stored score of a played match from its two teams, and marking the
match unplayed, keeps the tallies. -/
theorem HeapTallied.retractScore {h : Heap} {pre post : List Match} {m : Match}
    (ht : HeapTallied h (pre ++ m :: post)) (hlen : (pre ++ m :: post).length ≤ 12)
    (hp ap : Nat) (hpl : m.Played = true)
    (eh : teamAddress m.HomeTeam = some hp) (ea : teamAddress m.AwayTeam = some ap)
    (hne : hp ≠ ap) :
    HeapTallied (retractResult h hp ap m.HomeGoals m.AwayGoals)
      (pre ++ { m with Played := false } :: post) := by
  intro p hmem
  have s0 := scoreOf_resolved m hp ap p hmem eh ea
  have s1 : scoreOf (initialHeap p).Name { m with Played := false } = none := by
    simp [scoreOf]
  rw [hpl] at s0
  by_cases c1 : p = hp
  · subst c1
    rw [retractResult_home h p ap _ _ hne]
    apply (ht p hmem).retract hlen _ s1
    rw [s0]; simp
  · by_cases c2 : p = ap
    · subst c2
      rw [retractResult_away h hp p _ _ hne]
      apply (ht p hmem).retract hlen _ s1
      rw [s0]; simp [c1]
    · rw [retractResult_other h hp ap _ _ p c1 c2]
      apply (ht p hmem).keep
      rw [s0, s1]; simp [c1, c2]

/-- The correction of a match (retract the stored score if it is played, apply the
new one) keeps the tallies. -/
theorem HeapTallied.correct {h : Heap} {pre post : List Match} {m : Match}
    (ht : HeapTallied h (pre ++ m :: post)) (hlen : (pre ++ m :: post).length ≤ 12)
    (hp ap : Nat) (hg ag : Int)
    (eh : teamAddress m.HomeTeam = some hp) (ea : teamAddress m.AwayTeam = some ap)
    (hne : hp ≠ ap) :
    HeapTallied
      (applyResult (if m.Played then retractResult h hp ap m.HomeGoals m.AwayGoals else h)
        hp ap hg ag)
      (pre ++ correctedMatch m hg ag :: post) := by
  by_cases hpl : m.Played = true
  · rw [if_pos hpl]
    have h1 := ht.retractScore hlen hp ap hpl eh ea hne
    have hlen1 : (pre ++ { m with Played := false } :: post).length ≤ 12 := by
      simpa using hlen
    exact h1.applyScore hlen1 hp ap hg ag rfl eh ea hne
  · rw [if_neg hpl]
    exact ht.applyScore hlen hp ap hg ag (by simpa using hpl) eh ea hne

/-- The match loop of a round keeps the tallies. -/
theorem playWeekMatches_tallied (teams : List Nat) (week : Int)
    (hteams : teams.Perm [0, 1, 2, 3]) (rest : List Match) :
    ∀ (pre : List Match) (h : Heap) (rng : Rng) (ms2 : List Match) (h2 : Heap) (rng2 : Rng),
      SameNames initialHeap h → (∀ m ∈ rest, keyOk (matchKey m) = true) →
      (pre ++ rest).length ≤ 12 → HeapTallied h (pre ++ rest) →
      playWeekMatches teams week rest h rng = some (ms2, h2, rng2) →
      HeapTallied h2 (pre ++ ms2) := by
  induction rest with
  | nil =>
    intro pre h rng ms2 h2 rng2 _ _ _ ht hr
    simp only [playWeekMatches, Option.some.injEq, Prod.mk.injEq] at hr
    rw [← hr.1, ← hr.2.1]; exact ht
  | cons m rest ih =>
    intro pre h rng ms2 h2 rng2 hn hok hlen ht hr
    obtain ⟨m1, h1, rng1, ms1, e0, hrest, hstep⟩ :=
      playWeekMatches_cons_inv teams week m rest h rng ms2 h2 rng2 hr
    subst e0
    have hokrest : ∀ x ∈ rest, keyOk (matchKey x) = true :=
      fun x hx => hok x (List.mem_cons_of_mem _ hx)
    have e1 : pre ++ m1 :: ms1 = (pre ++ [m1]) ++ ms1 := by simp
    rw [e1]
    rcases hstep with ⟨_, hunpl, hp, ap, hg, ag, eh, ea, em, ehh⟩ | ⟨_, em, ehh⟩
    · obtain ⟨hp2, ap2, t1, t2, hne, _, _⟩ := keyOk_resolve _ (hok m (List.mem_cons_self _ _))
      rw [findTeam_shape h teams hn hteams] at eh ea
      have t1b : teamAddress m.HomeTeam = some hp2 := t1
      have t2b : teamAddress m.AwayTeam = some ap2 := t2
      have ehp : hp2 = hp := Option.some.inj (t1b.symm.trans eh)
      have eap : ap2 = ap := Option.some.inj (t2b.symm.trans ea)
      subst ehp eap
      have hn1 : SameNames initialHeap h1 := by
        rw [ehh]; exact hn.andThen (applyResult_sameNames h hp2 ap2 hg ag)
      have ht1 : HeapTallied h1 ((pre ++ [m1]) ++ rest) := by
        rw [ehh, em]
        simpa using ht.applyScore hlen hp2 ap2 hg ag hunpl eh ea hne
      exact ih (pre ++ [m1]) h1 rng1 ms1 h2 rng2 hn1 hokrest (by simpa using hlen) ht1 hrest
    · subst em ehh
      exact ih (pre ++ [m1]) h1 rng1 ms1 h2 rng2 hn hokrest (by simpa using hlen)
        (by simpa using ht) hrest

theorem Shape.matches_length {l : League} (hs : Shape l) : l.Matches.length = 12 := by
  have h := congrArg List.length hs.keys
  simpa using h

theorem Tallied.of_stats {n : String} {ms : List Match} {t t2 : Team}
    (ht : Tallied n ms t) (e : t2.Stats = t.Stats) : Tallied n ms t2 := by
  unfold Tallied at ht ⊢
  rw [e]; exact ht

theorem NewLeague_tallied : HeapTallied NewLeague.heap NewLeague.Matches := by
  intro p hmem
  simp only [List.mem_cons, List.mem_singleton, List.not_mem_nil, or_false] at hmem
  rcases hmem with rfl | rfl | rfl | rfl <;> exact ⟨by decide, by decide, by decide, by decide,
    by decide, by decide, by decide, by decide⟩

/-- In every reachable state each team record is the tally of the match list. -/
theorem reachable_tallied (l : League) (hr : Reachable l) : HeapTallied l.heap l.Matches := by
  induction hr with
  | fresh => exact NewLeague_tallied
  | @advance l rng o rng2 hreach hstep ih =>
    rcases PlayNextWeek_inv l rng o rng2 hstep with ⟨_, e, _⟩ | ⟨hlt, ms, h, hpw, e⟩
    · rw [e]; exact ih
    · rw [e]
      obtain ⟨e1, _, _, _, _, e6⟩ := updateStrengths_readjusted
        { l with CurrentWeek := l.CurrentWeek + 1, Matches := ms, heap := h }
      have hs := reachable_shape l hreach
      have hlen : ([] ++ l.Matches).length ≤ 12 := by simp [hs.matches_length]
      have ht := playWeekMatches_tallied l.Teams (l.CurrentWeek + 1) hs.teams l.Matches []
        l.heap rng ms h rng2 hs.names (fun m hm => hs.match_ok m hm) hlen ih hpw
      intro p hmem
      rw [e1]
      exact (ht p hmem).of_stats (e6 p).2.1
  | @correct l week home away hg ag o hreach hstep ih =>
    rcases editMatchResult_inv l week home away hg ag o hstep with
      e | ⟨pre, m, post, hp, ap, hms, _, eh, ea, e⟩
    · rw [e]; exact ih
    · rw [e]
      have hs := reachable_shape l hreach
      have hmem_m : m ∈ l.Matches := by rw [hms]; simp
      obtain ⟨hp2, ap2, t1, t2, hne, _, _⟩ := keyOk_resolve _ (hs.match_ok m hmem_m)
      unfold getTeamByName at eh ea
      rw [findTeam_shape l.heap l.Teams hs.names hs.teams] at eh ea
      have t1b : teamAddress m.HomeTeam = some hp2 := t1
      have t2b : teamAddress m.AwayTeam = some ap2 := t2
      have ehp : hp2 = hp := Option.some.inj (t1b.symm.trans eh)
      have eap : ap2 = ap := Option.some.inj (t2b.symm.trans ea)
      subst ehp eap
      have hlen : (pre ++ m :: post).length ≤ 12 := by rw [← hms, hs.matches_length]
      rw [hms] at ih
      exact ih.correct hlen hp2 ap2 hg ag eh ea hne
  | @table l _ ih => exact ih

theorem reachable_played_count (l : League) (hr : Reachable l) :
    ∀ p ∈ [0, 1, 2, 3],
      (l.heap p).Stats.Played = playedCount (initialHeap p).Name l.Matches :=
  fun p hmem => (reachable_tallied l hr p hmem).1

/-! ## Reachable states: the derived fields and the round trip -/

theorem wrap64_add_sub_cancel (a b : Int) (ha : InInt64 a) : wrap64 (wrap64 (a + b) - b) = a := by
  rw [wrap64_sub_left]
  have e : a + b - b = a := by ring
  rw [e]
  exact wrap64_of_range a ha.1 ha.2

/-- Applying a score and retracting the same score restores every statistics field of
a record whose fields are 64-bit values and whose `GoalDiff` is the 64-bit difference of
its goal totals. -/
theorem reverse_UpdateStats (t : Team) (gf ga : Int)
    (hP : InInt64 t.Stats.Played) (hW : InInt64 t.Stats.Won) (hD : InInt64 t.Stats.Drawn)
    (hL : InInt64 t.Stats.Lost) (hF : InInt64 t.Stats.GoalsFor)
    (hA : InInt64 t.Stats.GoalsAgainst) (hPts : InInt64 t.Stats.Points)
    (hgd : t.Stats.GoalDiff = wrap64 (t.Stats.GoalsFor - t.Stats.GoalsAgainst)) :
    (reverseMatchResult (UpdateStats t gf ga (outcomeLabel gf ga)) gf ga).Stats = t.Stats := by
  obtain ⟨name, strength, base, ⟨p, w, d, l, f, a, gd, pts⟩⟩ := t
  simp only at hP hW hD hL hF hA hPts hgd
  have e1 := wrap64_add_sub_cancel p 1 hP
  have e2 := wrap64_add_sub_cancel w 1 hW
  have e3 := wrap64_add_sub_cancel d 1 hD
  have e4 := wrap64_add_sub_cancel l 1 hL
  have e5 := wrap64_add_sub_cancel f gf hF
  have e6 := wrap64_add_sub_cancel a ga hA
  have e7 := wrap64_add_sub_cancel pts 3 hPts
  have e8 := wrap64_add_sub_cancel pts 1 hPts
  rcases outcomeLabel_cases gf ga with ⟨hc, hl⟩ | ⟨hc, hl⟩ | ⟨hc, hl⟩
  · rw [hl]
    simp [UpdateStats, reverseMatchResult, hc, e1, e2, e5, e6, e7, hgd]
  · have hc2 : ¬ gf > ga := by omega
    rw [hl]
    simp [UpdateStats, reverseMatchResult, hc, hc2, e1, e4, e5, e6, hgd]
  · subst hc
    rw [hl]
    simp [UpdateStats, reverseMatchResult, e1, e3, e5, e6, e8, hgd]

/-- Every field of a tallied record is a 64-bit value. -/
theorem Tallied.inInt64 {n : String} {ms : List Match} {t : Team} (ht : Tallied n ms t)
    (hlen : ms.length ≤ 12) :
    InInt64 t.Stats.Played ∧ InInt64 t.Stats.Won ∧ InInt64 t.Stats.Drawn ∧
    InInt64 t.Stats.Lost ∧ InInt64 t.Stats.GoalsFor ∧ InInt64 t.Stats.GoalsAgainst ∧
    InInt64 t.Stats.GoalDiff ∧ InInt64 t.Stats.Points := by
  have hlen2 : (ms.length : Int) ≤ 12 := by exact_mod_cast hlen
  obtain ⟨⟨c1, c2⟩, ⟨c3, c4⟩, ⟨c5, c6⟩, ⟨c7, c8⟩⟩ := ht.counters
  obtain ⟨_, _, _, _, t5, t6, t7, t8⟩ := ht
  have r5 := wrap64_range (matchTotal (goalsForBy n) ms)
  have r6 := wrap64_range (matchTotal (goalsAgainstBy n) ms)
  have r7 := wrap64_range (t.Stats.GoalsFor - t.Stats.GoalsAgainst)
  rw [← t5] at r5
  rw [← t6] at r6
  rw [← t7] at r7
  unfold InInt64
  refine ⟨⟨?_, ?_⟩, ⟨?_, ?_⟩, ⟨?_, ?_⟩, ⟨?_, ?_⟩, r5, r6, r7, ⟨?_, ?_⟩⟩ <;> omega

/-- C2: for every team record of every league state reachable from `NewLeague` and all
goal values `gf`, `ga`, `UpdateStats` with the outcome label derived from comparing `gf`
with `ga`, followed by `reverseMatchResult` with the same goals, restores exactly the
prior statistics, all eight fields. -/
theorem apply_then_retract_restores (l : League) (hr : Reachable l) (p : Nat)
    (hp : p ∈ l.Teams) (gf ga : Int) :
    (reverseMatchResult (UpdateStats (l.heap p) gf ga (outcomeLabel gf ga)) gf ga).Stats =
      (l.heap p).Stats := by
  have hs := reachable_shape l hr
  have ht := reachable_tallied l hr p (hs.teams.mem_iff.mp hp)
  obtain ⟨h1, h2, h3, h4, h5, h6, _, h8⟩ := ht.inInt64 (le_of_eq hs.matches_length)
  exact reverse_UpdateStats (l.heap p) gf ga h1 h2 h3 h4 h5 h6 h8 ht.2.2.2.2.2.2.1

/-- Instance of C2: a 3-1 win applied to and retracted from Chelsea's record in the
league after week one and a correction. -/
theorem apply_then_retract_restores_witness :
    Reachable afterWeekOneCorrected ∧ 0 ∈ afterWeekOneCorrected.Teams ∧
    (reverseMatchResult (UpdateStats (afterWeekOneCorrected.heap 0) 3 1 (outcomeLabel 3 1))
      3 1).Stats = (afterWeekOneCorrected.heap 0).Stats :=
  ⟨afterWeekOneCorrected_reachable, by decide!,
    apply_then_retract_restores afterWeekOneCorrected afterWeekOneCorrected_reachable 0
      (by decide!) 3 1⟩

theorem hugeScoreByHand_reachable : Reachable hugeScoreByHand := by
  unfold hugeScoreByHand
  cases h : editMatchResult NewLeague 1 "Chelsea" "Arsenal" 9223372036854775807 (-1) with
  | none => exact Reachable.fresh
  | some o =>
    exact Reachable.correct 1 "Chelsea" "Arsenal" 9223372036854775807 (-1) Reachable.fresh h

/-- C1, as stated, fails: entering Chelsea 9223372036854775807 - -1 Arsenal by a
correction on the fresh league gives a reachable state in which Chelsea has
`GoalsFor = 2^63 - 1`, `GoalsAgainst = -1` and `GoalDiff = -2^63`, the 64-bit difference
wrapped around, which is not `GoalsFor - GoalsAgainst = 2^63`. -/
theorem goalDiff_wraps_around :
    Reachable hugeScoreByHand ∧ 0 ∈ hugeScoreByHand.Teams ∧
    (hugeScoreByHand.heap 0).Stats.GoalsFor = 9223372036854775807 ∧
    (hugeScoreByHand.heap 0).Stats.GoalsAgainst = -1 ∧
    (hugeScoreByHand.heap 0).Stats.GoalDiff = -9223372036854775808 ∧
    ¬ StatsConsistent (hugeScoreByHand.heap 0) :=
  ⟨hugeScoreByHand_reachable, by decide!, by decide!, by decide!, by decide!,
    fun h => absurd h.1 (by decide!)⟩

/-- C1, amended: in every league state reachable from `NewLeague` by round advances (any
random stream), match corrections (any arguments, any goal values) and standings
queries, every team has `Points = 3 * Won + Drawn`, and its `GoalDiff` is
`GoalsFor - GoalsAgainst` computed in 64-bit arithmetic: it equals the difference exactly
when the difference lies between `-2^63` and `2^63 - 1`, and differs from it by `2^64`
otherwise. -/
theorem reachable_stats_consistent (l : League) (hr : Reachable l) :
    ∀ p ∈ l.Teams,
      (l.heap p).Stats.Points = 3 * (l.heap p).Stats.Won + (l.heap p).Stats.Drawn ∧
      (l.heap p).Stats.GoalDiff =
        wrap64 ((l.heap p).Stats.GoalsFor - (l.heap p).Stats.GoalsAgainst) ∧
      ((l.heap p).Stats.GoalDiff = (l.heap p).Stats.GoalsFor - (l.heap p).Stats.GoalsAgainst ↔
        InInt64 ((l.heap p).Stats.GoalsFor - (l.heap p).Stats.GoalsAgainst)) ∧
      (¬ InInt64 ((l.heap p).Stats.GoalsFor - (l.heap p).Stats.GoalsAgainst) →
        (l.heap p).Stats.GoalDiff =
            (l.heap p).Stats.GoalsFor - (l.heap p).Stats.GoalsAgainst - 18446744073709551616 ∨
        (l.heap p).Stats.GoalDiff =
            (l.heap p).Stats.GoalsFor - (l.heap p).Stats.GoalsAgainst +
              18446744073709551616) := by
  intro p hp
  have hs := reachable_shape l hr
  have ht := reachable_tallied l hr p (hs.teams.mem_iff.mp hp)
  obtain ⟨_, _, _, _, h5, h6, _, _⟩ := ht.inInt64 (le_of_eq hs.matches_length)
  obtain ⟨_, _, _, _, _, _, t7, t8⟩ := ht
  unfold InInt64 at *
  refine ⟨t8, t7, ?_, ?_⟩
  · rw [t7]; unfold wrap64; constructor <;> intro h <;> omega
  · rw [t7]; unfold wrap64; intro h; omega

/-- Instance of the amended C1: the league after week one and a correction of its first
match. -/
theorem reachable_stats_consistent_witness :
    Reachable afterWeekOneCorrected ∧
    ∀ p ∈ afterWeekOneCorrected.Teams,
      (afterWeekOneCorrected.heap p).Stats.Points =
        3 * (afterWeekOneCorrected.heap p).Stats.Won +
          (afterWeekOneCorrected.heap p).Stats.Drawn ∧
      (afterWeekOneCorrected.heap p).Stats.GoalDiff =
        wrap64 ((afterWeekOneCorrected.heap p).Stats.GoalsFor -
          (afterWeekOneCorrected.heap p).Stats.GoalsAgainst) :=
  ⟨afterWeekOneCorrected_reachable, fun p hp =>
    ⟨(reachable_stats_consistent afterWeekOneCorrected afterWeekOneCorrected_reachable p hp).1,
     (reachable_stats_consistent afterWeekOneCorrected afterWeekOneCorrected_reachable p
        hp).2.1⟩⟩

/-! ## Reachable states: matches played -/

/-- C9, as stated, fails: entering Chelsea 2-1 Arsenal (a week-1 match) by a correction
on the fresh league gives a reachable state with `CurrentWeek = 0` in which Chelsea has
`Played = 1` while no match with `Week <= CurrentWeek` is played. -/
theorem played_exceeds_count_up_to_week :
    Reachable chelseaWonByHand ∧ 0 ∈ chelseaWonByHand.Teams ∧
    chelseaWonByHand.CurrentWeek = 0 ∧ (chelseaWonByHand.heap 0).Stats.Played = 1 ∧
    playedCountUpTo chelseaWonByHand.CurrentWeek (chelseaWonByHand.heap 0).Name
      chelseaWonByHand.Matches = 0 := by
  refine ⟨?_, by decide!, by decide!, by decide!, by decide!⟩
  unfold chelseaWonByHand
  cases h : editMatchResult NewLeague 1 "Chelsea" "Arsenal" 2 1 with
  | none => exact Reachable.fresh
  | some o => exact Reachable.correct 1 "Chelsea" "Arsenal" 2 1 Reachable.fresh h

theorem playedCountUpTo_eq (week : Int) (n : String) (ms : List Match)
    (h : ∀ m ∈ ms, m.Played = true → m.Week ≤ week) :
    playedCountUpTo week n ms = playedCount n ms := by
  unfold playedCountUpTo playedCount
  congr 1
  apply List.countP_congr
  intro m hm
  by_cases hpl : m.Played = true
  · simp [hpl, h m hm hpl]
  · simp [hpl]

/-- C9, amended: in every league state reachable from `NewLeague` by round advances,
completed match corrections and standings queries, every team's `Played` equals the
number of matches involving that team (as home or away) that have `Played = true`,
whatever their week; that number is the count restricted to `Week <= CurrentWeek`
whenever no match of a later week is played. -/
theorem reachable_played_equals_played_matches (l : League) (hr : Reachable l) :
    ∀ p ∈ l.Teams,
      (l.heap p).Stats.Played = playedCount (l.heap p).Name l.Matches ∧
      ((∀ m ∈ l.Matches, m.Played = true → m.Week ≤ l.CurrentWeek) →
        (l.heap p).Stats.Played =
          playedCountUpTo l.CurrentWeek (l.heap p).Name l.Matches) := by
  intro p hp
  have hs := reachable_shape l hr
  have h1 : (l.heap p).Stats.Played = playedCount (l.heap p).Name l.Matches := by
    rw [hs.names p]
    exact reachable_played_count l hr p (hs.teams.mem_iff.mp hp)
  refine ⟨h1, fun hall => ?_⟩
  rw [playedCountUpTo_eq _ _ _ hall]
  exact h1

/-- Instance of the amended C9: the league after week one and a correction. -/
theorem reachable_played_equals_played_matches_witness :
    Reachable afterWeekOneCorrected ∧
    ∀ p ∈ afterWeekOneCorrected.Teams,
      (afterWeekOneCorrected.heap p).Stats.Played =
        playedCount (afterWeekOneCorrected.heap p).Name afterWeekOneCorrected.Matches :=
  ⟨afterWeekOneCorrected_reachable, fun p hp =>
    (reachable_played_equals_played_matches afterWeekOneCorrected
      afterWeekOneCorrected_reachable p hp).1⟩

/-! ## The round counter -/

/-- C15: in every league state reachable from `NewLeague` the round counter satisfies
`0 <= CurrentWeek <= TotalWeeks`, and every `PlayNextWeek` that returns no error, on any
league, increases `CurrentWeek` by exactly 1. -/
theorem round_counter_range_and_step :
    (∀ l : League, Reachable l → 0 ≤ l.CurrentWeek ∧ l.CurrentWeek ≤ l.TotalWeeks) ∧
    (∀ (l : League) (rng : Rng) (o : Outcome) (rng2 : Rng),
      PlayNextWeek l rng = some (o, rng2) → o.err = none →
      o.league.CurrentWeek = l.CurrentWeek + 1) := by
  constructor
  · intro l hr
    have hs := reachable_shape l hr
    have h1 := hs.week
    have h2 := hs.total
    omega
  · intro l rng o rng2 hstep herr
    rcases PlayNextWeek_inv l rng o rng2 hstep with ⟨_, e, _⟩ | ⟨_, ms, h, _, e⟩
    · rw [e] at herr; cases herr
    · rw [e]
      exact (updateStrengths_readjusted _).2.1

/-- Instance of C15: the first round of the fresh league. -/
theorem round_counter_range_and_step_witness :
    (0 ≤ afterWeekOne.CurrentWeek ∧ afterWeekOne.CurrentWeek ≤ afterWeekOne.TotalWeeks) ∧
    ∃ o rng2, PlayNextWeek NewLeague fifths = some (o, rng2) ∧ o.err = none ∧
      o.league.CurrentWeek = NewLeague.CurrentWeek + 1 := by
  refine ⟨round_counter_range_and_step.1 afterWeekOne afterWeekOne_reachable, ?_⟩
  obtain ⟨o, rng2, h1, h2, _, _⟩ :=
    PlayNextWeek_succeeds NewLeague fifths NewLeague_shape (by decide)
  exact ⟨o, rng2, h1, h2, round_counter_range_and_step.2 NewLeague fifths o rng2 h1 h2⟩

/-! ## The fixture list -/

/-- C16: the fixture list built by `NewLeague` through `generateFixtures` has
`TotalWeeks * MatchesPerWeek = 12` matches, all with `Played = false`, no two with the
same `(Week, HomeTeam, AwayTeam)`, and in each week 1 to 6 each of the four teams
appears in exactly one match. -/
theorem fixture_list_shape :
    NewLeague.Matches = generateFixtures [] ∧
    ((generateFixtures []).length : Int) = NewLeague.TotalWeeks * NewLeague.MatchesPerWeek ∧
    (generateFixtures []).length = 12 ∧
    (∀ m ∈ generateFixtures [], m.Played = false) ∧
    ((generateFixtures []).map matchKey).Nodup ∧
    (∀ w ∈ [(1 : Int), 2, 3, 4, 5, 6], ∀ p ∈ NewLeague.Teams,
      ((generateFixtures []).filter
        (fun m => decide (m.Week = w) && involves (NewLeague.heap p).Name m)).length = 1) := by
  refine ⟨rfl, by decide, by decide, by decide, by decide, by decide⟩

/-! ## The match outcome simulator -/

theorem foldl_goals_bounds (step : Int × Int → Nat → Int × Int)
    (hstep : ∀ g i, g.1 ≤ (step g i).1 ∧ (step g i).1 ≤ g.1 + 1 ∧
      g.2 ≤ (step g i).2 ∧ (step g i).2 ≤ g.2 + 1)
    (is : List Nat) (g : Int × Int) :
    g.1 ≤ (is.foldl step g).1 ∧ (is.foldl step g).1 ≤ g.1 + is.length ∧
    g.2 ≤ (is.foldl step g).2 ∧ (is.foldl step g).2 ≤ g.2 + is.length := by
  induction is generalizing g with
  | nil => simp
  | cons i rest ih =>
    have h1 := hstep g i
    have h2 := ih (step g i)
    simp only [List.foldl_cons, List.length_cons, Nat.cast_add, Nat.cast_one]
    omega

theorem six_rounds_goals_bounds (step : Int × Int → Nat → Int × Int)
    (hstep : ∀ g i, g.1 ≤ (step g i).1 ∧ (step g i).1 ≤ g.1 + 1 ∧
      g.2 ≤ (step g i).2 ∧ (step g i).2 ≤ g.2 + 1) :
    0 ≤ ((List.range 6).foldl step (0, 0)).1 ∧ ((List.range 6).foldl step (0, 0)).1 ≤ 6 ∧
    0 ≤ ((List.range 6).foldl step (0, 0)).2 ∧ ((List.range 6).foldl step (0, 0)).2 ≤ 6 := by
  have hb := foldl_goals_bounds step hstep (List.range 6) (0, 0)
  simp only [List.length_range] at hb
  refine ⟨hb.1, ?_, hb.2.2.1, ?_⟩
  · have := hb.2.1; simpa using this
  · have := hb.2.2.2; simpa using this

/-- C17: for all home and away strengths in `[1, 100]` and every random stream,
`simulateMatchResult` returns goals with `0 <= homeGoals <= 6` and `0 <= awayGoals <= 6`,
and the strength total it divides by is not zero. -/
theorem simulateMatchResult_goals_bounded (homeTeam awayTeam : Team) (rng : Rng)
    (hh : 1 ≤ homeTeam.Strength ∧ homeTeam.Strength ≤ 100)
    (ha : 1 ≤ awayTeam.Strength ∧ awayTeam.Strength ≤ 100) :
    0 ≤ (simulateMatchResult homeTeam awayTeam rng).1 ∧
    (simulateMatchResult homeTeam awayTeam rng).1 ≤ 6 ∧
    0 ≤ (simulateMatchResult homeTeam awayTeam rng).2.1 ∧
    (simulateMatchResult homeTeam awayTeam rng).2.1 ≤ 6 ∧
    homeTeam.Strength + 5 + awayTeam.Strength ≠ 0 := by
  have hne : homeTeam.Strength + 5 + awayTeam.Strength ≠ 0 := by omega
  suffices h : 0 ≤ (simulateMatchResult homeTeam awayTeam rng).1 ∧
      (simulateMatchResult homeTeam awayTeam rng).1 ≤ 6 ∧
      0 ≤ (simulateMatchResult homeTeam awayTeam rng).2.1 ∧
      (simulateMatchResult homeTeam awayTeam rng).2.1 ≤ 6 from
    ⟨h.1, h.2.1, h.2.2.1, h.2.2.2, hne⟩
  unfold simulateMatchResult
  dsimp only
  apply six_rounds_goals_bounds
  intro g i
  dsimp only
  split_ifs <;> simp

/-- Instance of C17: Manchester City at home to Liverpool in the fresh league. -/
theorem simulateMatchResult_goals_bounded_witness :
    0 ≤ (simulateMatchResult (initialHeap 2) (initialHeap 3) fifths).1 ∧
    (simulateMatchResult (initialHeap 2) (initialHeap 3) fifths).1 ≤ 6 ∧
    0 ≤ (simulateMatchResult (initialHeap 2) (initialHeap 3) fifths).2.1 ∧
    (simulateMatchResult (initialHeap 2) (initialHeap 3) fifths).2.1 ≤ 6 ∧
    (initialHeap 2).Strength + 5 + (initialHeap 3).Strength ≠ 0 :=
  simulateMatchResult_goals_bounded (initialHeap 2) (initialHeap 3) fifths
    (by decide) (by decide)

/-! ## The strength adapter: what it writes -/

theorem limitStrength_in_range (s b : Int) (hb : 1 ≤ b ∧ b ≤ 100) :
    1 ≤ limitStrength s b ∧ limitStrength s b ≤ 100 ∧
    b - 15 ≤ limitStrength s b ∧ limitStrength s b ≤ b + 15 := by
  unfold limitStrength
  dsimp only
  split_ifs <;> omega

/-- With matches played, the team object is rewritten with the limited sum of its old
strength, the performance change and the position change; nothing else changes in it. -/
theorem UpdateTeamStrength_written (l : League) (p : Nat) (hpl : (l.heap p).Stats.Played ≠ 0) :
    (UpdateTeamStrength l p).heap p =
      { l.heap p with Strength := (limitStrength
          ((l.heap p).Strength + (performanceChange (pointsPerGame (l.heap p)) +
            positionChange (getTeamPosition l (l.heap p).Name).2))
          (l.heap p).BaseStrength) } := by
  unfold UpdateTeamStrength
  simp only [hpl, if_false]
  simp [store, getTeamPosition, GetTable, pointsPerGame]

theorem UpdateTeamStrength_other (l : League) (p q : Nat) (hq : q ≠ p) :
    (UpdateTeamStrength l p).heap q = l.heap q := by
  unfold UpdateTeamStrength
  by_cases hpl : (l.heap p).Stats.Played = 0
  · simp only [hpl, if_true]
  · simp only [hpl, if_false]
    simp [store, hq, getTeamPosition, GetTable]

theorem UpdateStats_ratings (t : Team) (gf ga : Int) (r : String) :
    (UpdateStats t gf ga r).Strength = t.Strength ∧
    (UpdateStats t gf ga r).BaseStrength = t.BaseStrength := by
  unfold UpdateStats; split_ifs <;> exact ⟨rfl, rfl⟩

theorem reverseMatchResult_ratings (t : Team) (gf ga : Int) :
    (reverseMatchResult t gf ga).Strength = t.Strength ∧
    (reverseMatchResult t gf ga).BaseStrength = t.BaseStrength := by
  unfold reverseMatchResult; split_ifs <;> exact ⟨rfl, rfl⟩

theorem store_ratingsOk (h : Heap) (p : Nat) (t : Team) (hh : RatingsOk h)
    (ht : t.Strength = (h p).Strength ∧ t.BaseStrength = (h p).BaseStrength) :
    RatingsOk (store h p t) := by
  intro q
  by_cases hq : q = p
  · subst hq
    rw [store_same]
    unfold StrengthInRange
    rw [ht.1, ht.2]
    exact hh q
  · rw [store_other h p q t hq]; exact hh q

theorem applyResult_ratingsOk (h : Heap) (hp ap : Nat) (hg ag : Int) (hh : RatingsOk h) :
    RatingsOk (applyResult h hp ap hg ag) := by
  unfold applyResult
  split_ifs <;>
    exact store_ratingsOk _ ap _ (store_ratingsOk h hp _ hh (UpdateStats_ratings _ _ _ _))
      (UpdateStats_ratings _ _ _ _)

theorem retractResult_ratingsOk (h : Heap) (hp ap : Nat) (hg ag : Int) (hh : RatingsOk h) :
    RatingsOk (retractResult h hp ap hg ag) := by
  unfold retractResult
  exact store_ratingsOk _ ap _ (store_ratingsOk h hp _ hh (reverseMatchResult_ratings _ _ _))
    (reverseMatchResult_ratings _ _ _)

theorem UpdateTeamStrength_ratingsOk (l : League) (p : Nat) (hh : RatingsOk l.heap) :
    RatingsOk (UpdateTeamStrength l p).heap := by
  intro q
  by_cases hq : q = p
  · subst hq
    by_cases hpl : (l.heap q).Stats.Played = 0
    · have e : UpdateTeamStrength l q = l := by
        unfold UpdateTeamStrength; simp only [hpl, if_true]
      rw [e]; exact hh q
    · rw [UpdateTeamStrength_written l q hpl]
      refine ⟨(hh q).1, fun hb => ?_⟩
      exact limitStrength_in_range _ _ hb
  · rw [UpdateTeamStrength_other l p q hq]; exact hh q

/-- A league property kept by every strength adjustment is kept by the strength loop. -/
theorem updateStrengths_keeps (P : League → Prop)
    (hP : ∀ acc team, P acc → P (UpdateTeamStrength acc team)) (l : League) (hl : P l) :
    P (updateStrengths l) := by
  unfold updateStrengths
  generalize List.range l.Teams.length = is
  induction is generalizing l with
  | nil => exact hl
  | cons i rest ih =>
    simp only [List.foldl_cons]
    apply ih
    cases l.Teams.get? i with
    | none => exact hl
    | some team => exact hP l team hl

theorem initialHeap_ratingsOk : RatingsOk initialHeap := by
  intro p
  refine ⟨rfl, ?_⟩
  unfold initialHeap StrengthInRange
  split <;> simp

theorem reachable_ratingsOk (l : League) (hr : Reachable l) : RatingsOk l.heap := by
  induction hr with
  | fresh => exact initialHeap_ratingsOk
  | @advance l rng o rng2 _ hstep ih =>
    rcases PlayNextWeek_inv l rng o rng2 hstep with ⟨_, e, _⟩ | ⟨_, ms, h, hpw, e⟩
    · rw [e]; exact ih
    · rw [e]
      apply updateStrengths_keeps (fun l2 => RatingsOk l2.heap)
        (fun acc team hacc => UpdateTeamStrength_ratingsOk acc team hacc)
      exact playWeekMatches_heap RatingsOk
        (fun h2 hp ap hg ag hq => applyResult_ratingsOk h2 hp ap hg ag hq)
        l.Teams (l.CurrentWeek + 1) l.Matches l.heap rng ms h rng2 hpw ih
  | @correct l week home away hg ag o _ hstep ih =>
    rcases editMatchResult_inv l week home away hg ag o hstep with
      e | ⟨pre, m, post, hp, ap, _, _, _, _, e⟩
    · rw [e]; exact ih
    · rw [e]
      apply applyResult_ratingsOk
      split_ifs
      · exact retractResult_ratingsOk _ _ _ _ _ ih
      · exact ih
  | @table l _ ih => exact ih

theorem initialHeap_base_range :
    ∀ p ∈ [0, 1, 2, 3], 1 ≤ (initialHeap p).BaseStrength ∧ (initialHeap p).BaseStrength ≤ 100 := by
  decide

/-- C14: in every league state reachable from `NewLeague`, every team's `Strength` lies in
`[1, 100]` and in `[BaseStrength - 15, BaseStrength + 15]`; and for every team with
`Played > 0` and `BaseStrength` in `[1, 100]`, in any league, the `Strength` written by
`UpdateTeamStrength` lies in both ranges whatever the previous `Strength` was. -/
theorem strength_stays_in_range :
    (∀ l : League, Reachable l → ∀ p ∈ l.Teams, StrengthInRange (l.heap p)) ∧
    (∀ (l : League) (p : Nat), (l.heap p).Stats.Played > 0 →
      1 ≤ (l.heap p).BaseStrength → (l.heap p).BaseStrength ≤ 100 →
      StrengthInRange ((UpdateTeamStrength l p).heap p) ∧
      ((UpdateTeamStrength l p).heap p).BaseStrength = (l.heap p).BaseStrength) := by
  constructor
  · intro l hr p hp
    have hs := reachable_shape l hr
    have hmem : p ∈ [0, 1, 2, 3] := hs.teams.mem_iff.mp hp
    have hok := reachable_ratingsOk l hr p
    apply hok.2
    rw [hok.1]
    exact initialHeap_base_range p hmem
  · intro l p hpl hb1 hb2
    have hne : (l.heap p).Stats.Played ≠ 0 := by omega
    rw [UpdateTeamStrength_written l p hne]
    exact ⟨limitStrength_in_range _ _ ⟨hb1, hb2⟩, rfl⟩

/-- Instance of C14: the league after week one and a correction, and the adjustment of
Chelsea right after the first week's matches. -/
theorem strength_stays_in_range_witness :
    (∀ p ∈ afterWeekOneCorrected.Teams, StrengthInRange (afterWeekOneCorrected.heap p)) ∧
    StrengthInRange ((UpdateTeamStrength weekOneResolved 0).heap 0) :=
  ⟨strength_stays_in_range.1 afterWeekOneCorrected afterWeekOneCorrected_reachable,
    (strength_stays_in_range.2 weekOneResolved 0 (by decide!) (by decide!) (by decide!)).1⟩

/-! ## The strength adapter: the performance bands -/

/-- C18, as stated, fails: at one point per game the chain in the order of the
specification stops at the band `<= 1.5` and gives `-1`, while the code gives `-2`.
Chelsea after the first week's matches (one point from one match, second in the table,
strength 80) is written 78 by `UpdateTeamStrength`, not the 79 of the stated order. -/
theorem bands_in_stated_order_differ :
    pointsPerGame (weekOneResolved.heap 0) = 1 ∧
    (getTeamPosition weekOneResolved (weekOneResolved.heap 0).Name).2 = 2 ∧
    performanceChange 1 = -2 ∧ specBandChain 1 = -1 ∧
    ((UpdateTeamStrength weekOneResolved 0).heap 0).Strength = 78 ∧
    limitStrength ((weekOneResolved.heap 0).Strength + (specBandChain 1 + positionChange 2))
      (weekOneResolved.heap 0).BaseStrength = 79 := by
  refine ⟨by decide!, by decide!, by decide!, by decide!, by decide!, by decide!⟩

/-- C18, amended: for every team with `Played > 0`, `UpdateTeamStrength` writes the
limited sum of the old strength, a performance part and a position part.  The
performance part is the chain in the order of the code, where the band `<= 1.0` is
tested before the band `<= 1.5`: `+2` if points per game `>= 2.5`; else `+1` if `>= 2.0`;
else `-2` if `<= 1.0`; else `-1` if `<= 1.5`; else `0`.  It equals the chain in the
order of the specification exactly when points per game exceed `1.0`.  The position
part is `+1` for position 1, `-1` for position 4 and `0` otherwise. -/
theorem strength_delta_bands (l : League) (p : Nat) (hpl : (l.heap p).Stats.Played > 0) :
    ∃ perf pos : Int,
      ((UpdateTeamStrength l p).heap p).Strength =
        limitStrength ((l.heap p).Strength + (perf + pos)) (l.heap p).BaseStrength ∧
      (pointsPerGame (l.heap p) ≥ 5 / 2 → perf = 2) ∧
      (pointsPerGame (l.heap p) < 5 / 2 → pointsPerGame (l.heap p) ≥ 2 → perf = 1) ∧
      (pointsPerGame (l.heap p) ≤ 1 → perf = -2) ∧
      (1 < pointsPerGame (l.heap p) → pointsPerGame (l.heap p) ≤ 3 / 2 → perf = -1) ∧
      (3 / 2 < pointsPerGame (l.heap p) → pointsPerGame (l.heap p) < 2 → perf = 0) ∧
      (perf = specBandChain (pointsPerGame (l.heap p)) ↔ 1 < pointsPerGame (l.heap p)) ∧
      ((getTeamPosition l (l.heap p).Name).2 = 1 → pos = 1) ∧
      ((getTeamPosition l (l.heap p).Name).2 = 4 → pos = -1) ∧
      ((getTeamPosition l (l.heap p).Name).2 ≠ 1 →
        (getTeamPosition l (l.heap p).Name).2 ≠ 4 → pos = 0) := by
  have hne : (l.heap p).Stats.Played ≠ 0 := by omega
  refine ⟨performanceChange (pointsPerGame (l.heap p)),
    positionChange (getTeamPosition l (l.heap p).Name).2, ?_, ?_, ?_, ?_, ?_, ?_, ?_, ?_, ?_, ?_⟩
  · rw [UpdateTeamStrength_written l p hne]
  · intro h1
    simp [performanceChange, h1]
  · intro h1 h2
    simp [performanceChange, not_le.mpr h1, h2]
  · intro h1
    have h2 : ¬ pointsPerGame (l.heap p) ≥ 5 / 2 := by
      intro h; linarith
    have h3 : ¬ pointsPerGame (l.heap p) ≥ 2 := by
      intro h; linarith
    simp [performanceChange, h1, h2, h3]
  · intro h1 h2
    have h3 : ¬ pointsPerGame (l.heap p) ≥ 5 / 2 := by
      intro h; linarith
    have h4 : ¬ pointsPerGame (l.heap p) ≥ 2 := by
      intro h; linarith
    simp [performanceChange, h2, h3, h4, not_le.mpr h1]
  · intro h1 h2
    have h3 : ¬ pointsPerGame (l.heap p) ≥ 5 / 2 := by
      intro h; linarith
    have h4 : ¬ pointsPerGame (l.heap p) ≤ 1 := by
      intro h; linarith
    simp [performanceChange, not_le.mpr h2, h3, h4, not_le.mpr h1]
  · unfold performanceChange specBandChain
    constructor
    · intro h
      by_contra hle
      have h1 : pointsPerGame (l.heap p) ≤ 1 := not_lt.mp hle
      have h2 : ¬ pointsPerGame (l.heap p) ≥ 5 / 2 := by
        intro h; linarith
      have h3 : ¬ pointsPerGame (l.heap p) ≥ 2 := by
        intro h; linarith
      have h4 : pointsPerGame (l.heap p) ≤ 3 / 2 := by linarith
      simp [h1, h2, h3, h4] at h
    · intro h
      have h1 : ¬ pointsPerGame (l.heap p) ≤ 1 := not_le.mpr h
      split_ifs <;> rfl
  · intro h; simp [positionChange, h]
  · intro h; simp [positionChange, h]
  · intro h1 h2; simp [positionChange, h1, h2]

/-- Instance of the amended C18: Chelsea right after the first week's matches. -/
theorem strength_delta_bands_witness :
    ∃ perf pos : Int,
      ((UpdateTeamStrength weekOneResolved 0).heap 0).Strength =
        limitStrength ((weekOneResolved.heap 0).Strength + (perf + pos))
          (weekOneResolved.heap 0).BaseStrength ∧
      perf = -2 := by
  obtain ⟨perf, pos, h1, _, _, h4, _⟩ := strength_delta_bands weekOneResolved 0 (by decide!)
  exact ⟨perf, pos, h1, h4 (by
    have e : pointsPerGame (weekOneResolved.heap 0) = 1 := by decide!
    rw [e])⟩

/-! ## Standings calculator: ties -/

theorem sinkLeft_filter {α : Type} (less : α → α → Bool) (P : α → Bool)
    (hP : ∀ a b, P a = true → P b = true → less a b = false) (x : α) (l : List α) :
    (sinkLeft less x l).filter P = (x :: l).filter P := by
  induction l with
  | nil => rfl
  | cons y rest ih =>
    unfold sinkLeft
    by_cases hxy : less x y = true
    · rw [if_pos hxy]
      by_cases hx : P x = true
      · have hy : P y = false := by
          cases hpy : P y with
          | false => rfl
          | true => rw [hP x y hx hpy] at hxy; cases hxy
        rw [List.filter_cons_of_neg (by simp [hy]), ih]
        simp [List.filter_cons, hx, hy]
      · have hx2 : P x = false := by simpa using hx
        have ih2 : (sinkLeft less x rest).filter P = rest.filter P := by
          rw [ih]; simp [List.filter_cons, hx2]
        simp [List.filter_cons, hx2, ih2]
    · rw [if_neg hxy]

theorem foldl_sinkLeft_filter {α : Type} (less : α → α → Bool) (P : α → Bool)
    (hP : ∀ a b, P a = true → P b = true → less a b = false) (xs acc : List α) :
    (xs.foldl (fun sortedRev x => sinkLeft less x sortedRev) acc).filter P =
      (xs.reverse ++ acc).filter P := by
  induction xs generalizing acc with
  | nil => simp
  | cons x rest ih =>
    simp only [List.foldl_cons, List.reverse_cons, List.append_assoc, List.singleton_append]
    rw [ih, List.filter_append, List.filter_append, sinkLeft_filter less P hP]

/-- The insertion sort keeps the order among elements none of which is `less` than
another. -/
theorem sortSlice_filter {α : Type} (less : α → α → Bool) (P : α → Bool)
    (hP : ∀ a b, P a = true → P b = true → less a b = false) (xs : List α) :
    (sortSlice less xs).filter P = xs.filter P := by
  unfold sortSlice
  rw [List.filter_reverse, foldl_sinkLeft_filter less P hP]
  simp [List.filter_reverse]

theorem tableLess_same_key (a b : Team) (h : tripleOf a = tripleOf b) :
    tableLess a b = false := by
  unfold tripleOf at h
  simp only [Prod.mk.injEq] at h
  unfold tableLess
  simp [h.1, h.2.1, h.2.2]

/-- Ties within the insertion-sort range.  On a `Teams` slice of at most twelve elements,
where `sort.Slice` is the insertion sort of this embedding (the league of `NewLeague` has
four teams), the teams with any given `(Points, GoalDiff, GoalsFor)` appear in the table
in the order they had in storage.  Longer slices take other paths of the library sort,
which this embedding does not model; nothing is stated about them. -/
theorem GetTable_short_slice_keeps_ties (l : League) (_hlen : l.Teams.length ≤ 12) :
    (∀ key : Int × Int × Int,
      (GetTable l).2.filter (fun p => decide (tripleOf (l.heap p) = key)) =
        l.Teams.filter (fun p => decide (tripleOf (l.heap p) = key))) ∧
    (∀ p q, tripleOf (l.heap p) = tripleOf (l.heap q) →
      List.Sublist [p, q] l.Teams → List.Sublist [p, q] (GetTable l).2) := by
  have hfilter : ∀ key : Int × Int × Int,
      (GetTable l).2.filter (fun p => decide (tripleOf (l.heap p) = key)) =
        l.Teams.filter (fun p => decide (tripleOf (l.heap p) = key)) := by
    intro key
    apply sortSlice_filter
    intro a b ha hb
    apply tableLess_same_key
    rw [of_decide_eq_true ha, of_decide_eq_true hb]
  refine ⟨hfilter, ?_⟩
  intro p q hpq hsub
  have h1 := hsub.filter (fun r => decide (tripleOf (l.heap r) = tripleOf (l.heap q)))
  rw [← hfilter] at h1
  have h2 : [p, q].filter (fun r => decide (tripleOf (l.heap r) = tripleOf (l.heap q))) =
      [p, q] := by
    simp [List.filter_cons, hpq]
  rw [h2] at h1
  exact h1.trans (List.filter_sublist _)

/-- Five teams of which the second and the fourth have equal keys. -/
theorem GetTable_short_slice_keeps_ties_example :
    fiveTeams.Teams.length ≤ 12 ∧ (GetTable fiveTeams).2 = [1, 3, 4, 2, 0] ∧
    List.Sublist [1, 3] (GetTable fiveTeams).2 :=
  ⟨by decide, by decide,
    (GetTable_short_slice_keeps_ties fiveTeams (by decide)).2 1 3 (by decide) (by decide)⟩

/-! ## League-wide conservation -/

theorem cellTotal_store_absent (f : Team → Int) (h : Heap) (a : Nat) (t : Team)
    (cells : List Nat) (ha : a ∉ cells) :
    cellTotal f (store h a t) cells = cellTotal f h cells := by
  unfold cellTotal
  congr 1
  apply List.map_congr_left
  intro p hp
  have hne : p ≠ a := fun e => ha (e ▸ hp)
  rw [store_other h a p t hne]

theorem cellTotal_store (f : Team → Int) (h : Heap) (a : Nat) (t : Team)
    (cells : List Nat) (hnd : cells.Nodup) (ha : a ∈ cells) :
    cellTotal f (store h a t) cells = cellTotal f h cells + (f t - f (h a)) := by
  induction cells with
  | nil => cases ha
  | cons x rest ih =>
    rw [List.nodup_cons] at hnd
    have hcons : ∀ g : Heap, cellTotal f g (x :: rest) = f (g x) + cellTotal f g rest := by
      intro g; simp [cellTotal]
    rw [hcons, hcons]
    by_cases hx : x = a
    · subst hx
      rw [store_same, cellTotal_store_absent f h x t rest hnd.1]
      ring
    · have ha2 : a ∈ rest := by
        rcases List.mem_cons.mp ha with e | e
        · exact absurd e.symm hx
        · exact e
      rw [store_other h a x t hx, ih hnd.2 ha2]
      ring

/-- Effect on a total of writing two different team objects of the list. -/
theorem cellTotal_two (f : Team → Int) (h : Heap) (hp ap : Nat) (t1 t2 : Team)
    (cells : List Nat) (hnd : cells.Nodup) (hhp : hp ∈ cells) (hap : ap ∈ cells)
    (hne : hp ≠ ap) :
    cellTotal f (store (store h hp t1) ap t2) cells =
      cellTotal f h cells + (f t1 - f (h hp)) + (f t2 - f (h ap)) := by
  rw [cellTotal_store f _ ap t2 cells hnd hap, cellTotal_store f h hp t1 cells hnd hhp,
    store_other h hp ap t1 (fun e => hne e.symm)]

theorem UpdateStats_goalBalance (t : Team) (gf ga : Int) (r : String) :
    (goalBalance (UpdateStats t gf ga r) - (goalBalance t + (gf - ga))) %
      18446744073709551616 = 0 := by
  unfold UpdateStats goalBalance
  split_ifs <;> simp <;> unfold wrap64 <;> omega

theorem reverseMatchResult_goalBalance (t : Team) (gf ga : Int) :
    (goalBalance (reverseMatchResult t gf ga) - (goalBalance t - (gf - ga))) %
      18446744073709551616 = 0 := by
  unfold reverseMatchResult goalBalance
  split_ifs <;> simp <;> unfold wrap64 <;> omega

theorem applyResult_balanced (h : Heap) (hp ap : Nat) (hg ag : Int)
    (hhp : hp ∈ [0, 1, 2, 3]) (hap : ap ∈ [0, 1, 2, 3]) (hne : hp ≠ ap) (hb : Balanced h) :
    Balanced (applyResult h hp ap hg ag) := by
  have hnd : [0, 1, 2, 3].Nodup := by decide
  have hne2 : ap ≠ hp := fun e => hne e.symm
  obtain ⟨b1, b2, b3⟩ := hb
  unfold applyResult
  split_ifs with c1 c2
  · refine ⟨?_, ?_, ?_⟩
    · have g1 := UpdateStats_goalBalance (h hp) hg ag "W"
      have g2 := UpdateStats_goalBalance (h ap) ag hg "L"
      rw [cellTotal_two goalBalance h hp ap _ _ _ hnd hhp hap hne, store_other h hp ap _ hne2]
      omega
    · rw [cellTotal_two resultBalance h hp ap _ _ _ hnd hhp hap hne, store_other h hp ap _ hne2]
      simp only [UpdateStats, resultBalance]
      simp
      unfold wrap64
      omega
    · rw [cellTotal_two (fun t => t.Stats.Drawn) h hp ap _ _ _ hnd hhp hap hne,
        store_other h hp ap _ hne2]
      simp only [UpdateStats]
      simp
      exact b3
  · refine ⟨?_, ?_, ?_⟩
    · have g1 := UpdateStats_goalBalance (h hp) hg ag "L"
      have g2 := UpdateStats_goalBalance (h ap) ag hg "W"
      rw [cellTotal_two goalBalance h hp ap _ _ _ hnd hhp hap hne, store_other h hp ap _ hne2]
      omega
    · rw [cellTotal_two resultBalance h hp ap _ _ _ hnd hhp hap hne, store_other h hp ap _ hne2]
      simp only [UpdateStats, resultBalance]
      simp
      unfold wrap64
      omega
    · rw [cellTotal_two (fun t => t.Stats.Drawn) h hp ap _ _ _ hnd hhp hap hne,
        store_other h hp ap _ hne2]
      simp only [UpdateStats]
      simp
      exact b3
  · refine ⟨?_, ?_, ?_⟩
    · have g1 := UpdateStats_goalBalance (h hp) hg ag "D"
      have g2 := UpdateStats_goalBalance (h ap) ag hg "D"
      rw [cellTotal_two goalBalance h hp ap _ _ _ hnd hhp hap hne, store_other h hp ap _ hne2]
      omega
    · rw [cellTotal_two resultBalance h hp ap _ _ _ hnd hhp hap hne, store_other h hp ap _ hne2]
      simp only [UpdateStats, resultBalance]
      simp
      omega
    · rw [cellTotal_two (fun t => t.Stats.Drawn) h hp ap _ _ _ hnd hhp hap hne,
        store_other h hp ap _ hne2]
      simp only [UpdateStats]
      simp
      unfold wrap64
      omega

theorem retractResult_balanced (h : Heap) (hp ap : Nat) (hg ag : Int)
    (hhp : hp ∈ [0, 1, 2, 3]) (hap : ap ∈ [0, 1, 2, 3]) (hne : hp ≠ ap) (hb : Balanced h) :
    Balanced (retractResult h hp ap hg ag) := by
  have hnd : [0, 1, 2, 3].Nodup := by decide
  have hne2 : ap ≠ hp := fun e => hne e.symm
  obtain ⟨b1, b2, b3⟩ := hb
  unfold retractResult
  refine ⟨?_, ?_, ?_⟩
  · have g1 := reverseMatchResult_goalBalance (h hp) hg ag
    have g2 := reverseMatchResult_goalBalance (h ap) ag hg
    rw [cellTotal_two goalBalance h hp ap _ _ _ hnd hhp hap hne, store_other h hp ap _ hne2]
    omega
  · rw [cellTotal_two resultBalance h hp ap _ _ _ hnd hhp hap hne, store_other h hp ap _ hne2]
    simp only [reverseMatchResult, resultBalance]
    split_ifs <;> simp <;> (try unfold wrap64) <;> omega
  · rw [cellTotal_two (fun t => t.Stats.Drawn) h hp ap _ _ _ hnd hhp hap hne,
      store_other h hp ap _ hne2]
    simp only [reverseMatchResult]
    split_ifs <;> simp <;> (try unfold wrap64) <;> omega

/-- A heap property kept by every score application between two resolved teams of a
listed match is kept by the match loop. -/
theorem playWeekMatches_heap_resolved (Q : Heap → Prop) (teams : List Nat) (week : Int)
    (ms : List Match) :
    ∀ (h : Heap) (rng : Rng) (ms2 : List Match) (h2 : Heap) (rng2 : Rng),
      (∀ h1 m hp ap hg ag, m ∈ ms → findTeam h1 m.HomeTeam teams = some hp →
        findTeam h1 m.AwayTeam teams = some ap → Q h1 → Q (applyResult h1 hp ap hg ag)) →
      playWeekMatches teams week ms h rng = some (ms2, h2, rng2) → Q h → Q h2 := by
  induction ms with
  | nil =>
    intro h rng ms2 h2 rng2 _ hr hq
    simp only [playWeekMatches, Option.some.injEq, Prod.mk.injEq] at hr
    rw [← hr.2.1]; exact hq
  | cons m rest ih =>
    intro h rng ms2 h2 rng2 hQ hr hq
    obtain ⟨m1, h1, rng1, ms1, _, hrest, hstep⟩ :=
      playWeekMatches_cons_inv teams week m rest h rng ms2 h2 rng2 hr
    have hQrest : ∀ h1 x hp ap hg ag, x ∈ rest → findTeam h1 x.HomeTeam teams = some hp →
        findTeam h1 x.AwayTeam teams = some ap → Q h1 → Q (applyResult h1 hp ap hg ag) :=
      fun h1 x hp ap hg ag hx => hQ h1 x hp ap hg ag (List.mem_cons_of_mem _ hx)
    rcases hstep with ⟨_, _, hp, ap, hg, ag, eh, ea, _, e⟩ | ⟨_, _, e⟩
    · exact ih h1 rng1 ms1 h2 rng2 hQrest hrest
        (e ▸ hQ h m hp ap hg ag (List.mem_cons_self _ _) eh ea hq)
    · exact ih h1 rng1 ms1 h2 rng2 hQrest hrest (e ▸ hq)

/-- With the fixed names and pointers, the two teams of a match with a fixture key are
two different objects among the four. -/
theorem resolved_distinct (h : Heap) (teams : List Nat) (m : Match) (hp ap : Nat)
    (hn : SameNames initialHeap h) (ht : teams.Perm [0, 1, 2, 3])
    (hk : keyOk (matchKey m) = true)
    (eh : findTeam h m.HomeTeam teams = some hp) (ea : findTeam h m.AwayTeam teams = some ap) :
    hp ∈ [0, 1, 2, 3] ∧ ap ∈ [0, 1, 2, 3] ∧ hp ≠ ap := by
  have m1 := ht.mem_iff.mp (findTeam_some h _ teams hp eh).2
  have m2 := ht.mem_iff.mp (findTeam_some h _ teams ap ea).2
  obtain ⟨hp2, ap2, t1, t2, hne, _, _⟩ := keyOk_resolve _ hk
  rw [findTeam_shape h teams hn ht] at eh ea
  have t1b : teamAddress m.HomeTeam = some hp2 := t1
  have t2b : teamAddress m.AwayTeam = some ap2 := t2
  have ehp : hp2 = hp := Option.some.inj (t1b.symm.trans eh)
  have eap : ap2 = ap := Option.some.inj (t2b.symm.trans ea)
  subst ehp eap
  exact ⟨m1, m2, hne⟩

theorem StrengthOnly.balanced {h h2 : Heap} (hs : StrengthOnly h h2) (hb : Balanced h) :
    Balanced h2 := by
  have e : ∀ f : TeamStats → Int, cellTotal (fun t => f t.Stats) h2 [0, 1, 2, 3] =
      cellTotal (fun t => f t.Stats) h [0, 1, 2, 3] := by
    intro f
    simp only [cellTotal, List.map_cons, List.map_nil, (hs 0).2.1, (hs 1).2.1, (hs 2).2.1,
      (hs 3).2.1]
  obtain ⟨b1, b2, b3⟩ := hb
  have e1 := e (fun s => s.GoalsFor - s.GoalsAgainst)
  have e2 := e (fun s => s.Won - s.Lost)
  have e3 := e (fun s => s.Drawn)
  refine ⟨?_, ?_, ?_⟩
  · show cellTotal (fun t => t.Stats.GoalsFor - t.Stats.GoalsAgainst) h2 [0, 1, 2, 3] % _ = 0
    rw [e1]; exact b1
  · show cellTotal (fun t => t.Stats.Won - t.Stats.Lost) h2 [0, 1, 2, 3] % _ = 0
    rw [e2]; exact b2
  · rw [e3]; exact b3

theorem reachable_balanced (l : League) (hr : Reachable l) : Balanced l.heap := by
  induction hr with
  | fresh => exact ⟨by decide, by decide, by decide⟩
  | @advance l rng o rng2 hreach hstep ih =>
    rcases PlayNextWeek_inv l rng o rng2 hstep with ⟨_, e, _⟩ | ⟨_, ms, h, hpw, e⟩
    · rw [e]; exact ih
    · rw [e]
      have hs := reachable_shape l hreach
      have hq : SameNames initialHeap h ∧ Balanced h :=
        playWeekMatches_heap_resolved (fun h1 => SameNames initialHeap h1 ∧ Balanced h1)
          l.Teams (l.CurrentWeek + 1) l.Matches l.heap rng ms h rng2
          (fun h1 m hp ap hg ag hm eh ea hq1 => by
            obtain ⟨m1, m2, hne⟩ := resolved_distinct h1 l.Teams m hp ap hq1.1 hs.teams
              (hs.match_ok m hm) eh ea
            exact ⟨hq1.1.andThen (applyResult_sameNames h1 hp ap hg ag),
              applyResult_balanced h1 hp ap hg ag m1 m2 hne hq1.2⟩)
          hpw ⟨hs.names, ih⟩
      exact (updateStrengths_readjusted _).2.2.2.2.2.balanced hq.2
  | @correct l week home away hg ag o hreach hstep ih =>
    rcases editMatchResult_inv l week home away hg ag o hstep with
      e | ⟨pre, m, post, hp, ap, hms, _, eh, ea, e⟩
    · rw [e]; exact ih
    · rw [e]
      have hs := reachable_shape l hreach
      have hmem_m : m ∈ l.Matches := by rw [hms]; simp
      obtain ⟨m1, m2, hne⟩ := resolved_distinct l.heap l.Teams m hp ap hs.names hs.teams
        (hs.match_ok m hmem_m) eh ea
      apply applyResult_balanced _ hp ap hg ag m1 m2 hne
      split_ifs
      · exact retractResult_balanced _ _ _ _ _ m1 m2 hne ih
      · exact ih
  | @table l _ ih => exact ih

theorem teamTotal_eq_cells (f : Team → Int) (l : League) (ht : l.Teams.Perm [0, 1, 2, 3]) :
    teamTotal f l = cellTotal f l.heap [0, 1, 2, 3] := by
  unfold teamTotal cellTotal
  exact (ht.map _).sum_eq

theorem twoHugeWinsByHand_reachable : Reachable twoHugeWinsByHand := by
  have h1 : Reachable oneHugeWinByHand := by
    unfold oneHugeWinByHand
    cases h : editMatchResult NewLeague 1 "Chelsea" "Arsenal" 9223372036854775807 0 with
    | none => exact Reachable.fresh
    | some o =>
      exact Reachable.correct 1 "Chelsea" "Arsenal" 9223372036854775807 0 Reachable.fresh h
  unfold twoHugeWinsByHand
  cases h : editMatchResult oneHugeWinByHand 2 "Liverpool" "Chelsea" 0 9223372036854775807 with
  | none => exact h1
  | some o => exact Reachable.correct 2 "Liverpool" "Chelsea" 0 9223372036854775807 h1 h

/-- C20, as stated, fails: after the corrections Chelsea 9223372036854775807-0 Arsenal
and Liverpool 0-9223372036854775807 Chelsea on the fresh league, Chelsea's `GoalsFor`
has wrapped around to `-2`; summed over the four teams `GoalsFor` is `-2`,
`GoalsAgainst` is `2^64 - 2` and `GoalDiff` is `-2^64`. -/
theorem totals_differ_after_wrap_around :
    Reachable twoHugeWinsByHand ∧
    teamTotal (fun t => t.Stats.GoalsFor) twoHugeWinsByHand = -2 ∧
    teamTotal (fun t => t.Stats.GoalsAgainst) twoHugeWinsByHand = 18446744073709551614 ∧
    teamTotal (fun t => t.Stats.GoalDiff) twoHugeWinsByHand = -18446744073709551616 ∧
    ¬ (teamTotal (fun t => t.Stats.GoalsFor) twoHugeWinsByHand =
        teamTotal (fun t => t.Stats.GoalsAgainst) twoHugeWinsByHand ∧
      teamTotal (fun t => t.Stats.GoalDiff) twoHugeWinsByHand = 0) :=
  ⟨twoHugeWinsByHand_reachable, by decide!, by decide!, by decide!, by decide!⟩

/-- C20, amended: in every league state reachable from `NewLeague` by round advances,
match corrections and standings queries, summed over all teams, total `Won` equals total
`Lost` and total `Drawn` is even; total `GoalsFor` and total `GoalsAgainst` differ by a
multiple of `2^64` and total `GoalDiff` is a multiple of `2^64`; and whenever every
team's `GoalsFor` and `GoalsAgainst` lie between `-2^60` and `2^60`, total `GoalsFor`
equals total `GoalsAgainst` and total `GoalDiff` is 0. -/
theorem reachable_totals_conserved (l : League) (hr : Reachable l) :
    teamTotal (fun t => t.Stats.Won) l = teamTotal (fun t => t.Stats.Lost) l ∧
    Even (teamTotal (fun t => t.Stats.Drawn) l) ∧
    (teamTotal (fun t => t.Stats.GoalsFor) l - teamTotal (fun t => t.Stats.GoalsAgainst) l) %
      18446744073709551616 = 0 ∧
    teamTotal (fun t => t.Stats.GoalDiff) l % 18446744073709551616 = 0 ∧
    ((∀ p ∈ l.Teams,
        (-1152921504606846976 ≤ (l.heap p).Stats.GoalsFor ∧
          (l.heap p).Stats.GoalsFor ≤ 1152921504606846976) ∧
        (-1152921504606846976 ≤ (l.heap p).Stats.GoalsAgainst ∧
          (l.heap p).Stats.GoalsAgainst ≤ 1152921504606846976)) →
      teamTotal (fun t => t.Stats.GoalsFor) l = teamTotal (fun t => t.Stats.GoalsAgainst) l ∧
      teamTotal (fun t => t.Stats.GoalDiff) l = 0) := by
  have hs := reachable_shape l hr
  obtain ⟨b1, b2, b3⟩ := reachable_balanced l hr
  have ht := reachable_tallied l hr
  have hlen : ((l.Matches.length : Nat) : Int) = 12 := by exact_mod_cast hs.matches_length
  have k0 := (ht 0 (by decide)).counters
  have k1 := (ht 1 (by decide)).counters
  have k2 := (ht 2 (by decide)).counters
  have k3 := (ht 3 (by decide)).counters
  have d0 := (ht 0 (by decide)).2.2.2.2.2.2.1
  have d1 := (ht 1 (by decide)).2.2.2.2.2.2.1
  have d2 := (ht 2 (by decide)).2.2.2.2.2.2.1
  have d3 := (ht 3 (by decide)).2.2.2.2.2.2.1
  have c0 := wrap64_congruent ((l.heap 0).Stats.GoalsFor - (l.heap 0).Stats.GoalsAgainst)
  have c1 := wrap64_congruent ((l.heap 1).Stats.GoalsFor - (l.heap 1).Stats.GoalsAgainst)
  have c2 := wrap64_congruent ((l.heap 2).Stats.GoalsFor - (l.heap 2).Stats.GoalsAgainst)
  have c3 := wrap64_congruent ((l.heap 3).Stats.GoalsFor - (l.heap 3).Stats.GoalsAgainst)
  rw [← d0] at c0
  rw [← d1] at c1
  rw [← d2] at c2
  rw [← d3] at c3
  have hbound : (∀ p ∈ l.Teams,
        (-1152921504606846976 ≤ (l.heap p).Stats.GoalsFor ∧
          (l.heap p).Stats.GoalsFor ≤ 1152921504606846976) ∧
        (-1152921504606846976 ≤ (l.heap p).Stats.GoalsAgainst ∧
          (l.heap p).Stats.GoalsAgainst ≤ 1152921504606846976)) →
      ∀ p ∈ [0, 1, 2, 3],
        (-1152921504606846976 ≤ (l.heap p).Stats.GoalsFor ∧
          (l.heap p).Stats.GoalsFor ≤ 1152921504606846976) ∧
        (-1152921504606846976 ≤ (l.heap p).Stats.GoalsAgainst ∧
          (l.heap p).Stats.GoalsAgainst ≤ 1152921504606846976) :=
    fun h p hp => h p (hs.teams.mem_iff.mpr hp)
  rw [teamTotal_eq_cells _ l hs.teams, teamTotal_eq_cells _ l hs.teams,
    teamTotal_eq_cells _ l hs.teams, teamTotal_eq_cells _ l hs.teams,
    teamTotal_eq_cells _ l hs.teams, teamTotal_eq_cells _ l hs.teams]
  simp only [cellTotal, goalBalance, resultBalance, List.map_cons, List.map_nil, List.sum_cons,
    List.sum_nil] at b1 b2 b3 ⊢
  refine ⟨by omega, ?_, by omega, by omega, ?_⟩
  · rw [even_iff_two_dvd]
    exact b3
  · intro hall
    have g0 := hbound hall 0 (by decide)
    have g1 := hbound hall 1 (by decide)
    have g2 := hbound hall 2 (by decide)
    have g3 := hbound hall 3 (by decide)
    have w0 := wrap64_of_range ((l.heap 0).Stats.GoalsFor - (l.heap 0).Stats.GoalsAgainst)
      (by omega) (by omega)
    have w1 := wrap64_of_range ((l.heap 1).Stats.GoalsFor - (l.heap 1).Stats.GoalsAgainst)
      (by omega) (by omega)
    have w2 := wrap64_of_range ((l.heap 2).Stats.GoalsFor - (l.heap 2).Stats.GoalsAgainst)
      (by omega) (by omega)
    have w3 := wrap64_of_range ((l.heap 3).Stats.GoalsFor - (l.heap 3).Stats.GoalsAgainst)
      (by omega) (by omega)
    rw [← d0] at w0
    rw [← d1] at w1
    rw [← d2] at w2
    rw [← d3] at w3
    constructor <;> omega

/-- Instance of the amended C20: the league after week one and a correction, where no
goal total is near the limits, so that the totals agree exactly. -/
theorem reachable_totals_conserved_witness :
    Reachable afterWeekOneCorrected ∧
    teamTotal (fun t => t.Stats.Won) afterWeekOneCorrected =
      teamTotal (fun t => t.Stats.Lost) afterWeekOneCorrected ∧
    Even (teamTotal (fun t => t.Stats.Drawn) afterWeekOneCorrected) ∧
    teamTotal (fun t => t.Stats.GoalsFor) afterWeekOneCorrected =
      teamTotal (fun t => t.Stats.GoalsAgainst) afterWeekOneCorrected ∧
    teamTotal (fun t => t.Stats.GoalDiff) afterWeekOneCorrected = 0 :=
  ⟨afterWeekOneCorrected_reachable,
    (reachable_totals_conserved afterWeekOneCorrected afterWeekOneCorrected_reachable).1,
    (reachable_totals_conserved afterWeekOneCorrected afterWeekOneCorrected_reachable).2.1,
    (reachable_totals_conserved afterWeekOneCorrected afterWeekOneCorrected_reachable).2.2.2.2
      (by decide!)⟩

/-! ## Championship predictor: the map -/

theorem mapSet_ne_nil (m : ScoreMap) (k : String) (v : ℚ) : mapSet m k v ≠ [] := by
  cases m with
  | nil => simp [mapSet]
  | cons e rest =>
    obtain ⟨k1, v1⟩ := e
    unfold mapSet
    split_ifs <;> simp

theorem mapSet_mem (m : ScoreMap) (k : String) (v : ℚ) :
    ∀ e ∈ mapSet m k v, e = (k, v) ∨ e ∈ m := by
  induction m with
  | nil => intro e he; left; simpa [mapSet] using he
  | cons e0 rest ih =>
    obtain ⟨k1, v1⟩ := e0
    intro e he
    unfold mapSet at he
    by_cases hk : k1 = k
    · rw [if_pos hk] at he
      rcases List.mem_cons.mp he with h | h
      · left; exact h
      · right; exact List.mem_cons_of_mem _ h
    · rw [if_neg hk] at he
      rcases List.mem_cons.mp he with h | h
      · right; rw [h]; exact List.mem_cons_self _ _
      · rcases ih e h with h2 | h2
        · left; exact h2
        · right; exact List.mem_cons_of_mem _ h2

theorem mapGet_mapSet_same (m : ScoreMap) (k : String) (v : ℚ) :
    mapGet (mapSet m k v) k = some v := by
  induction m with
  | nil => simp [mapSet, mapGet]
  | cons e0 rest ih =>
    obtain ⟨k1, v1⟩ := e0
    unfold mapSet
    by_cases hk : k1 = k
    · rw [if_pos hk]; simp [mapGet]
    · rw [if_neg hk]; simp [mapGet, hk, ih]

theorem mapGet_mapSet_other (m : ScoreMap) (k k2 : String) (v : ℚ) (hne : k2 ≠ k) :
    mapGet (mapSet m k v) k2 = mapGet m k2 := by
  induction m with
  | nil =>
    have : ¬ k = k2 := fun e => hne e.symm
    simp [mapSet, mapGet, this]
  | cons e0 rest ih =>
    obtain ⟨k1, v1⟩ := e0
    unfold mapSet
    by_cases hk : k1 = k
    · rw [if_pos hk]
      have h1 : ¬ k = k2 := fun e => hne e.symm
      have h2 : ¬ k1 = k2 := fun e => hne (e.symm.trans hk)
      simp [mapGet, h1, h2]
    · rw [if_neg hk]
      by_cases hk2 : k1 = k2
      · simp [mapGet, hk2]
      · simp [mapGet, hk2, ih]

theorem mapSet_absent (m : ScoreMap) (k : String) (v : ℚ) (hk : k ∉ m.map (fun e => e.1)) :
    mapSet m k v = m ++ [(k, v)] := by
  induction m with
  | nil => rfl
  | cons e0 rest ih =>
    obtain ⟨k1, v1⟩ := e0
    simp only [List.map_cons, List.mem_cons, not_or] at hk
    unfold mapSet
    rw [if_neg (fun e => hk.1 e.symm), ih hk.2]
    rfl

/-- The map built by assigning one value per team in slice order: every team name has
that team's value or a later same-named team's, and every entry comes from the start
map or from a team. -/
theorem foldl_mapSet_spec (name : Nat → String) (v : Nat → ℚ) (ts : List Nat) :
    ∀ acc : ScoreMap,
      (∀ p ∈ ts, ∃ q ∈ ts, name q = name p ∧
        mapGet (ts.foldl (fun m t => mapSet m (name t) (v t)) acc) (name p) = some (v q)) ∧
      (∀ e ∈ ts.foldl (fun m t => mapSet m (name t) (v t)) acc,
        e ∈ acc ∨ ∃ q ∈ ts, e = (name q, v q)) ∧
      (∀ k, k ∉ ts.map name →
        mapGet (ts.foldl (fun m t => mapSet m (name t) (v t)) acc) k = mapGet acc k) := by
  induction ts with
  | nil =>
    intro acc
    exact ⟨fun p hp => (by cases hp), fun e he => Or.inl he, fun k _ => rfl⟩
  | cons t rest ih =>
    intro acc
    obtain ⟨i1, i2, i3⟩ := ih (mapSet acc (name t) (v t))
    simp only [List.foldl_cons]
    refine ⟨?_, ?_, ?_⟩
    · intro p hp
      by_cases hin : name p ∈ rest.map name
      · obtain ⟨p2, hp2, e2⟩ := List.mem_map.mp hin
        obtain ⟨q, hq, e3, e4⟩ := i1 p2 hp2
        exact ⟨q, List.mem_cons_of_mem _ hq, e3.trans e2, by rw [← e2]; exact e4⟩
      · rcases List.mem_cons.mp hp with e | hp2
        · refine ⟨t, List.mem_cons_self _ _, by rw [e], ?_⟩
          rw [i3 _ hin, e, mapGet_mapSet_same]
        · exact absurd (List.mem_map_of_mem name hp2) hin
    · intro e he
      rcases i2 e he with h | ⟨q, hq, h⟩
      · rcases mapSet_mem acc _ _ e h with h2 | h2
        · right; exact ⟨t, List.mem_cons_self _ _, h2⟩
        · left; exact h2
      · right; exact ⟨q, List.mem_cons_of_mem _ hq, h⟩
    · intro k hk
      simp only [List.map_cons, List.mem_cons, not_or] at hk
      rw [i3 k hk.2, mapGet_mapSet_other _ _ _ _ hk.1]

/-- C13, as stated, fails: in a league of five teams with `CurrentWeek = 0`,
`PredictChampionship` gives every team 25, which is not the equal share `100 / 5 = 20`;
the five predictions add up to 125. -/
theorem week_zero_share_is_25_for_five_teams :
    fiveTeamsAtStart.CurrentWeek = 0 ∧ fiveTeamsAtStart.Teams.length = 5 ∧
    (PredictChampionship fiveTeamsAtStart).2 =
      [("Chelsea", 25), ("Arsenal", 25), ("Manchester City", 25), ("Liverpool", 25),
        ("Everton", 25)] ∧
    (25 : ℚ) ≠ 100 / (fiveTeamsAtStart.Teams.length : ℚ) ∧
    ((PredictChampionship fiveTeamsAtStart).2.map (fun e => e.2)).sum = 125 :=
  ⟨by decide, by decide, by decide!, by decide!, by decide!⟩

/-- C13, amended: for every league state with `CurrentWeek = 0`, `PredictChampionship`
gives every team exactly 25, whatever the statistics, the strengths and the number of
teams; every entry of the returned map is a team's and the league is left as it was.
The value 25 is the equal share `100 / teamCount` exactly when the league has four
teams, which every league state reachable from `NewLeague` has. -/
theorem PredictChampionship_week_zero (l : League) (h0 : l.CurrentWeek = 0) :
    (PredictChampionship l).1 = l ∧
    (∀ p ∈ l.Teams, mapGet (PredictChampionship l).2 (l.heap p).Name = some 25) ∧
    (∀ e ∈ (PredictChampionship l).2, e.2 = 25 ∧ ∃ p ∈ l.Teams, (l.heap p).Name = e.1) ∧
    ((25 : ℚ) = 100 / (l.Teams.length : ℚ) ↔ l.Teams.length = 4) ∧
    (Reachable l → l.Teams.length = 4) := by
  obtain ⟨s1, s2, _⟩ := foldl_mapSet_spec (fun p => (l.heap p).Name) (fun _ => 25) l.Teams []
  have hfour : Reachable l → l.Teams.length = 4 := fun hr => (reachable_shape l hr).teams.length_eq
  unfold PredictChampionship
  simp only [h0, if_true]
  refine ⟨trivial, ?_, ?_, ?_, hfour⟩
  · intro p hp
    obtain ⟨q, _, _, e⟩ := s1 p hp
    exact e
  · intro e he
    rcases s2 e he with h | ⟨q, hq, h⟩
    · cases h
    · rw [h]; exact ⟨rfl, q, hq, rfl⟩
  · constructor
    · intro h
      by_cases hz : (l.Teams.length : ℚ) = 0
      · rw [hz] at h; norm_num at h
      · have h2 : (25 : ℚ) * (l.Teams.length : ℚ) = 100 := by
          rw [h]; field_simp
        have h3 : (l.Teams.length : ℚ) = 4 := by linarith
        exact_mod_cast h3
    · intro h4
      rw [h4]; norm_num

/-- Instance of the amended C13: the fresh league, which has four teams. -/
theorem PredictChampionship_week_zero_witness :
    (PredictChampionship NewLeague).2 =
      [("Chelsea", 25), ("Arsenal", 25), ("Manchester City", 25), ("Liverpool", 25)] ∧
    (∀ p ∈ NewLeague.Teams,
      mapGet (PredictChampionship NewLeague).2 (NewLeague.heap p).Name = some 25) ∧
    (25 : ℚ) = 100 / (NewLeague.Teams.length : ℚ) :=
  ⟨by decide!, (PredictChampionship_week_zero NewLeague rfl).2.1,
    (PredictChampionship_week_zero NewLeague rfl).2.2.2.1.mpr rfl⟩

/-! ## Championship predictor: the percentages -/

theorem clampPercentage_ge_one (x : ℚ) : 1 ≤ clampPercentage x := by
  unfold clampPercentage
  split_ifs with h1 h2
  · exact le_refl _
  · norm_num
  · exact not_lt.mp h1

theorem values_sum_pos (m : ScoreMap) (hne : m ≠ []) (hge : ∀ e ∈ m, 1 ≤ e.2) :
    0 < (m.map (fun e => e.2)).sum := by
  induction m with
  | nil => exact absurd rfl hne
  | cons e rest ih =>
    have h1 := hge e (List.mem_cons_self _ _)
    have h2 : 0 ≤ (rest.map (fun e => e.2)).sum := by
      cases rest with
      | nil => simp
      | cons e2 rest2 =>
        exact le_of_lt (ih (by simp) (fun x hx => hge x (List.mem_cons_of_mem _ hx)))
    simp only [List.map_cons, List.sum_cons]
    linarith

theorem values_sum_scaled (m : ScoreMap) (t : ℚ) :
    ((m.map (fun e => (e.1, e.2 / t * 100))).map (fun e => e.2)).sum =
      (m.map (fun e => e.2)).sum / t * 100 := by
  induction m with
  | nil => simp
  | cons e rest ih =>
    simp only [List.map_cons, List.sum_cons, ih]
    ring

/-- The final pass makes the entries sum to 100 as soon as there is an entry and every
entry is at least 1. -/
theorem normalize_sum (m : ScoreMap) (hne : m ≠ []) (hge : ∀ e ∈ m, 1 ≤ e.2) :
    ((normalize m).map (fun e => e.2)).sum = 100 := by
  have hpos := values_sum_pos m hne hge
  unfold normalize
  simp only [hpos, if_true]
  rw [values_sum_scaled, div_self (ne_of_gt hpos)]
  norm_num

theorem toPercentages_ge_one (m : ScoreMap) (t : ℚ) : ∀ e ∈ toPercentages m t, 1 ≤ e.2 := by
  intro e he
  unfold toPercentages at he
  obtain ⟨x, _, hx⟩ := List.mem_map.mp he
  rw [← hx]
  exact clampPercentage_ge_one _

theorem toPercentages_ne_nil (m : ScoreMap) (t : ℚ) (hne : m ≠ []) :
    toPercentages m t ≠ [] := by
  unfold toPercentages
  simpa using hne

theorem scoreStep_ne_nil (acc : League × ScoreMap × ℚ) (i : Nat) (h : acc.2.1 ≠ []) :
    (scoreStep acc i).2.1 ≠ [] := by
  unfold scoreStep
  cases acc.1.Teams.get? i with
  | none => exact h
  | some team => exact mapSet_ne_nil _ _ _

theorem scoreLoop_steps_ne_nil (is : List Nat) :
    ∀ acc : League × ScoreMap × ℚ, acc.2.1 ≠ [] → (is.foldl scoreStep acc).2.1 ≠ [] := by
  induction is with
  | nil => intro acc h; exact h
  | cons i rest ih =>
    intro acc h
    simp only [List.foldl_cons]
    exact ih _ (scoreStep_ne_nil acc i h)

/-- With at least one team the scoring loop leaves at least one score. -/
theorem scoreLoop_ne_nil (l : League) (hne : l.Teams ≠ []) : (scoreLoop l).2.1 ≠ [] := by
  unfold scoreLoop
  obtain ⟨n, hn⟩ : ∃ n, l.Teams.length = n + 1 := by
    cases hts : l.Teams with
    | nil => exact absurd hts hne
    | cons t rest => exact ⟨rest.length, rfl⟩
  rw [hn, List.range_succ_eq_map, List.foldl_cons]
  apply scoreLoop_steps_ne_nil
  unfold scoreStep
  cases hts : l.Teams with
  | nil => exact absurd hts hne
  | cons t rest =>
    simp only [List.get?_cons_zero]
    exact mapSet_ne_nil _ _ _

theorem foldl_mapSet_distinct (name : Nat → String) (v : Nat → ℚ) (ts : List Nat) :
    ∀ acc : ScoreMap, (ts.map name).Nodup → (∀ p ∈ ts, name p ∉ acc.map (fun e => e.1)) →
      ts.foldl (fun m t => mapSet m (name t) (v t)) acc =
        acc ++ ts.map (fun p => (name p, v p)) := by
  induction ts with
  | nil => intro acc _ _; simp
  | cons t rest ih =>
    intro acc hnd hacc
    rw [List.map_cons, List.nodup_cons] at hnd
    simp only [List.foldl_cons]
    rw [mapSet_absent acc _ _ (hacc t (List.mem_cons_self _ _)), ih _ hnd.2]
    · simp
    · intro p hp
      simp only [List.map_append, List.map_cons, List.map_nil, List.mem_append,
        List.mem_singleton, not_or]
      refine ⟨hacc p (List.mem_cons_of_mem _ hp), ?_⟩
      intro e
      exact hnd.1 (e ▸ List.mem_map_of_mem name hp)

/-- C11: for every league of four teams with pairwise different names, whatever the
round counter, statistics, strengths and storage order, the percentages returned by
`PredictChampionship`, computed in exact arithmetic, sum to 100 over the returned
entries. -/
theorem predictions_sum_to_100 (l : League) (hlen : l.Teams.length = 4)
    (hnames : (l.Teams.map (fun p => (l.heap p).Name)).Nodup) :
    ((PredictChampionship l).2.map (fun e => e.2)).sum = 100 := by
  unfold PredictChampionship
  by_cases h0 : l.CurrentWeek = 0
  · simp only [h0, if_true]
    rw [foldl_mapSet_distinct (fun p => (l.heap p).Name) (fun _ => 25) l.Teams [] hnames
      (by simp)]
    simp only [List.nil_append, List.map_map]
    have hconst : ∀ ts : List Nat,
        (ts.map ((fun e : String × ℚ => e.2) ∘ fun p => ((l.heap p).Name, (25 : ℚ)))).sum =
          25 * ts.length := by
      intro ts
      induction ts with
      | nil => simp
      | cons t rest ih =>
        simp only [List.map_cons, List.sum_cons, ih, List.length_cons, Function.comp]
        push_cast
        ring
    rw [hconst, hlen]
    norm_num
  · simp only [h0, if_false]
    have hne : l.Teams ≠ [] := by
      intro e; rw [e] at hlen; cases hlen
    exact normalize_sum _ (toPercentages_ne_nil _ _ (scoreLoop_ne_nil l hne))
      (toPercentages_ge_one _ _)

/-- Instance of C11: the league right after the first week's matches; the returned map
has three entries and they sum to 100. -/
theorem predictions_sum_to_100_witness :
    (PredictChampionship weekOneResolved).2.length = 3 ∧
    ((PredictChampionship weekOneResolved).2.map (fun e => e.2)).sum = 100 :=
  ⟨by decide!, predictions_sum_to_100 weekOneResolved (by decide!) (by decide!)⟩

/-! ## Championship predictor: which teams get an entry -/

/-- Why the order of the storage matters.  The state in the middle of the first
`PlayNextWeek`, with the week's results applied and the strength loop not yet run, is not
in table order and no handler calls `PredictChampionship` on it; if it were called there,
the returned map would have entries for Chelsea, Arsenal and Manchester City only and
none for Liverpool, top of the table. -/
theorem PredictChampionship_misses_leader :
    weekOneResolved.CurrentWeek = 1 ∧ weekOneResolved.Teams = [0, 1, 2, 3] ∧
    weekOneResolved.Teams.map (fun p => (weekOneResolved.heap p).Name) =
      ["Chelsea", "Arsenal", "Manchester City", "Liverpool"] ∧
    (PredictChampionship weekOneResolved).2.map (fun e => e.1) =
      ["Chelsea", "Arsenal", "Manchester City"] ∧
    mapGet (PredictChampionship weekOneResolved).2 "Liverpool" = none := by
  refine ⟨by decide!, by decide!, by decide!, by decide!, by decide!⟩

theorem GetTable_of_inTableOrder (l : League) (hs : InTableOrder l) :
    GetTable l = (l, l.Teams) := by
  unfold GetTable
  rw [sortSlice_of_sorted _ _ (hs.imp (fun hab => (tableLess_false_iff _ _).mpr hab))]

theorem getTeamPosition_of_inTableOrder (l : League) (hs : InTableOrder l) (n : String) :
    (getTeamPosition l n).1 = l := by
  unfold getTeamPosition
  rw [GetTable_of_inTableOrder l hs]

/-- On storage in table order the scoring loop leaves the league as it is and assigns
one score per team in storage order. -/
theorem scoreLoop_steps_inTableOrder (l : League) (hs : InTableOrder l) (rest : List Nat) :
    ∀ (pre : List Nat) (sm : ScoreMap) (tot : ℚ), l.Teams = pre ++ rest →
      ∃ tot2, (List.range' pre.length rest.length).foldl scoreStep (l, sm, tot) =
        (l, rest.foldl (fun m t => mapSet m (l.heap t).Name
          (teamScore l (l.heap t) (getTeamPosition l (l.heap t).Name).2)) sm, tot2) := by
  induction rest with
  | nil => intro pre sm tot _; exact ⟨tot, rfl⟩
  | cons x rest2 ih =>
    intro pre sm tot hsplit
    have hget : l.Teams.get? pre.length = some x := by
      rw [hsplit, List.get?_eq_getElem?, List.getElem?_append_right (le_refl _)]
      simp
    have hstep : scoreStep (l, sm, tot) pre.length =
        (l, mapSet sm (l.heap x).Name
            (teamScore l (l.heap x) (getTeamPosition l (l.heap x).Name).2),
          tot + teamScore l (l.heap x) (getTeamPosition l (l.heap x).Name).2) := by
      unfold scoreStep
      simp only [hget, getTeamPosition_of_inTableOrder l hs]
    obtain ⟨tot2, e⟩ := ih (pre ++ [x]) _ _ (by rw [hsplit]; simp)
    refine ⟨tot2, ?_⟩
    rw [List.length_cons, List.range'_succ, List.foldl_cons, hstep]
    simp only [List.length_append, List.length_singleton] at e
    exact e

theorem mapGet_map_values (m : ScoreMap) (g : ℚ → ℚ) (k : String) :
    mapGet (m.map (fun e => (e.1, g e.2))) k = (mapGet m k).map g := by
  induction m with
  | nil => rfl
  | cons e rest ih =>
    obtain ⟨k1, v1⟩ := e
    by_cases hk : k1 = k
    · simp [mapGet, hk]
    · simp [mapGet, hk, ih]

theorem normalize_keys (m : ScoreMap) (k : String) :
    (mapGet (normalize m) k).isSome = (mapGet m k).isSome := by
  unfold normalize
  dsimp only
  split_ifs
  · rw [mapGet_map_values m (fun v => v / (m.map (fun e => e.2)).sum * 100)]
    cases mapGet m k <;> rfl
  · rfl

theorem normalize_entries (m : ScoreMap) : ∀ e ∈ normalize m, ∃ e0 ∈ m, e0.1 = e.1 := by
  intro e he
  unfold normalize at he
  dsimp only at he
  split_ifs at he
  · obtain ⟨e0, h0, h1⟩ := List.mem_map.mp he
    exact ⟨e0, h0, by rw [← h1]⟩
  · exact ⟨e, he, rfl⟩

/-- Completeness of the map on storage in table order: for every league with `CurrentWeek` other
than 0 whose `Teams` storage is in table order, the returned map has an entry for every
team of the league and for no other name, and the league is left as it was. -/
theorem PredictChampionship_complete_inTableOrder (l : League) (hw : l.CurrentWeek ≠ 0)
    (hs : InTableOrder l) :
    (PredictChampionship l).1 = l ∧
    (∀ p ∈ l.Teams, (mapGet (PredictChampionship l).2 (l.heap p).Name).isSome = true) ∧
    (∀ e ∈ (PredictChampionship l).2, ∃ p ∈ l.Teams, (l.heap p).Name = e.1) := by
  obtain ⟨tot2, hloop⟩ := scoreLoop_steps_inTableOrder l hs l.Teams [] [] 0 (by simp)
  have hloop2 : scoreLoop l = (l, l.Teams.foldl (fun m t => mapSet m (l.heap t).Name
      (teamScore l (l.heap t) (getTeamPosition l (l.heap t).Name).2)) [], tot2) := by
    unfold scoreLoop
    rw [List.range_eq_range']
    exact hloop
  obtain ⟨s1, s2, _⟩ := foldl_mapSet_spec (fun p => (l.heap p).Name)
    (fun t => teamScore l (l.heap t) (getTeamPosition l (l.heap t).Name).2) l.Teams []
  unfold PredictChampionship
  simp only [hw, if_false, hloop2]
  refine ⟨trivial, ?_, ?_⟩
  · intro p hp
    obtain ⟨q, _, _, e⟩ := s1 p hp
    rw [normalize_keys]
    unfold toPercentages
    rw [mapGet_map_values _ (fun v => clampPercentage (if tot2 > 0 then v / tot2 * 100 else 25)),
      e]
    rfl
  · intro e he
    obtain ⟨e0, h0, h1⟩ := normalize_entries _ e he
    unfold toPercentages at h0
    obtain ⟨e1, h2, h3⟩ := List.mem_map.mp h0
    rcases s2 e1 h2 with h | ⟨q, hq, h⟩
    · cases h
    · refine ⟨q, hq, ?_⟩
      rw [← h1, ← h3, h]

/-! ## Reachable states: storage in table order -/

theorem StrengthOnly.tripleGe_iff {h h2 : Heap} (hs : StrengthOnly h h2) (p q : Nat) :
    tripleGe (h2 p) (h2 q) ↔ tripleGe (h p) (h q) := by
  unfold tripleGe
  rw [(hs p).2.1, (hs q).2.1]

theorem GetTable_inTableOrder (l : League) : InTableOrder (GetTable l).1 := by
  have h := sortSlice_pairwise (fun p q => tableLess (l.heap p) (l.heap q))
    (fun a b => tableLess_asymm _ _) (fun a b c => tableLess_negTrans _ _ _) l.Teams
  exact h.imp (fun hab => (tableLess_false_iff _ _).mp hab)

theorem UpdateTeamStrength_idle (l : League) (team : Nat)
    (hpl : (l.heap team).Stats.Played = 0) : UpdateTeamStrength l team = l := by
  unfold UpdateTeamStrength
  simp only [hpl, if_true]

/-- An adjustment of a team with matches played leaves the storage in table order. -/
theorem UpdateTeamStrength_sorts (l : League) (team : Nat)
    (hpl : (l.heap team).Stats.Played ≠ 0) : InTableOrder (UpdateTeamStrength l team) := by
  have hsorted := GetTable_inTableOrder l
  have hteams : (UpdateTeamStrength l team).Teams = (GetTable l).1.Teams := by
    unfold UpdateTeamStrength
    simp only [hpl, if_false]
    rfl
  have hso : StrengthOnly l.heap (UpdateTeamStrength l team).heap :=
    (UpdateTeamStrength_readjusted l team).2.2.2.2.2
  unfold InTableOrder
  rw [hteams]
  exact hsorted.imp (fun hab => (hso.tripleGe_iff _ _).mpr hab)

theorem UpdateTeamStrength_keeps_order (l : League) (team : Nat) (hs : InTableOrder l) :
    InTableOrder (UpdateTeamStrength l team) := by
  by_cases hpl : (l.heap team).Stats.Played = 0
  · rw [UpdateTeamStrength_idle l team hpl]; exact hs
  · exact UpdateTeamStrength_sorts l team hpl

theorem strengthSteps_keep_order (is : List Nat) :
    ∀ acc : League, InTableOrder acc →
      InTableOrder (is.foldl (fun acc i =>
        match acc.Teams.get? i with
        | some team => UpdateTeamStrength acc team
        | none => acc) acc) := by
  induction is with
  | nil => intro acc h; exact h
  | cons j rest ih =>
    intro acc h
    simp only [List.foldl_cons]
    apply ih
    cases acc.Teams.get? j with
    | none => exact h
    | some t => exact UpdateTeamStrength_keeps_order acc t h

/-- Iterations of the strength loop: either some visited team has played, and the
storage ends in table order, or nothing changes. -/
theorem strengthSteps_sorted_or_idle (is : List Nat) :
    ∀ acc : League,
      InTableOrder (is.foldl (fun acc i =>
        match acc.Teams.get? i with
        | some team => UpdateTeamStrength acc team
        | none => acc) acc) ∨
      ((is.foldl (fun acc i =>
        match acc.Teams.get? i with
        | some team => UpdateTeamStrength acc team
        | none => acc) acc) = acc ∧
        ∀ i ∈ is, ∀ t, acc.Teams.get? i = some t → (acc.heap t).Stats.Played = 0) := by
  induction is with
  | nil => intro acc; right; exact ⟨rfl, fun i hi => by cases hi⟩
  | cons i rest ih =>
    intro acc
    simp only [List.foldl_cons]
    cases hget : acc.Teams.get? i with
    | none =>
      rcases ih acc with h | ⟨h1, h2⟩
      · left; exact h
      · right
        refine ⟨h1, ?_⟩
        intro j hj t ht
        rcases List.mem_cons.mp hj with e | hj2
        · rw [e, hget] at ht; cases ht
        · exact h2 j hj2 t ht
    | some team =>
      by_cases hpl : (acc.heap team).Stats.Played = 0
      · simp only [UpdateTeamStrength_idle acc team hpl]
        rcases ih acc with h | ⟨h1, h2⟩
        · left; exact h
        · right
          refine ⟨h1, ?_⟩
          intro j hj t ht
          rcases List.mem_cons.mp hj with e | hj2
          · rw [e, hget] at ht
            rw [← Option.some.inj ht]; exact hpl
          · exact h2 j hj2 t ht
      · left
        exact strengthSteps_keep_order rest _ (UpdateTeamStrength_sorts acc team hpl)

/-- The strength loop leaves the storage in table order unless no team of the league
has played, in which case it changes nothing. -/
theorem updateStrengths_sorted_or_idle (l : League) :
    InTableOrder (updateStrengths l) ∨
    (updateStrengths l = l ∧ ∀ p ∈ l.Teams, (l.heap p).Stats.Played = 0) := by
  unfold updateStrengths
  rcases strengthSteps_sorted_or_idle (List.range l.Teams.length) l with h | ⟨h1, h2⟩
  · left; exact h
  · right
    refine ⟨h1, ?_⟩
    intro p hp
    obtain ⟨i, hi, e⟩ := List.getElem_of_mem hp
    apply h2 i (List.mem_range.mpr hi) p
    rw [List.get?_eq_getElem?, List.getElem?_eq_getElem hi, e]

theorem fixture_week_exists :
    ∀ w ∈ [(1 : Int), 2, 3, 4, 5, 6], ∃ k ∈ (generateFixtures []).map matchKey, k.1 = w := by
  decide

theorem playedCount_pos (n : String) (ms : List Match) (m : Match) (hm : m ∈ ms)
    (hi : involves n m = true) (hpl : m.Played = true) : 1 ≤ playedCount n ms := by
  unfold playedCount
  have h : 0 < ms.countP (fun m => involves n m && m.Played) :=
    List.countP_pos_iff.mpr ⟨m, hm, by simp [hi, hpl]⟩
  omega

/-- In a reachable league past week 0 some team of the league has played. -/
theorem reachable_someone_played (l : League) (hr : Reachable l) (hw : 1 ≤ l.CurrentWeek) :
    ∃ p ∈ l.Teams, (l.heap p).Stats.Played ≠ 0 := by
  have hs := reachable_shape l hr
  have hw6 := hs.week.2
  have hmemw : l.CurrentWeek ∈ [(1 : Int), 2, 3, 4, 5, 6] := by
    have h1 : l.CurrentWeek = 1 ∨ l.CurrentWeek = 2 ∨ l.CurrentWeek = 3 ∨ l.CurrentWeek = 4 ∨
        l.CurrentWeek = 5 ∨ l.CurrentWeek = 6 := by omega
    simpa using h1
  obtain ⟨k, hk, hkw⟩ := fixture_week_exists l.CurrentWeek hmemw
  rw [← hs.keys] at hk
  obtain ⟨m, hm, hmk⟩ := List.mem_map.mp hk
  have hweek : m.Week = l.CurrentWeek := by
    rw [← hkw, ← hmk]; rfl
  have hplayed := reachable_played_upto l hr m hm (le_of_eq hweek)
  obtain ⟨hp, ap, eh, _, _, _, _⟩ := hs.resolve m hm
  obtain ⟨hname, hmem⟩ := findTeam_some l.heap _ l.Teams hp eh
  have hmem4 : hp ∈ [0, 1, 2, 3] := hs.teams.mem_iff.mp hmem
  have hcount := reachable_played_count l hr hp hmem4
  have hinv : involves (initialHeap hp).Name m = true := by
    rw [← hs.names hp, hname]
    simp [involves]
  have hpos := playedCount_pos _ l.Matches m hm hinv hplayed
  exact ⟨hp, hmem, by omega⟩

theorem NewLeague_inTableOrder : InTableOrder NewLeague := by
  simp [InTableOrder, NewLeague, initialHeap, tripleGe, zeroStats]

/-- Every league state reachable from `NewLeague` has its `Teams` storage in table
order; `GetTable` therefore returns it unchanged. -/
theorem reachable_inTableOrder (l : League) (hr : Reachable l) : InTableOrder l := by
  induction hr with
  | fresh => exact NewLeague_inTableOrder
  | @advance l rng o rng2 hreach hstep ih =>
    have hro : Reachable o.league := Reachable.advance rng hreach hstep
    rcases PlayNextWeek_inv l rng o rng2 hstep with ⟨_, e, _⟩ | ⟨_, ms, h, _, e⟩
    · rw [e]; exact ih
    · have hw0 := (reachable_shape l hreach).week.1
      rcases updateStrengths_sorted_or_idle
        { l with CurrentWeek := l.CurrentWeek + 1, Matches := ms, heap := h } with hsorted | hidle
      · rw [e]; exact hsorted
      · exfalso
        have hol : o.league =
            { l with CurrentWeek := l.CurrentWeek + 1, Matches := ms, heap := h } := by
          rw [e]; exact hidle.1
        have hweek : 1 ≤ o.league.CurrentWeek := by
          rw [hol]
          show 1 ≤ l.CurrentWeek + 1
          omega
        obtain ⟨p, hp, hne⟩ := reachable_someone_played o.league hro hweek
        rw [hol] at hp hne
        exact hne (hidle.2 p hp)
  | @correct l week home away hg ag o _ hstep ih =>
    rcases editMatchResult_inv l week home away hg ag o hstep with
      e | ⟨pre, m, post, hp, ap, _, _, _, _, e⟩
    · rw [e]; exact ih
    · rw [e]; exact GetTable_inTableOrder _
  | @table l _ ih => exact GetTable_inTableOrder l

/-- C12: in every league state with `CurrentWeek > 0` that is reachable from `NewLeague`
by round advances, match corrections and standings queries, the map returned by
`PredictChampionship` has an entry for every team of the league and for no other
name. -/
theorem predictions_cover_every_team (l : League) (hr : Reachable l)
    (hw : 0 < l.CurrentWeek) :
    (∀ p ∈ l.Teams, (mapGet (PredictChampionship l).2 (l.heap p).Name).isSome = true) ∧
    (∀ e ∈ (PredictChampionship l).2, ∃ p ∈ l.Teams, (l.heap p).Name = e.1) :=
  (PredictChampionship_complete_inTableOrder l (ne_of_gt hw) (reachable_inTableOrder l hr)).2

/-- Instance of C12: the league after week one and a correction of its first match. -/
theorem predictions_cover_every_team_witness :
    Reachable afterWeekOneCorrected ∧ 0 < afterWeekOneCorrected.CurrentWeek ∧
    (∀ p ∈ afterWeekOneCorrected.Teams,
      (mapGet (PredictChampionship afterWeekOneCorrected).2
        (afterWeekOneCorrected.heap p).Name).isSome = true) ∧
    (PredictChampionship afterWeekOneCorrected).2.map (fun e => e.1) =
      ["Liverpool", "Chelsea", "Arsenal", "Manchester City"] :=
  ⟨afterWeekOneCorrected_reachable, by decide!,
    (predictions_cover_every_team afterWeekOneCorrected afterWeekOneCorrected_reachable
      (by decide!)).1, by decide!⟩

end Football
